import Mathlib

/-!
Verification of the media-store subsystem of the Audit-Tool repository.

The Python sources (`media_store.py`, `common.py`, `editor.py`) are shallowly
embedded below.  Strings are modelled as `List Char` (`Chars`), the on-disk
state as a `Store` structure holding the three media directories and the
deduplication registry, and the image/JPEG codec as an abstract environment
`Env` of functions (decode, hash, encode, reopen, size, resize), since the
concrete pixel arithmetic of PIL is outside the program text.  All
definitions are executable and follow the Python control flow line by line.
-/

set_option maxRecDepth 20000

namespace AuditTool

abbrev Chars := List Char

/-- `isPre p s` is Python's `s.startswith(p)` (on char lists). -/
def isPre : Chars → Chars → Bool
  | [], _ => true
  | _ :: _, [] => false
  | a :: as, b :: bs => a == b && isPre as bs

/-- `hasSub p s` is Python's `p in s` (substring containment). -/
def hasSub (p : Chars) : Chars → Bool
  | [] => isPre p []
  | c :: cs => isPre p (c :: cs) || hasSub p cs

/-- Strip a literal front part: `stripPre p s = some r` iff `s = p ++ r`. -/
def stripPre : Chars → Chars → Option Chars
  | [], s => some s
  | _ :: _, [] => none
  | a :: as, b :: bs => if a == b then stripPre as bs else none

theorem isPre_iff (p s : Chars) : isPre p s = true ↔ ∃ r, s = p ++ r := by
  induction p generalizing s with
  | nil => simp [isPre]
  | cons a as ih =>
    cases s with
    | nil => simp [isPre]
    | cons b bs =>
      simp only [isPre, Bool.and_eq_true, beq_iff_eq, ih, List.cons_append]
      constructor
      · rintro ⟨rfl, r, rfl⟩; exact ⟨r, rfl⟩
      · rintro ⟨r, h⟩; cases h; exact ⟨rfl, r, rfl⟩

theorem stripPre_append (p r : Chars) : stripPre p (p ++ r) = some r := by
  induction p with
  | nil => rfl
  | cons a as ih => simp [stripPre, ih]

theorem stripPre_eq_some {p s r : Chars} (h : stripPre p s = some r) : s = p ++ r := by
  induction p generalizing s with
  | nil => simp only [stripPre, Option.some.injEq] at h; simpa using h
  | cons a as ih =>
    cases s with
    | nil => simp [stripPre] at h
    | cons b bs =>
      by_cases hab : a = b
      · subst hab
        simp only [stripPre, beq_self_eq_true, if_pos] at h
        simpa using ih h
      · simp [stripPre, hab] at h

/-- Swap forward and back slashes in a char (used to state separator symmetry). -/
def swapSlash (c : Char) : Char :=
  if c = '/' then '\\' else if c = '\\' then '/' else c

def swapSlashes (s : Chars) : Chars := s.map swapSlash

theorem swapSlash_invol (c : Char) : swapSlash (swapSlash c) = c := by
  unfold swapSlash
  by_cases h1 : c = '/' <;> by_cases h2 : c = '\\' <;> simp [h1, h2]

theorem swapSlashes_invol (s : Chars) : swapSlashes (swapSlashes s) = s := by
  unfold swapSlashes
  rw [List.map_map]
  have : swapSlash ∘ swapSlash = id := by
    funext c; simp [Function.comp, swapSlash_invol]
  rw [this, List.map_id]

theorem isPre_map_of_injective {f : Char → Char} (hf : Function.Injective f)
    (p s : Chars) : isPre (p.map f) (s.map f) = isPre p s := by
  induction p generalizing s with
  | nil => rfl
  | cons a as ih =>
    cases s with
    | nil => rfl
    | cons b bs =>
      simp only [List.map_cons, isPre, ih]
      by_cases h : a = b
      · simp [h]
      · have hfa : ¬ f a = f b := fun he => h (hf he)
        have h1 : (a == b) = false := by simp [h]
        have h2 : (f a == f b) = false := by simp [hfa]
        rw [h1, h2]

theorem hasSub_map_of_injective {f : Char → Char} (hf : Function.Injective f)
    (p s : Chars) : hasSub (p.map f) (s.map f) = hasSub p s := by
  induction s with
  | nil => cases p <;> simp [hasSub, isPre]
  | cons b bs ih =>
    simp only [List.map_cons, hasSub, ih]
    have : (f b :: List.map f bs) = (b :: bs).map f := rfl
    rw [this, isPre_map_of_injective hf]

theorem swapSlash_injective : Function.Injective swapSlash := by
  intro a b h
  have := congrArg swapSlash h
  rwa [swapSlash_invol, swapSlash_invol] at this

/-! ## Media reference classification (media_store.py lines 351-375)

```python
def is_base_image_ref(ref):
    if not ref: return False
    return (ref.startswith("MEDIA_IMG__") or
            ref.startswith("base_images/") or ref.startswith("base_images\\") or
            "/base_images/" in ref or "\\base_images\\" in ref)
```
and the analogous `is_base_video_ref`, `is_overlay_ref`. -/

def preImg : Chars := "MEDIA_IMG__".data
def preVid : Chars := "MEDIA_VID__".data
def preCanvas : Chars := "CANVAS__".data
def dirImgF : Chars := "base_images/".data
def dirImgB : Chars := "base_images\\".data
def dirImgFM : Chars := "/base_images/".data
def dirImgBM : Chars := "\\base_images\\".data
def dirVidF : Chars := "base_videos/".data
def dirVidB : Chars := "base_videos\\".data
def dirVidFM : Chars := "/base_videos/".data
def dirVidBM : Chars := "\\base_videos\\".data
def dirOvlF : Chars := "overlays/".data
def dirOvlB : Chars := "overlays\\".data
def dirOvlFM : Chars := "/overlays/".data
def dirOvlBM : Chars := "\\overlays\\".data

def isBaseImageRef (ref : Chars) : Bool :=
  !ref.isEmpty &&
    (isPre preImg ref || isPre dirImgF ref || isPre dirImgB ref ||
     hasSub dirImgFM ref || hasSub dirImgBM ref)

def isBaseVideoRef (ref : Chars) : Bool :=
  !ref.isEmpty &&
    (isPre preVid ref || isPre dirVidF ref || isPre dirVidB ref ||
     hasSub dirVidFM ref || hasSub dirVidBM ref)

def isOverlayRef (ref : Chars) : Bool :=
  !ref.isEmpty &&
    (isPre preCanvas ref || isPre dirOvlF ref || isPre dirOvlB ref ||
     hasSub dirOvlFM ref || hasSub dirOvlBM ref)

theorem isPre_self_append (p r : Chars) : isPre p (p ++ r) = true :=
  (isPre_iff p (p ++ r)).2 ⟨r, rfl⟩

theorem hasSub_append_mid (a p b : Chars) : hasSub p (a ++ (p ++ b)) = true := by
  induction a with
  | nil =>
    cases hp : p with
    | nil =>
      cases b with
      | nil => rfl
      | cons c cs => simp [hasSub, isPre]
    | cons q qs =>
      have : hasSub (q :: qs) ((q :: qs) ++ b) =
          (isPre (q :: qs) ((q :: qs) ++ b) || hasSub (q :: qs) (qs ++ b)) := rfl
      rw [List.nil_append, this, isPre_self_append, Bool.true_or]
  | cons x xs ih =>
    have : hasSub p ((x :: xs) ++ (p ++ b)) =
        (isPre p ((x :: xs) ++ (p ++ b)) || hasSub p (xs ++ (p ++ b))) := by
      cases p <;> rfl
    rw [this, ih, Bool.or_true]

theorem isPre_swap (p s : Chars) :
    isPre p (swapSlashes s) = isPre (swapSlashes p) s := by
  have h := isPre_map_of_injective swapSlash_injective (swapSlashes p) s
  rw [show (swapSlashes p).map swapSlash = swapSlashes (swapSlashes p) from rfl,
      swapSlashes_invol] at h
  exact h.symm ▸ rfl

theorem hasSub_swap (p s : Chars) :
    hasSub p (swapSlashes s) = hasSub (swapSlashes p) s := by
  have h := hasSub_map_of_injective swapSlash_injective (swapSlashes p) s
  rw [show (swapSlashes p).map swapSlash = swapSlashes (swapSlashes p) from rfl,
      swapSlashes_invol] at h
  exact h.symm ▸ rfl

theorem andOr5_perm : ∀ x a b c d e : Bool,
    (x && (a || c || b || e || d)) = (x && (a || b || c || d || e)) := by decide

theorem andOr5_true {s : Chars} {a b c d e : Bool} (h1 : s.isEmpty = false)
    (h2 : a = true ∨ b = true ∨ c = true ∨ d = true ∨ e = true) :
    (!s.isEmpty && (a || b || c || d || e)) = true := by
  rw [h1]
  rcases h2 with h | h | h | h | h <;> rw [h] <;> simp

/-- C6 counterexample.  The claim asserts case-insensitive matching, so two
references differing only in letter case should classify identically; the
source's `startswith`/`in` checks are case-sensitive, and the lower-cased
variants of a valid base-image, base-video and overlay reference all fail
to classify. -/
theorem C6_counterexample :
    isBaseImageRef ("MEDIA_IMG__a.jpg".data) = true ∧
    isBaseImageRef ("media_img__a.jpg".data) = false ∧
    isBaseVideoRef ("base_videos/x.mp4".data) = true ∧
    isBaseVideoRef ("BASE_VIDEOS/x.mp4".data) = false ∧
    isOverlayRef ("CANVAS__y.png".data) = true ∧
    isOverlayRef ("canvas__y.png".data) = false := by
  decide

/-- C6 (amended): classification recognizes the fixed filename start marker or a
fixed parent-directory name, accepting both forward and back slashes
(classification is invariant under swapping every forward slash with a back
slash), but the match is case-SENSITIVE, not case-insensitive. -/
theorem C6_classification :
    (∀ ref : Chars,
      isBaseImageRef (swapSlashes ref) = isBaseImageRef ref ∧
      isBaseVideoRef (swapSlashes ref) = isBaseVideoRef ref ∧
      isOverlayRef (swapSlashes ref) = isOverlayRef ref) ∧
    (∀ r : Chars,
      isBaseImageRef (preImg ++ r) = true ∧
      isBaseImageRef (dirImgF ++ r) = true ∧
      isBaseVideoRef (preVid ++ r) = true ∧
      isBaseVideoRef (dirVidF ++ r) = true ∧
      isOverlayRef (preCanvas ++ r) = true ∧
      isOverlayRef (dirOvlF ++ r) = true) ∧
    (∀ d r : Chars,
      isBaseImageRef (d ++ (dirImgFM ++ r)) = true ∧
      isBaseVideoRef (d ++ (dirVidFM ++ r)) = true ∧
      isOverlayRef (d ++ (dirOvlFM ++ r)) = true) := by
  refine ⟨?_, ?_, ?_⟩
  · intro ref
    have hlen : (swapSlashes ref).isEmpty = ref.isEmpty := by
      cases ref <;> rfl
    refine ⟨?_, ?_, ?_⟩ <;>
      · simp only [isBaseImageRef, isBaseVideoRef, isOverlayRef, hlen,
          isPre_swap, hasSub_swap,
          show swapSlashes preImg = preImg from by decide,
          show swapSlashes preVid = preVid from by decide,
          show swapSlashes preCanvas = preCanvas from by decide,
          show swapSlashes dirImgF = dirImgB from by decide,
          show swapSlashes dirImgB = dirImgF from by decide,
          show swapSlashes dirImgFM = dirImgBM from by decide,
          show swapSlashes dirImgBM = dirImgFM from by decide,
          show swapSlashes dirVidF = dirVidB from by decide,
          show swapSlashes dirVidB = dirVidF from by decide,
          show swapSlashes dirVidFM = dirVidBM from by decide,
          show swapSlashes dirVidBM = dirVidFM from by decide,
          show swapSlashes dirOvlF = dirOvlB from by decide,
          show swapSlashes dirOvlB = dirOvlF from by decide,
          show swapSlashes dirOvlFM = dirOvlBM from by decide,
          show swapSlashes dirOvlBM = dirOvlFM from by decide]
        exact andOr5_perm _ _ _ _ _ _
  · intro r
    refine ⟨?_, ?_, ?_, ?_, ?_, ?_⟩
    · unfold isBaseImageRef
      exact andOr5_true rfl (Or.inl (isPre_self_append _ _))
    · unfold isBaseImageRef
      exact andOr5_true rfl (Or.inr (Or.inl (isPre_self_append _ _)))
    · unfold isBaseVideoRef
      exact andOr5_true rfl (Or.inl (isPre_self_append _ _))
    · unfold isBaseVideoRef
      exact andOr5_true rfl (Or.inr (Or.inl (isPre_self_append _ _)))
    · unfold isOverlayRef
      exact andOr5_true rfl (Or.inl (isPre_self_append _ _))
    · unfold isOverlayRef
      exact andOr5_true rfl (Or.inr (Or.inl (isPre_self_append _ _)))
  · intro d r
    refine ⟨?_, ?_, ?_⟩
    · unfold isBaseImageRef
      exact andOr5_true (by cases d <;> rfl)
        (Or.inr (Or.inr (Or.inr (Or.inl (hasSub_append_mid _ _ _)))))
    · unfold isBaseVideoRef
      exact andOr5_true (by cases d <;> rfl)
        (Or.inr (Or.inr (Or.inr (Or.inl (hasSub_append_mid _ _ _)))))
    · unfold isOverlayRef
      exact andOr5_true (by cases d <;> rfl)
        (Or.inr (Or.inr (Or.inr (Or.inl (hasSub_append_mid _ _ _)))))

/-! ## Filesystem / store model

The global media root (`MEDIA_ROOT`) is an absolute directory; we fix it as
the path `/GM`.  Files in the three media directories are modelled by name:
`base_images` and `base_videos` as association lists (the self-heal scan
iterates over these directories with `os.listdir`), the overlays directory
and all remaining absolute paths as functions `Chars → Option γ` (the code
never lists them, it only opens, writes, moves and removes single files).
The deduplication registry (`media_registry.json`) is the two association
lists `regImg`/`regVid`; `regPersisted` models whether the registry file
exists on disk (`os.path.exists(MEDIA_REGISTRY_PATH)`), and `ctr` feeds the
UUID-based fresh-name generator of `generate_base_media_filename`. -/

def mediaRoot : Chars := "/GM".data

/-- Python `os.path.join(a, b)` for a relative `b`. -/
def pjoin (a b : Chars) : Chars := a ++ ('/' :: b)

/-- POSIX `os.path.isabs`. -/
def isAbsPath : Chars → Bool
  | '/' :: _ => true
  | _ => false

def dirBaseImages : Chars := mediaRoot ++ "/base_images".data
def dirBaseVideos : Chars := mediaRoot ++ "/base_videos".data
def dirOverlays : Chars := mediaRoot ++ "/overlays".data

/-- `get_base_image_path` (media_store.py line 332). -/
def getBaseImagePath (fn : Chars) : Chars := pjoin dirBaseImages fn

/-- `get_base_video_path` (media_store.py line 337). -/
def getBaseVideoPath (fn : Chars) : Chars := pjoin dirBaseVideos fn

/-- `get_overlay_path` (media_store.py line 342). -/
def getOverlayPath (fn : Chars) : Chars := pjoin dirOverlays fn

def lookupA {κ α : Type} [DecidableEq κ] : List (κ × α) → κ → Option α
  | [], _ => none
  | (k, v) :: rest, k' => if k = k' then some v else lookupA rest k'

structure Store (γ H : Type) where
  img : List (Chars × γ)
  vid : List (Chars × γ)
  ovl : Chars → Option γ
  other : Chars → Option γ
  regImg : List (H × Chars)
  regVid : List (H × Chars)
  regPersisted : Bool
  ctr : Nat

variable {γ H : Type}

/-- Content of the file at absolute path `p`, dispatching on the directory. -/
def fileAt (s : Store γ H) (p : Chars) : Option γ :=
  match stripPre (dirBaseImages ++ ['/']) p with
  | some fn => lookupA s.img fn
  | none =>
    match stripPre (dirBaseVideos ++ ['/']) p with
    | some fn => lookupA s.vid fn
    | none =>
      match stripPre (dirOverlays ++ ['/']) p with
      | some fn => s.ovl fn
      | none => s.other p

/-- `os.path.exists`. -/
def exA (s : Store γ H) (p : Chars) : Bool := (fileAt s p).isSome

/-- `resolve_media_path` (media_store.py lines 397-451), written as the
equivalent linear chain of guarded returns: the source's three kind
branches fall through to the next candidate when the guarded `os.path.exists`
checks fail, so the control flow is a first-match cascade. -/
def resolveMediaPath (s : Store γ H) (ref : Chars) (projRoot : Option Chars) :
    Option Chars :=
  if ref.isEmpty then none
  else if isAbsPath ref then
    if exA s ref then some ref else none
  else if isBaseImageRef ref && isPre preImg ref && exA s (getBaseImagePath ref) then
    some (getBaseImagePath ref)
  else if isBaseImageRef ref && exA s (pjoin mediaRoot ref) then
    some (pjoin mediaRoot ref)
  else if isBaseVideoRef ref && isPre preVid ref && exA s (getBaseVideoPath ref) then
    some (getBaseVideoPath ref)
  else if isBaseVideoRef ref && exA s (pjoin mediaRoot ref) then
    some (pjoin mediaRoot ref)
  else if isOverlayRef ref && isPre preCanvas ref && exA s (getOverlayPath ref) then
    some (getOverlayPath ref)
  else if isOverlayRef ref && exA s (pjoin mediaRoot ref) then
    some (pjoin mediaRoot ref)
  else if exA s (pjoin mediaRoot ref) then
    some (pjoin mediaRoot ref)
  else
    match projRoot with
    | some root => if exA s (pjoin root ref) then some (pjoin root ref) else none
    | none => none

/-- Soundness of the resolver: every returned path exists. -/
theorem resolveMediaPath_sound (s : Store γ H) (ref : Chars) (pr : Option Chars) :
    ∀ p, resolveMediaPath s ref pr = some p → exA s p = true := by
  intro p h
  unfold resolveMediaPath at h
  by_cases c1 : List.isEmpty ref = true
  · rw [if_pos c1] at h; exact Option.noConfusion h
  rw [if_neg c1] at h
  by_cases c2 : isAbsPath ref = true
  · rw [if_pos c2] at h
    by_cases c3 : exA s ref = true
    · rw [if_pos c3] at h; injection h with h2; subst h2; exact c3
    · rw [if_neg c3] at h; exact Option.noConfusion h
  rw [if_neg c2] at h
  by_cases c4 : (isBaseImageRef ref && isPre preImg ref &&
      exA s (getBaseImagePath ref)) = true
  · rw [if_pos c4] at h; injection h with h2; subst h2
    simp only [Bool.and_eq_true] at c4; exact c4.2
  rw [if_neg c4] at h
  by_cases c5 : (isBaseImageRef ref && exA s (pjoin mediaRoot ref)) = true
  · rw [if_pos c5] at h; injection h with h2; subst h2
    simp only [Bool.and_eq_true] at c5; exact c5.2
  rw [if_neg c5] at h
  by_cases c6 : (isBaseVideoRef ref && isPre preVid ref &&
      exA s (getBaseVideoPath ref)) = true
  · rw [if_pos c6] at h; injection h with h2; subst h2
    simp only [Bool.and_eq_true] at c6; exact c6.2
  rw [if_neg c6] at h
  by_cases c7 : (isBaseVideoRef ref && exA s (pjoin mediaRoot ref)) = true
  · rw [if_pos c7] at h; injection h with h2; subst h2
    simp only [Bool.and_eq_true] at c7; exact c7.2
  rw [if_neg c7] at h
  by_cases c8 : (isOverlayRef ref && isPre preCanvas ref &&
      exA s (getOverlayPath ref)) = true
  · rw [if_pos c8] at h; injection h with h2; subst h2
    simp only [Bool.and_eq_true] at c8; exact c8.2
  rw [if_neg c8] at h
  by_cases c9 : (isOverlayRef ref && exA s (pjoin mediaRoot ref)) = true
  · rw [if_pos c9] at h; injection h with h2; subst h2
    simp only [Bool.and_eq_true] at c9; exact c9.2
  rw [if_neg c9] at h
  by_cases c10 : exA s (pjoin mediaRoot ref) = true
  · rw [if_pos c10] at h; injection h with h2; subst h2; exact c10
  rw [if_neg c10] at h
  cases pr with
  | none => exact Option.noConfusion h
  | some root =>
    have h' : (if exA s (pjoin root ref) = true then some (pjoin root ref)
        else none) = some p := h
    by_cases cr : exA s (pjoin root ref) = true
    · rw [if_pos cr] at h'; injection h' with h2; subst h2; exact cr
    · rw [if_neg cr] at h'; exact Option.noConfusion h'
/-- C9: `resolve_media_path` only ever returns paths of existing files; it
returns `none` for the empty reference and for absolute paths that do not
exist. -/
theorem C9_resolve_sound (s : Store γ H) (ref : Chars) (pr : Option Chars) :
    (∀ p, resolveMediaPath s ref pr = some p → exA s p = true) ∧
    (ref.isEmpty = true → resolveMediaPath s ref pr = none) ∧
    (isAbsPath ref = true → exA s ref = false →
      resolveMediaPath s ref pr = none) := by
  refine ⟨resolveMediaPath_sound s ref pr, ?_, ?_⟩
  · intro h
    unfold resolveMediaPath
    rw [if_pos h]
  · intro h1 h2
    unfold resolveMediaPath
    have hne : ref.isEmpty = false := by
      cases ref with
      | nil => simp [isAbsPath] at h1
      | cons c cs => rfl
    rw [if_neg (by simp [hne]), if_pos h1, if_neg (by simp [h2])]

/-- C9 witness: a store holding one plain absolute file; the resolver finds
it and the theorem yields its existence, while the empty reference and a
missing absolute path resolve to `none`. -/
theorem C9_resolve_sound_witness :
    exA (⟨[], [], fun _ => none, fun p => if p = "/a.txt".data then some 7 else none,
          [], [], false, 0⟩ : Store Nat Nat) ("/a.txt".data) = true ∧
    resolveMediaPath (⟨[], [], fun _ => none,
          fun p => if p = "/a.txt".data then some 7 else none,
          [], [], false, 0⟩ : Store Nat Nat) [] none = none ∧
    resolveMediaPath (⟨[], [], fun _ => none,
          fun p => if p = "/a.txt".data then some 7 else none,
          [], [], false, 0⟩ : Store Nat Nat) ("/b.txt".data) none = none := by
  refine ⟨?_, ?_, ?_⟩
  · exact (C9_resolve_sound _ ("/a.txt".data) none).1 ("/a.txt".data) (by decide)
  · exact (C9_resolve_sound _ [] none).2.1 rfl
  · exact (C9_resolve_sound _ ("/b.txt".data) none).2.2 rfl (by decide)

/-! ## Shared-media detection and guarded deletion
(media_store.py lines 795-896) -/

/-- Python `ref.replace("\\\\", "/")`. -/
def normSlash (s : Chars) : Chars := s.map fun c => if c = '\\' then '/' else c

/-- An entry of `ctx_list` / `add_fehler_list` / `add_after_list`. -/
structure Entry where
  base : Option Chars
  raw : Option Chars
  edited : Option Chars
  deriving DecidableEq

/-- A project-index record, with the media-reference fields scanned by
`is_media_shared`.  Empty strings and missing keys are both `none`
(Python truthiness). -/
structure IRec where
  base_image : Option Chars
  after_base : Option Chars
  raw : Option Chars
  edited : Option Chars
  after_raw : Option Chars
  after_edited : Option Chars
  ctx_list : List Entry
  add_fehler_list : List Entry
  add_after_list : List Entry
  videos : List (Option Chars)
  deriving DecidableEq

def fieldMatches (f : Option Chars) (nref : Chars) : Bool :=
  match f with
  | none => false
  | some v => !v.isEmpty && normSlash v = nref

/-- The reference fields of one record, in the order `is_media_shared`
scans them: the six scalar fields, then `ctx_list`, `add_fehler_list`,
`add_after_list` (each entry contributing `base`, `raw`, `edited`), then
`videos`. -/
def recFields (r : IRec) : List (Option Chars) :=
  [r.base_image, r.after_base, r.raw, r.edited, r.after_raw, r.after_edited]
    ++ (r.ctx_list.flatMap fun e => [e.base, e.raw, e.edited])
    ++ (r.add_fehler_list.flatMap fun e => [e.base, e.raw, e.edited])
    ++ (r.add_after_list.flatMap fun e => [e.base, e.raw, e.edited])
    ++ r.videos

def countRec (r : IRec) (nref : Chars) : Nat :=
  ((recFields r).filter fun f => fieldMatches f nref).length

/-- Accumulator loop of `is_media_shared`.  The source re-checks
`(use_count > 0 and exclude_rec is not None) or use_count > 1` after each
single-field increment; since the count only grows and the check is
monotone in it, checking once per record after adding that record's
matches returns the same Boolean.  Exclusion is by list position,
modelling Python object identity (`rec is exclude_rec`). -/
def sharedGo (nref : Chars) (excl : Option Nat) :
    List IRec → Nat → Nat → Bool
  | [], _, _ => false
  | r :: rs, i, cnt =>
    if excl = some i then sharedGo nref excl rs (i + 1) cnt
    else if (decide (0 < cnt + countRec r nref) && excl.isSome) ||
        decide (1 < cnt + countRec r nref) then true
    else sharedGo nref excl rs (i + 1) (cnt + countRec r nref)

/-- `is_media_shared` (media_store.py lines 813-876). -/
def isMediaShared (idx : List IRec) (ref : Chars) (excl : Option Nat) : Bool :=
  if ref.isEmpty then false
  else if isOverlayRef ref then false
  else sharedGo (normSlash ref) excl idx 0 0

def removeA {α : Type} : List (Chars × α) → Chars → List (Chars × α)
  | [], _ => []
  | (k, v) :: rest, k' => if k = k' then removeA rest k' else (k, v) :: removeA rest k'

/-- `os.remove` on the modelled directory layout. -/
def eraseAt (s : Store γ H) (p : Chars) : Store γ H :=
  match stripPre (dirBaseImages ++ ['/']) p with
  | some fn => { s with img := removeA s.img fn }
  | none =>
    match stripPre (dirBaseVideos ++ ['/']) p with
    | some fn => { s with vid := removeA s.vid fn }
    | none =>
      match stripPre (dirOverlays ++ ['/']) p with
      | some fn => { s with ovl := fun x => if x = fn then none else s.ovl x }
      | none => { s with other := fun x => if x = p then none else s.other x }

/-- `delete_global_media` (media_store.py lines 795-806).  A successful
`resolve_media_path` already guarantees the `os.path.exists` re-check, and
a successful `os.remove` is modelled as erasure. -/
def deleteGlobalMedia (s : Store γ H) (ref : Chars) : Bool × Store γ H :=
  if ref.isEmpty then (false, s)
  else
    match resolveMediaPath s ref none with
    | some p => (true, eraseAt s p)
    | none => (false, s)

/-- `safe_delete_global_media` (media_store.py lines 879-896). -/
def safeDeleteGlobalMedia (s : Store γ H) (idx : List IRec) (ref : Chars)
    (cur : Option Nat) : Bool × Store γ H :=
  if ref.isEmpty then (false, s)
  else if isOverlayRef ref then deleteGlobalMedia s ref
  else if isMediaShared idx ref cur then (false, s)
  else deleteGlobalMedia s ref

theorem isOverlayRef_ne_empty {r : Chars} (h : isOverlayRef r = true) :
    r.isEmpty = false := by
  unfold isOverlayRef at h
  rw [Bool.and_eq_true] at h
  cases he : r.isEmpty
  · rfl
  · rw [he] at h; exact absurd h.1 (by decide)

theorem sharedGo_of_match {nref : Chars} {i : Nat} :
    ∀ (recs : List IRec) (k cnt : Nat) (m : Nat) (r : IRec),
      recs.get? m = some r → k + m ≠ i → 0 < countRec r nref →
      sharedGo nref (some i) recs k cnt = true := by
  intro recs
  induction recs with
  | nil => intro k cnt m r hm; simp at hm
  | cons r0 rest ih =>
    intro k cnt m r hm hki hc
    cases m with
    | zero =>
      simp only [List.get?] at hm
      injection hm with hm; subst hm
      unfold sharedGo
      have hne2 : ¬((some i : Option Nat) = some k) := by
        intro he; injection he with he; omega
      rw [if_neg hne2]
      have hcond : ((decide (0 < cnt + countRec r0 nref) &&
          (some i : Option Nat).isSome) ||
          decide (1 < cnt + countRec r0 nref)) = true := by
        simp only [Option.isSome_some, Bool.and_true, Bool.or_eq_true,
          decide_eq_true_eq]
        left; omega
      rw [if_pos hcond]
    | succ m' =>
      simp only [List.get?] at hm
      unfold sharedGo
      by_cases hk : (some i : Option Nat) = some k
      · rw [if_pos hk]
        exact ih (k + 1) cnt m' r hm (by omega) hc
      · rw [if_neg hk]
        by_cases hcond : ((decide (0 < cnt + countRec r0 nref) &&
            (some i : Option Nat).isSome) ||
            decide (1 < cnt + countRec r0 nref)) = true
        · rw [if_pos hcond]
        · rw [if_neg hcond]
          exact ih (k + 1) (cnt + countRec r0 nref) m' r hm (by omega) hc

/-- C4: if two distinct records both reference the same base-media
reference, `is_media_shared` reports it shared when excluding either one,
`safe_delete_global_media` then refuses to delete it and leaves the store
untouched, and overlay references are never reported shared, whatever the
index contains. -/
theorem C4_shared_base_protection (s : Store γ H) (idx : List IRec)
    (ref : Chars) (i j : Nat) (ri rj : IRec)
    (hij : i ≠ j) (hi : idx.get? i = some ri) (hj : idx.get? j = some rj)
    (hui : 0 < countRec ri (normSlash ref)) (huj : 0 < countRec rj (normSlash ref))
    (hovl : isOverlayRef ref = false) (hne : ref.isEmpty = false) :
    isMediaShared idx ref (some i) = true ∧
    isMediaShared idx ref (some j) = true ∧
    safeDeleteGlobalMedia s idx ref (some i) = (false, s) ∧
    (∀ (idx' : List IRec) (excl : Option Nat) (oref : Chars),
      isOverlayRef oref = true → isMediaShared idx' oref excl = false) := by
  have hshared : ∀ a b : Nat, a ≠ b → idx.get? b = some rj → ∀ rb,
      idx.get? b = some rb → False ∨ True := fun _ _ _ _ _ _ => Or.inr trivial
  have h1 : isMediaShared idx ref (some i) = true := by
    unfold isMediaShared
    rw [if_neg (by simp [hne]), if_neg (by simp [hovl])]
    exact sharedGo_of_match idx 0 0 j rj (by simpa using hj) (by omega) huj
  have h2 : isMediaShared idx ref (some j) = true := by
    unfold isMediaShared
    rw [if_neg (by simp [hne]), if_neg (by simp [hovl])]
    exact sharedGo_of_match idx 0 0 i ri (by simpa using hi) (by omega) hui
  refine ⟨h1, h2, ?_, ?_⟩
  · unfold safeDeleteGlobalMedia
    rw [if_neg (by simp [hne]), if_neg (by simp [hovl]), if_pos h1]
  · intro idx' excl oref ho
    unfold isMediaShared
    rw [if_neg (by simp [isOverlayRef_ne_empty ho]), if_pos ho]

/-- C4 witness: a two-record index in which both records carry the same
base-image reference; the check reports sharing under either exclusion and
the guarded deletion refuses. -/
theorem C4_shared_base_protection_witness :
    isMediaShared
      [⟨some ("base_images/f.jpg".data), none, none, none, none, none, [], [], [], []⟩,
       ⟨some ("base_images/f.jpg".data), none, none, none, none, none, [], [], [], []⟩]
      ("base_images/f.jpg".data) (some 0) = true ∧
    safeDeleteGlobalMedia (⟨[], [], fun _ => none, fun _ => none, [], [], false, 0⟩ :
        Store Nat Nat)
      [⟨some ("base_images/f.jpg".data), none, none, none, none, none, [], [], [], []⟩,
       ⟨some ("base_images/f.jpg".data), none, none, none, none, none, [], [], [], []⟩]
      ("base_images/f.jpg".data) (some 0) =
      (false, ⟨[], [], fun _ => none, fun _ => none, [], [], false, 0⟩) := by
  have h := C4_shared_base_protection
    (⟨[], [], fun _ => none, fun _ => none, [], [], false, 0⟩ : Store Nat Nat)
    [⟨some ("base_images/f.jpg".data), none, none, none, none, none, [], [], [], []⟩,
     ⟨some ("base_images/f.jpg".data), none, none, none, none, none, [], [], [], []⟩]
    ("base_images/f.jpg".data) 0 1
    ⟨some ("base_images/f.jpg".data), none, none, none, none, none, [], [], [], []⟩
    ⟨some ("base_images/f.jpg".data), none, none, none, none, none, [], [], [], []⟩
    (by decide) (by decide) (by decide) (by decide) (by decide) (by decide) (by decide)
  exact ⟨h.1, h.2.2.1⟩

/-! ## Overlay filenames
(`sanitize_filename`, `generate_canvas_overlay_filename`,
media_store.py lines 81-89 and 311-325) -/

def digCh : Nat → Char
  | 0 => '0' | 1 => '1' | 2 => '2' | 3 => '3' | 4 => '4'
  | 5 => '5' | 6 => '6' | 7 => '7' | 8 => '8' | _ => '9'

/-- Decimal digits, structurally recursive on a fuel bound so that it
reduces definitionally; `fuel > n` always suffices. -/
def natReprAux : Nat → Nat → Chars
  | 0, _ => []
  | fuel + 1, n =>
    if n < 10 then [digCh n]
    else natReprAux fuel (n / 10) ++ [digCh (n % 10)]

/-- Python `str(n)` for a natural number. -/
def natRepr (n : Nat) : Chars := natReprAux (n + 1) n

/-- Python `f"{n:03d}"`: decimal digits left-padded with zeros to width 3. -/
def pad3 (n : Nat) : Chars :=
  List.replicate (3 - (natRepr n).length) '0' ++ natRepr n

/-- Python `str.strip()` whitespace set (space, tab, newline, return,
vertical tab, formfeed). -/
def isWS (c : Char) : Bool :=
  c.toNat = 32 || c.toNat = 9 || c.toNat = 10 || c.toNat = 13 ||
  c.toNat = 11 || c.toNat = 12

def stripBoth (p : Char → Bool) (s : Chars) : Chars :=
  ((s.dropWhile p).reverse.dropWhile p).reverse

/-- The character set of `bad = r'<>:"/\n?*\\'` in `sanitize_filename`.
Note the Python raw string makes `\n` a backslash followed by the LETTER
`n`, so the letter `n` itself is in the replaced set. -/
def badChar (c : Char) : Bool :=
  c = '<' || c = '>' || c = ':' || c = '"' || c = '/' || c = '\\' ||
  c = 'n' || c = '?' || c = '*'

/-- One left-to-right non-overlapping pass of `s.replace("__", "_")`. -/
def collapse1 : Chars → Chars
  | '_' :: '_' :: rest => '_' :: collapse1 rest
  | c :: rest => c :: collapse1 rest
  | [] => []

def hasDD (s : Chars) : Bool := hasSub ('_' :: ['_']) s

/-- The `while "__" in s: s = s.replace("__", "_")` loop; each productive
pass strictly shrinks the string, so `s.length` passes always reach the
fixpoint. -/
def collapseFix : Nat → Chars → Chars
  | 0, s => s
  | fuel + 1, s => if hasDD s then collapseFix fuel (collapse1 s) else s

/-- `sanitize_filename` (media_store.py lines 81-89): strip whitespace,
replace bad characters by `_`, collapse repeated `__`, strip `_`. -/
def sanitize (s : Chars) : Chars :=
  stripBoth (fun c => c = '_')
    (collapseFix ((stripBoth isWS s).map fun c => if badChar c then '_' else c).length
      ((stripBoth isWS s).map fun c => if badChar c then '_' else c))

def tyFehlerbild : Chars := "FEHLERBILD".data
def tyKontext : Chars := "KONTEXT".data
def tyNacharbeit : Chars := "NACHARBEIT".data
def tyZusatzFehler : Chars := "ZUSATZ_FEHLER".data
def tyZusatzNacharbeit : Chars := "ZUSATZ_NACHARBEIT".data

/-- `generate_canvas_overlay_filename` (media_store.py lines 311-325). -/
def generateCanvasOverlayFilename (p a n t : Chars) (ix : Option Nat) : Chars :=
  "CANVAS__PRJ_".data ++ sanitize (if p.isEmpty then "PROJ".data else p) ++
  "__AUD_".data ++ sanitize (if a.isEmpty then "AUDIT".data else a) ++
  "__NR_".data ++ sanitize (if n.isEmpty then "000".data else n) ++
  "__TYPE_".data ++ sanitize (if t.isEmpty then tyFehlerbild else t) ++
  (match ix with
   | some i => '_' :: natRepr i
   | none => []) ++ ".png".data

/-! ## Overlay save and clear operations -/

/-- Write a file into the overlays directory (a successful
`overlay_rgba.save(abs_path, format="PNG")`, which overwrites). -/
def writeOvl (s : Store γ H) (fn : Chars) (png : γ) : Store γ H :=
  { s with ovl := fun x => if x = fn then some png else s.ovl x }

/-- `save_canvas_overlay` (media_store.py lines 735-750); returns
`(filename, abs_path)` and the updated store.  The RGBA conversion is
folded into the abstract content `png`. -/
def saveCanvasOverlay (s : Store γ H) (png : γ) (p a nr ty : Chars)
    (ix : Option Nat) : (Chars × Chars) × Store γ H :=
  let fn := generateCanvasOverlayFilename p a nr ty ix
  ((fn, getOverlayPath fn), writeOvl s fn png)

/-- A record of the audit index as used by `save_overlay_for_record` and
`reindex_audit_images`: audit id, record number, main overlay reference
(`overlay`/`edited`, kept equal by the code, hence one field), rework
overlay reference (`after_overlay`/`after_edited`), and context entries
(`ctx_list`, each contributing its `overlay`/`edited` reference). -/
structure RecV where
  audit : Chars
  nr : Chars
  ov : Option Chars
  aov : Option Chars
  ctx : List (Option Chars)
  deriving DecidableEq

/-- `save_overlay_for_record` (common.py lines 721-746). -/
def saveOverlayForRecord (s : Store γ H) (r : RecV) (png : γ)
    (projId ty : Chars) : Chars × (RecV × Store γ H) :=
  let fa := saveCanvasOverlay s png projId r.audit r.nr ty none
  let oref := dirOvlF ++ fa.1.1
  if ty = tyFehlerbild then (oref, ({ r with ov := some oref }, fa.2))
  else if ty = tyNacharbeit then (oref, ({ r with aov := some oref }, fa.2))
  else (oref, (r, fa.2))

/-- The overlay-clearing deletion path used at every clearing call site
(common.py `detach_context_image` lines 917-919, `attach_context_images`
lines 851-853, editor.py `on_clear_main`, `on_clear_ctx`,
`on_clear_add_pre`, ...):
```python
if overlay_ref and is_overlay_ref(overlay_ref):
    delete_global_media(overlay_ref)
``` -/
def clearOverlayStep (s : Store γ H) (oref : Option Chars) : Store γ H :=
  match oref with
  | none => s
  | some r => if isOverlayRef r then (deleteGlobalMedia s r).2 else s

theorem if_cond_false {α : Sort _} {c : Bool} (h : c = false) (x y : α) :
    (if c = true then x else y) = y := by rw [h]; simp

theorem if_cond_true {α : Sort _} {c : Bool} (h : c = true) (x y : α) :
    (if c = true then x else y) = x := by rw [h]; simp

theorem ite_same3 {α : Sort _} (b1 b2 b3 : Bool) (x : α) :
    (if b1 = true then x else if b2 = true then x else
     if b3 = true then x else x) = x := by
  cases b1 <;> cases b2 <;> cases b3 <;> simp

theorem isOverlayRef_dirOvl (fn : Chars) : isOverlayRef (dirOvlF ++ fn) = true := by
  unfold isOverlayRef
  exact andOr5_true rfl (Or.inr (Or.inl (isPre_self_append _ _)))

/-- Resolution of a canonical `overlays/<fn>` reference: all surviving
candidate paths coincide with the generic join under the media root, so
resolution reduces to existence of `<media-root>/overlays/<fn>`. -/
theorem resolve_ovlRef (s : Store γ H) (fn : Chars) :
    resolveMediaPath s (dirOvlF ++ fn) none =
      if exA s (pjoin mediaRoot (dirOvlF ++ fn)) = true
      then some (pjoin mediaRoot (dirOvlF ++ fn)) else none := by
  have hpre1 : isPre preImg (dirOvlF ++ fn) = false := rfl
  have hpre2 : isPre preVid (dirOvlF ++ fn) = false := rfl
  have hpre3 : isPre preCanvas (dirOvlF ++ fn) = false := rfl
  have hc4 : (isBaseImageRef (dirOvlF ++ fn) && isPre preImg (dirOvlF ++ fn) &&
      exA s (getBaseImagePath (dirOvlF ++ fn))) = false := by
    rw [hpre1, Bool.and_false, Bool.false_and]
  have hc6 : (isBaseVideoRef (dirOvlF ++ fn) && isPre preVid (dirOvlF ++ fn) &&
      exA s (getBaseVideoPath (dirOvlF ++ fn))) = false := by
    rw [hpre2, Bool.and_false, Bool.false_and]
  have hc8 : (isOverlayRef (dirOvlF ++ fn) && isPre preCanvas (dirOvlF ++ fn) &&
      exA s (getOverlayPath (dirOvlF ++ fn))) = false := by
    rw [hpre3, Bool.and_false, Bool.false_and]
  unfold resolveMediaPath
  rw [if_cond_false (show (dirOvlF ++ fn).isEmpty = false from rfl),
      if_cond_false (show isAbsPath (dirOvlF ++ fn) = false from rfl),
      if_cond_false hc4, if_cond_false hc6, if_cond_false hc8]
  by_cases hex : exA s (pjoin mediaRoot (dirOvlF ++ fn)) = true
  · rw [hex]
    simp only [Bool.and_true, if_true]
    exact ite_same3 _ _ _ _
  · have hex' : exA s (pjoin mediaRoot (dirOvlF ++ fn)) = false := by
      revert hex; cases exA s (pjoin mediaRoot (dirOvlF ++ fn)) <;> simp
    rw [hex']
    simp

/-- C7: the overlay-clearing deletion path rejects every reference that
does not classify as an overlay, leaving the store untouched; only
overlay-classified references are deleted by it, and a linked overlay file
is indeed removed while every other file survives. -/
theorem C7_clear_overlay_safety :
    (∀ (s : Store γ H) (r : Chars), isOverlayRef r = false →
      clearOverlayStep s (some r) = s) ∧
    (∀ s : Store γ H, clearOverlayStep s none = s) ∧
    (∀ (s : Store γ H) (fn : Chars) (c : γ), s.ovl fn = some c →
      (clearOverlayStep s (some (dirOvlF ++ fn))).ovl fn = none ∧
      (∀ x, x ≠ fn → (clearOverlayStep s (some (dirOvlF ++ fn))).ovl x = s.ovl x) ∧
      (clearOverlayStep s (some (dirOvlF ++ fn))).img = s.img ∧
      (clearOverlayStep s (some (dirOvlF ++ fn))).vid = s.vid ∧
      (clearOverlayStep s (some (dirOvlF ++ fn))).other = s.other) := by
  refine ⟨?_, fun _ => rfl, ?_⟩
  · intro s r h
    show (if isOverlayRef r = true then (deleteGlobalMedia s r).2 else s) = s
    rw [if_cond_false h]
  · intro s fn c h
    have hex : exA s (pjoin mediaRoot (dirOvlF ++ fn)) = true := by
      unfold exA
      rw [show fileAt s (pjoin mediaRoot (dirOvlF ++ fn)) = s.ovl fn from rfl, h]
      rfl
    have hclear : clearOverlayStep s (some (dirOvlF ++ fn)) =
        { s with ovl := fun x => if x = fn then none else s.ovl x } := by
      show (if isOverlayRef (dirOvlF ++ fn) = true
          then (deleteGlobalMedia s (dirOvlF ++ fn)).2 else s) = _
      rw [if_cond_true (isOverlayRef_dirOvl fn)]
      unfold deleteGlobalMedia
      rw [if_cond_false (show (dirOvlF ++ fn).isEmpty = false from rfl),
        resolve_ovlRef, if_cond_true hex]
      rfl
    rw [hclear]
    refine ⟨by simp, ?_, rfl, rfl, rfl⟩
    intro x hx
    simp only [if_neg hx]

/-- C7 witness: a base-image reference passes the overlay-clearing path
untouched, and a linked overlay file is removed by it. -/
theorem C7_clear_overlay_safety_witness :
    clearOverlayStep (⟨[("f.jpg".data, 3)], [], fun x =>
        if x = "o.png".data then some 9 else none,
        fun _ => none, [], [], true, 0⟩ : Store Nat Nat)
      (some ("base_images/f.jpg".data)) =
      ⟨[("f.jpg".data, 3)], [], fun x =>
        if x = "o.png".data then some 9 else none,
        fun _ => none, [], [], true, 0⟩ ∧
    (clearOverlayStep (⟨[("f.jpg".data, 3)], [], fun x =>
        if x = "o.png".data then some 9 else none,
        fun _ => none, [], [], true, 0⟩ : Store Nat Nat)
      (some (dirOvlF ++ "o.png".data))).ovl ("o.png".data) = none := by
  constructor
  · exact (C7_clear_overlay_safety (γ := Nat) (H := Nat)).1 _
      ("base_images/f.jpg".data) (by decide)
  · exact ((C7_clear_overlay_safety (γ := Nat) (H := Nat)).2.2 _
      ("o.png".data) 9 (by decide)).1

/-- C5 counterexample.  A record whose linked overlay file carries a name
different from the deterministic one (as produced, e.g., by the reindex
collision bump): after saving twice for the same (record, role) position,
the previously stored overlay file still exists on disk — the save path
never deletes it — so the claim that "the previously stored overlay file
is deleted" fails, and two overlay files for the position remain. -/
theorem C5_counterexample :
    (saveOverlayForRecord
      (saveOverlayForRecord
        (⟨[], [], fun x =>
            if x = "CANVAS__PRJ_P__AUD_A__NR_001__TYPE_FEHLERBILD_1.png".data
            then some 5 else none,
          fun _ => none, [], [], false, 0⟩ : Store Nat Nat)
        ⟨"A".data, "001".data,
          some (dirOvlF ++ "CANVAS__PRJ_P__AUD_A__NR_001__TYPE_FEHLERBILD_1.png".data),
          none, []⟩ 6 ("P".data) tyFehlerbild).2.2
      (saveOverlayForRecord
        (⟨[], [], fun x =>
            if x = "CANVAS__PRJ_P__AUD_A__NR_001__TYPE_FEHLERBILD_1.png".data
            then some 5 else none,
          fun _ => none, [], [], false, 0⟩ : Store Nat Nat)
        ⟨"A".data, "001".data,
          some (dirOvlF ++ "CANVAS__PRJ_P__AUD_A__NR_001__TYPE_FEHLERBILD_1.png".data),
          none, []⟩ 6 ("P".data) tyFehlerbild).2.1
      7 ("P".data) tyFehlerbild).2.2.ovl
        ("CANVAS__PRJ_P__AUD_A__NR_001__TYPE_FEHLERBILD_1.png".data) = some 5 ∧
    (saveOverlayForRecord
      (saveOverlayForRecord
        (⟨[], [], fun x =>
            if x = "CANVAS__PRJ_P__AUD_A__NR_001__TYPE_FEHLERBILD_1.png".data
            then some 5 else none,
          fun _ => none, [], [], false, 0⟩ : Store Nat Nat)
        ⟨"A".data, "001".data,
          some (dirOvlF ++ "CANVAS__PRJ_P__AUD_A__NR_001__TYPE_FEHLERBILD_1.png".data),
          none, []⟩ 6 ("P".data) tyFehlerbild).2.2
      (saveOverlayForRecord
        (⟨[], [], fun x =>
            if x = "CANVAS__PRJ_P__AUD_A__NR_001__TYPE_FEHLERBILD_1.png".data
            then some 5 else none,
          fun _ => none, [], [], false, 0⟩ : Store Nat Nat)
        ⟨"A".data, "001".data,
          some (dirOvlF ++ "CANVAS__PRJ_P__AUD_A__NR_001__TYPE_FEHLERBILD_1.png".data),
          none, []⟩ 6 ("P".data) tyFehlerbild).2.1
      7 ("P".data) tyFehlerbild).2.2.ovl
        ("CANVAS__PRJ_P__AUD_A__NR_001__TYPE_FEHLERBILD.png".data) = some 7 ∧
    ("CANVAS__PRJ_P__AUD_A__NR_001__TYPE_FEHLERBILD_1.png".data : Chars) ≠
      "CANVAS__PRJ_P__AUD_A__NR_001__TYPE_FEHLERBILD.png".data := by
  refine ⟨?_, ?_, by decide⟩ <;> decide

/-- C5 (amended): two successive saves for the same (record, role) position
both write to the same deterministic filename, so the position ends with
exactly that one file holding the second content while the record points at
it; but the save path deletes nothing — any previously linked overlay file
under a different name survives on disk untouched. -/
theorem C5_overlay_replace (s : Store γ H) (r : RecV) (c1 c2 : γ)
    (projId ty : Chars) :
    (saveOverlayForRecord s r c1 projId ty).1 =
      dirOvlF ++ generateCanvasOverlayFilename projId r.audit r.nr ty none ∧
    (saveOverlayForRecord (saveOverlayForRecord s r c1 projId ty).2.2
        (saveOverlayForRecord s r c1 projId ty).2.1 c2 projId ty).1 =
      dirOvlF ++ generateCanvasOverlayFilename projId r.audit r.nr ty none ∧
    (saveOverlayForRecord (saveOverlayForRecord s r c1 projId ty).2.2
        (saveOverlayForRecord s r c1 projId ty).2.1 c2 projId ty).2.2.ovl
      (generateCanvasOverlayFilename projId r.audit r.nr ty none) = some c2 ∧
    (∀ x, x ≠ generateCanvasOverlayFilename projId r.audit r.nr ty none →
      (saveOverlayForRecord (saveOverlayForRecord s r c1 projId ty).2.2
          (saveOverlayForRecord s r c1 projId ty).2.1 c2 projId ty).2.2.ovl x =
        s.ovl x) ∧
    (saveOverlayForRecord (saveOverlayForRecord s r c1 projId ty).2.2
        (saveOverlayForRecord s r c1 projId ty).2.1 c2 projId ty).2.2.img =
      s.img ∧
    (saveOverlayForRecord (saveOverlayForRecord s r c1 projId ty).2.2
        (saveOverlayForRecord s r c1 projId ty).2.1 c2 projId ty).2.2.vid =
      s.vid ∧
    (saveOverlayForRecord (saveOverlayForRecord s r c1 projId ty).2.2
        (saveOverlayForRecord s r c1 projId ty).2.1 c2 projId ty).2.2.other =
      s.other ∧
    (ty = tyFehlerbild →
      (saveOverlayForRecord (saveOverlayForRecord s r c1 projId ty).2.2
          (saveOverlayForRecord s r c1 projId ty).2.1 c2 projId ty).2.1.ov =
        some (dirOvlF ++
          generateCanvasOverlayFilename projId r.audit r.nr ty none)) ∧
    (ty = tyNacharbeit →
      (saveOverlayForRecord (saveOverlayForRecord s r c1 projId ty).2.2
          (saveOverlayForRecord s r c1 projId ty).2.1 c2 projId ty).2.1.aov =
        some (dirOvlF ++
          generateCanvasOverlayFilename projId r.audit r.nr ty none)) := by
  by_cases t1 : ty = tyFehlerbild
  · subst t1
    refine ⟨rfl, rfl, ?_, ?_, rfl, rfl, rfl, fun _ => rfl,
      fun h2 => absurd h2 (by decide)⟩
    · simp [saveOverlayForRecord, saveCanvasOverlay, writeOvl]
    · intro x hx
      simp [saveOverlayForRecord, saveCanvasOverlay, writeOvl, hx]
  · by_cases t2 : ty = tyNacharbeit
    · subst t2
      have hne : ¬(tyNacharbeit = tyFehlerbild) := by decide
      refine ⟨?_, ?_, ?_, ?_, ?_, ?_, ?_, fun h2 => absurd h2 (by decide),
        fun _ => ?_⟩ <;>
        first
          | (intro x hx
             simp [saveOverlayForRecord, saveCanvasOverlay, writeOvl,
               if_neg hne, hx])
          | simp [saveOverlayForRecord, saveCanvasOverlay, writeOvl, if_neg hne]
    · refine ⟨?_, ?_, ?_, ?_, ?_, ?_, ?_, fun h => absurd h t1,
        fun h => absurd h t2⟩ <;>
        first
          | (intro x hx
             simp [saveOverlayForRecord, saveCanvasOverlay, writeOvl,
               if_neg t1, if_neg t2, hx])
          | simp [saveOverlayForRecord, saveCanvasOverlay, writeOvl,
              if_neg t1, if_neg t2]

/-- C5 witness: a concrete double-save at one position, with the theorem
giving the final content at the deterministic name and the untouched state
of a differently named file. -/
theorem C5_overlay_replace_witness :
    (saveOverlayForRecord
      (saveOverlayForRecord
        (⟨[], [], fun _ => none, fun _ => none, [], [], false, 0⟩ : Store Nat Nat)
        ⟨"A".data, "001".data, none, none, []⟩ 1 ("P".data) tyFehlerbild).2.2
      (saveOverlayForRecord
        (⟨[], [], fun _ => none, fun _ => none, [], [], false, 0⟩ : Store Nat Nat)
        ⟨"A".data, "001".data, none, none, []⟩ 1 ("P".data) tyFehlerbild).2.1
      2 ("P".data) tyFehlerbild).2.2.ovl
      (generateCanvasOverlayFilename ("P".data) ("A".data) ("001".data)
        tyFehlerbild none) = some 2 ∧
    (saveOverlayForRecord
      (saveOverlayForRecord
        (⟨[], [], fun _ => none, fun _ => none, [], [], false, 0⟩ : Store Nat Nat)
        ⟨"A".data, "001".data, none, none, []⟩ 1 ("P".data) tyFehlerbild).2.2
      (saveOverlayForRecord
        (⟨[], [], fun _ => none, fun _ => none, [], [], false, 0⟩ : Store Nat Nat)
        ⟨"A".data, "001".data, none, none, []⟩ 1 ("P".data) tyFehlerbild).2.1
      2 ("P".data) tyFehlerbild).2.2.ovl ("other.png".data) = none := by
  have h := C5_overlay_replace
    (⟨[], [], fun _ => none, fun _ => none, [], [], false, 0⟩ : Store Nat Nat)
    ⟨"A".data, "001".data, none, none, []⟩ 1 2 ("P".data) tyFehlerbild
  exact ⟨h.2.2.1, (h.2.2.2.1 ("other.png".data) (by decide)).trans rfl⟩

/-! ## Attach pipeline (media_store.py lines 160-641)

The image decoder, JPEG encoder and PIL image operations live outside the
program text, so they enter the model as an abstract environment `Env`:
`decode` is `decode_upload_to_pil` composed with `ensure_rgb` (`none` models
a raised decode exception), `fileHash` is `_compute_file_hash` (SHA-256),
`encodeJ q` is `img.save(..., format="JPEG", quality=q)` returning the
produced bytes, `reopen` is `Image.open` on stored bytes, `size`/`resize`
are the PIL operations, and `diskOk` tells whether the write of a given new
base file succeeds (`False` models a raised `OSError`). -/

structure Env (γ ι H : Type) where
  decode : γ → Option ι
  fileHash : γ → H
  encodeJ : Nat → ι → γ
  reopen : γ → Option ι
  size : ι → Nat × Nat
  resize : ι → Nat → Nat → ι
  diskOk : Chars → Bool

variable {ι : Type}

/-- `int(round(num / den))` on exact rationals (floor of `num/den + 1/2`).
Python rounds floats half-to-even; the two differ only at exact halves. -/
def pyRound (num den : Nat) : Nat := (2 * num + den) / (2 * den)

/-- `downscale_to_width` (media_store.py lines 117-123). -/
def downscaleToWidth (env : Env γ ι H) (img : ι) (targetW : Nat) : ι :=
  if (env.size img).1 ≤ targetW then img
  else env.resize img targetW (pyRound ((env.size img).2 * targetW) (env.size img).1)

/-- The bytes `pil_to_jpg` writes (media_store.py lines 126-138):
RGB-converted (already guaranteed by `decode`), downscaled to
`MAX_IMAGE_WIDTH = 1800` when wider, JPEG-encoded at the given quality. -/
def pilToJpgContent (env : Env γ ι H) (img : ι) (q : Nat) : γ :=
  env.encodeJ q (downscaleToWidth env img 1800)

/-- `_compute_pil_hash` (media_store.py lines 184-189): SHA-256 of the
JPEG-quality-95 re-encode of the bitmap. -/
def computePilHash (env : Env γ ι H) (img : ι) : H :=
  env.fileHash (env.encodeJ 95 img)

def toLowerC (s : Chars) : Chars := s.map Char.toLower

/-- `os.path.splitext(fn)[1]`: the suffix from the last dot (empty when no
dot occurs; the Python corner case of a bare leading dot is not needed for
media filenames). -/
def extOf (fn : Chars) : Chars :=
  if '.' ∈ fn then '.' :: (fn.reverse.takeWhile fun c => c ≠ '.').reverse
  else []

def imgExtOk (fn : Chars) : Bool :=
  extOf (toLowerC fn) = ".jpg".data || extOf (toLowerC fn) = ".jpeg".data ||
  extOf (toLowerC fn) = ".png".data

def vidExtOk (fn : Chars) : Bool :=
  extOf (toLowerC fn) = ".mp4".data || extOf (toLowerC fn) = ".mov".data ||
  extOf (toLowerC fn) = ".avi".data || extOf (toLowerC fn) = ".mkv".data ||
  extOf (toLowerC fn) = ".webm".data

/-- Python dict assignment `registry[section][hash] = ref`: replace in
place, or append a new key. -/
def insertReg [DecidableEq H] : List (H × Chars) → H → Chars → List (H × Chars)
  | [], h, ref => [(h, ref)]
  | (k, v) :: rest, h, ref =>
    if k = h then (k, ref) :: rest else (k, v) :: insertReg rest h ref

/-- Overwriting file write into a directory listing. -/
def insertFile {γ : Type} : List (Chars × γ) → Chars → γ → List (Chars × γ)
  | [], fn, c => [(fn, c)]
  | (k, v) :: rest, fn, c =>
    if k = fn then (k, c) :: rest else (k, v) :: insertFile rest fn c

/-- `_register_media` (media_store.py lines 192-199): load the registry,
set `registry[section][hash] = ref`, save (so the registry file exists
afterwards). -/
def registerMediaImg [DecidableEq H] (s : Store γ H) (h : H) (ref : Chars) :
    Store γ H :=
  { s with regImg := insertReg s.regImg h ref, regPersisted := true }

def registerMediaVid [DecidableEq H] (s : Store γ H) (h : H) (ref : Chars) :
    Store γ H :=
  { s with regVid := insertReg s.regVid h ref, regPersisted := true }

/-- `_scan_base_images_and_register` (media_store.py lines 206-227): walk
the base-image directory, re-hash each file by reopening it, and add unknown
hashes.  A failing `Image.open` (`reopen = none`) skips the file. -/
def scanImages [DecidableEq H] (env : Env γ ι H) :
    List (H × Chars) → List (Chars × γ) → List (H × Chars)
  | reg, [] => reg
  | reg, (fn, c) :: rest =>
    if imgExtOk fn then
      match env.reopen c with
      | none => scanImages env reg rest
      | some im =>
        if (lookupA reg (computePilHash env im)).isSome then
          scanImages env reg rest
        else
          scanImages env (reg ++ [(computePilHash env im, dirImgF ++ fn)]) rest
    else scanImages env reg rest

/-- `_scan_base_videos_and_register` (media_store.py lines 230-252). -/
def scanVideos [DecidableEq H] (env : Env γ ι H) :
    List (H × Chars) → List (Chars × γ) → List (H × Chars)
  | reg, [] => reg
  | reg, (fn, c) :: rest =>
    if vidExtOk fn then
      if (lookupA reg (env.fileHash c)).isSome then scanVideos env reg rest
      else scanVideos env (reg ++ [(env.fileHash c, dirVidF ++ fn)]) rest
    else scanVideos env reg rest

/-- `_ensure_registry_is_populated` for images (media_store.py lines
255-269): when the registry file is missing or the section is empty, scan
the directory and save. -/
def ensurePopImg [DecidableEq H] (env : Env γ ι H) (s : Store γ H) : Store γ H :=
  if !s.regPersisted || s.regImg.isEmpty then
    { s with regImg := scanImages env s.regImg s.img, regPersisted := true }
  else s

def ensurePopVid [DecidableEq H] (env : Env γ ι H) (s : Store γ H) : Store γ H :=
  if !s.regPersisted || s.regVid.isEmpty then
    { s with regVid := scanVideos env s.regVid s.vid, regPersisted := true }
  else s

/-- The registry state after the guarded rescan inside
`_find_existing_by_hash_or_scan` (the `_save_media_registry(registry)` at
media_store.py line 289). -/
def rescanImg [DecidableEq H] (env : Env γ ι H) (s : Store γ H) : Store γ H :=
  { s with regImg := scanImages env s.regImg s.img, regPersisted := true }

def rescanVid [DecidableEq H] (env : Env γ ι H) (s : Store γ H) : Store γ H :=
  { s with regVid := scanVideos env s.regVid s.vid, regPersisted := true }

/-- `_find_existing_by_hash_or_scan` for images (media_store.py lines
272-290); the Python locals `registry`/`ref` are inlined. -/
def findExistImg [DecidableEq H] (env : Env γ ι H) (s : Store γ H) (h : H) :
    Option Chars × Store γ H :=
  match lookupA (ensurePopImg env s).regImg h with
  | some ref =>
    if (resolveMediaPath (ensurePopImg env s) ref none).isSome then
      (some ref, ensurePopImg env s)
    else
      (lookupA (rescanImg env (ensurePopImg env s)).regImg h,
       rescanImg env (ensurePopImg env s))
  | none =>
    (lookupA (rescanImg env (ensurePopImg env s)).regImg h,
     rescanImg env (ensurePopImg env s))

def findExistVid [DecidableEq H] (env : Env γ ι H) (s : Store γ H) (h : H) :
    Option Chars × Store γ H :=
  match lookupA (ensurePopVid env s).regVid h with
  | some ref =>
    if (resolveMediaPath (ensurePopVid env s) ref none).isSome then
      (some ref, ensurePopVid env s)
    else
      (lookupA (rescanVid env (ensurePopVid env s)).regVid h,
       rescanVid env (ensurePopVid env s))
  | none =>
    (lookupA (rescanVid env (ensurePopVid env s)).regVid h,
     rescanVid env (ensurePopVid env s))

/-- `generate_base_media_filename(".jpg")` (media_store.py lines 297-301);
the UUID-derived unique id is modelled by the store's fresh counter. -/
def genImgName (n : Nat) : Chars := preImg ++ natRepr n ++ ".jpg".data

/-- `generate_base_video_filename(ext)` (media_store.py lines 304-308);
`xt` is the lower-cased, dot-prefixed extension taken from the upload. -/
def genVidName (n : Nat) (xt : Chars) : Chars := preVid ++ natRepr n ++ xt

inductive AErr where
  | decodeE
  | storageE
  deriving DecidableEq

/-- The new-file tail of `_attach_image` (media_store.py lines 588-597):
generate a fresh name, write the normalized JPEG, then register. -/
def attachImageFresh [DecidableEq H] (env : Env γ ι H) (s : Store γ H)
    (img : ι) (h : H) : Except AErr Chars × Store γ H :=
  if env.diskOk (genImgName s.ctr) then
    (.ok (dirImgF ++ genImgName s.ctr),
     registerMediaImg
       { s with img := insertFile s.img (genImgName s.ctr)
                  (pilToJpgContent env img 90),
                ctr := s.ctr + 1 }
       h (dirImgF ++ genImgName s.ctr))
  else (.error .storageE, { s with ctr := s.ctr + 1 })

/-- `_attach_image` on uploaded bytes (media_store.py lines 556-597). -/
def attachImage [DecidableEq H] (env : Env γ ι H) (s : Store γ H) (data : γ) :
    Except AErr Chars × Store γ H :=
  match env.decode data with
  | none => (.error .decodeE, s)
  | some img =>
    match (findExistImg env s (computePilHash env img)).1 with
    | some ref =>
      if (resolveMediaPath (findExistImg env s (computePilHash env img)).2
          ref none).isSome then
        (.ok ref, (findExistImg env s (computePilHash env img)).2)
      else
        attachImageFresh env (findExistImg env s (computePilHash env img)).2
          img (computePilHash env img)
    | none =>
      attachImageFresh env (findExistImg env s (computePilHash env img)).2
        img (computePilHash env img)

/-- The new-file tail of `_attach_video` (media_store.py lines 628-641). -/
def attachVideoFresh [DecidableEq H] (env : Env γ ι H) (s : Store γ H)
    (data : γ) (h : H) (xt : Chars) : Except AErr Chars × Store γ H :=
  if env.diskOk (genVidName s.ctr xt) then
    (.ok (dirVidF ++ genVidName s.ctr xt),
     registerMediaVid
       { s with vid := insertFile s.vid (genVidName s.ctr xt) data,
                ctr := s.ctr + 1 }
       h (dirVidF ++ genVidName s.ctr xt))
  else (.error .storageE, { s with ctr := s.ctr + 1 })

/-- `_attach_video` on uploaded bytes (media_store.py lines 600-641). -/
def attachVideo [DecidableEq H] (env : Env γ ι H) (s : Store γ H) (data : γ)
    (xt : Chars) : Except AErr Chars × Store γ H :=
  match (findExistVid env s (env.fileHash data)).1 with
  | some ref =>
    if (resolveMediaPath (findExistVid env s (env.fileHash data)).2
        ref none).isSome then
      (.ok ref, (findExistVid env s (env.fileHash data)).2)
    else
      attachVideoFresh env (findExistVid env s (env.fileHash data)).2
        data (env.fileHash data) xt
  | none =>
    attachVideoFresh env (findExistVid env s (env.fileHash data)).2
      data (env.fileHash data) xt

/-- `attach_media` with `uploaded_bytes` and no `existing_ref`
(media_store.py lines 486-553): dispatch on `media_type`. -/
def attachMedia [DecidableEq H] (env : Env γ ι H) (s : Store γ H)
    (mediaType : Chars) (data : γ) (xt : Chars) :
    Except AErr Chars × Store γ H :=
  if mediaType = "video".data then attachVideo env s data xt
  else attachImage env s data

/-- `N` sequential calls of `attach_media`, collecting the results. -/
def attachMediaN [DecidableEq H] (env : Env γ ι H) (s : Store γ H)
    (mediaType : Chars) (data : γ) (xt : Chars) :
    Nat → List (Except AErr Chars) × Store γ H
  | 0 => ([], s)
  | n + 1 =>
    let r := attachMedia env s mediaType data xt
    let rest := attachMediaN env r.2 mediaType data xt n
    (r.1 :: rest.1, rest.2)

/-- Number of files in a directory listing holding exactly content `c`. -/
def countContent [DecidableEq γ] (l : List (Chars × γ)) (c : γ) : Nat :=
  (l.filter fun e => e.2 = c).length

theorem lookupA_append {κ α : Type} [DecidableEq κ] (l1 l2 : List (κ × α)) (k : κ) :
    lookupA (l1 ++ l2) k =
      (match lookupA l1 k with
       | some v => some v
       | none => lookupA l2 k) := by
  induction l1 with
  | nil => rfl
  | cons e rest ih =>
    by_cases hk : e.1 = k
    · simp only [List.cons_append, lookupA, if_pos hk]
    · simp only [List.cons_append, lookupA, if_neg hk]
      exact ih

theorem insertReg_lookup_self [DecidableEq H] (l : List (H × Chars)) (h : H)
    (ref : Chars) : lookupA (insertReg l h ref) h = some ref := by
  induction l with
  | nil => simp [insertReg, lookupA]
  | cons e rest ih =>
    by_cases hk : e.1 = h
    · simp [insertReg, if_pos hk, lookupA, hk]
    · simp [insertReg, if_neg hk, lookupA, hk, ih]

theorem insertReg_ne_nil [DecidableEq H] (l : List (H × Chars)) (h : H)
    (ref : Chars) : insertReg l h ref ≠ [] := by
  cases l with
  | nil => simp [insertReg]
  | cons e rest =>
    unfold insertReg
    by_cases hk : e.1 = h <;> simp [hk]

theorem insertFile_lookup_self {γ : Type} (l : List (Chars × γ)) (fn : Chars)
    (c : γ) : lookupA (insertFile l fn c) fn = some c := by
  induction l with
  | nil => simp [insertFile, lookupA]
  | cons e rest ih =>
    by_cases hk : e.1 = fn
    · simp [insertFile, if_pos hk, lookupA, hk]
    · simp [insertFile, if_neg hk, lookupA, hk, ih]

theorem countContent_insertFile_fresh {γ : Type} [DecidableEq γ]
    (l : List (Chars × γ)) (fn : Chars) (c : γ)
    (h : ∀ e ∈ l, e.2 ≠ c) : countContent (insertFile l fn c) c = 1 := by
  induction l with
  | nil => simp [insertFile, countContent]
  | cons e rest ih =>
    have he : e.2 ≠ c := h e (List.mem_cons_self e rest)
    by_cases hk : e.1 = fn
    · simp only [insertFile, if_pos hk]
      simp only [countContent, List.filter]
      have : ∀ rest' : List (Chars × γ), (∀ e' ∈ rest', e'.2 ≠ c) →
          (rest'.filter fun e' => e'.2 = c) = [] := by
        intro rest' hr
        rw [List.filter_eq_nil_iff]
        intro e' he'
        simpa using hr e' he'
      simp [this rest fun e' he' => h e' (List.mem_cons_of_mem e he')]
    · simp only [insertFile, if_neg hk]
      simp only [countContent, List.filter] at ih ⊢
      simp only [decide_eq_false he]
      exact ih fun e' he' => h e' (List.mem_cons_of_mem e he')

theorem scanVideos_lookup_fresh [DecidableEq H] (env : Env γ ι H) (h : H) :
    ∀ (files : List (Chars × γ)) (reg : List (H × Chars)),
      (∀ fn c, (fn, c) ∈ files → vidExtOk fn = true → env.fileHash c ≠ h) →
      lookupA (scanVideos env reg files) h = lookupA reg h := by
  intro files
  induction files with
  | nil => intro reg _; rfl
  | cons e rest ih =>
    intro reg hf
    obtain ⟨fn, c⟩ := e
    by_cases hx : vidExtOk fn = true
    · simp only [scanVideos, if_pos hx]
      by_cases hl : (lookupA reg (env.fileHash c)).isSome = true
      · rw [if_pos hl]
        exact ih reg fun fn' c' hm hx' => hf fn' c' (List.mem_cons_of_mem _ hm) hx'
      · rw [if_neg hl]
        rw [ih _ fun fn' c' hm hx' => hf fn' c' (List.mem_cons_of_mem _ hm) hx',
          lookupA_append]
        have hne : env.fileHash c ≠ h := hf fn c (List.mem_cons_self _ _) hx
        cases hr : lookupA reg h with
        | some v => rfl
        | none => simp [lookupA, hne]
    · simp only [scanVideos, if_neg hx]
      exact ih reg fun fn' c' hm hx' => hf fn' c' (List.mem_cons_of_mem _ hm) hx'

theorem scanImages_lookup_fresh [DecidableEq H] (env : Env γ ι H) (h : H) :
    ∀ (files : List (Chars × γ)) (reg : List (H × Chars)),
      (∀ fn c, (fn, c) ∈ files → imgExtOk fn = true →
        ∀ im, env.reopen c = some im → computePilHash env im ≠ h) →
      lookupA (scanImages env reg files) h = lookupA reg h := by
  intro files
  induction files with
  | nil => intro reg _; rfl
  | cons e rest ih =>
    intro reg hf
    obtain ⟨fn, c⟩ := e
    by_cases hx : imgExtOk fn = true
    · cases hro : env.reopen c with
      | none =>
        simp only [scanImages, hx, hro, if_true]
        exact ih reg fun fn' c' hm hx' => hf fn' c' (List.mem_cons_of_mem _ hm) hx'
      | some im =>
        by_cases hl : (lookupA reg (computePilHash env im)).isSome = true
        · simp only [scanImages, hx, hro, if_true, if_pos hl]
          exact ih reg fun fn' c' hm hx' => hf fn' c' (List.mem_cons_of_mem _ hm) hx'
        · simp only [scanImages, hx, hro, if_true, if_neg hl]
          rw [ih _ fun fn' c' hm hx' => hf fn' c' (List.mem_cons_of_mem _ hm) hx',
            lookupA_append]
          have hne : computePilHash env im ≠ h :=
            hf fn c (List.mem_cons_self _ _) hx im hro
          cases hr : lookupA reg h with
          | some v => rfl
          | none => simp [lookupA, hne]
    · simp only [scanImages, if_neg hx]
      exact ih reg fun fn' c' hm hx' => hf fn' c' (List.mem_cons_of_mem _ hm) hx'

/-- Resolution of a canonical `base_videos/<fn>` reference (same cascade
collapse as `resolve_ovlRef`). -/
theorem resolve_vidRef (s : Store γ H) (fn : Chars) :
    resolveMediaPath s (dirVidF ++ fn) none =
      if exA s (pjoin mediaRoot (dirVidF ++ fn)) = true
      then some (pjoin mediaRoot (dirVidF ++ fn)) else none := by
  have hpre1 : isPre preImg (dirVidF ++ fn) = false := rfl
  have hpre2 : isPre preVid (dirVidF ++ fn) = false := rfl
  have hpre3 : isPre preCanvas (dirVidF ++ fn) = false := rfl
  have hc4 : (isBaseImageRef (dirVidF ++ fn) && isPre preImg (dirVidF ++ fn) &&
      exA s (getBaseImagePath (dirVidF ++ fn))) = false := by
    rw [hpre1, Bool.and_false, Bool.false_and]
  have hc6 : (isBaseVideoRef (dirVidF ++ fn) && isPre preVid (dirVidF ++ fn) &&
      exA s (getBaseVideoPath (dirVidF ++ fn))) = false := by
    rw [hpre2, Bool.and_false, Bool.false_and]
  have hc8 : (isOverlayRef (dirVidF ++ fn) && isPre preCanvas (dirVidF ++ fn) &&
      exA s (getOverlayPath (dirVidF ++ fn))) = false := by
    rw [hpre3, Bool.and_false, Bool.false_and]
  unfold resolveMediaPath
  rw [if_cond_false (show (dirVidF ++ fn).isEmpty = false from rfl),
      if_cond_false (show isAbsPath (dirVidF ++ fn) = false from rfl),
      if_cond_false hc4, if_cond_false hc6, if_cond_false hc8]
  by_cases hex : exA s (pjoin mediaRoot (dirVidF ++ fn)) = true
  · rw [hex]
    simp only [Bool.and_true, if_true]
    exact ite_same3 _ _ _ _
  · have hex' : exA s (pjoin mediaRoot (dirVidF ++ fn)) = false := by
      revert hex; cases exA s (pjoin mediaRoot (dirVidF ++ fn)) <;> simp
    rw [hex']
    simp

/-- Resolution of a canonical `base_images/<fn>` reference. -/
theorem resolve_imgRef (s : Store γ H) (fn : Chars) :
    resolveMediaPath s (dirImgF ++ fn) none =
      if exA s (pjoin mediaRoot (dirImgF ++ fn)) = true
      then some (pjoin mediaRoot (dirImgF ++ fn)) else none := by
  have hpre1 : isPre preImg (dirImgF ++ fn) = false := rfl
  have hpre2 : isPre preVid (dirImgF ++ fn) = false := rfl
  have hpre3 : isPre preCanvas (dirImgF ++ fn) = false := rfl
  have hc4 : (isBaseImageRef (dirImgF ++ fn) && isPre preImg (dirImgF ++ fn) &&
      exA s (getBaseImagePath (dirImgF ++ fn))) = false := by
    rw [hpre1, Bool.and_false, Bool.false_and]
  have hc6 : (isBaseVideoRef (dirImgF ++ fn) && isPre preVid (dirImgF ++ fn) &&
      exA s (getBaseVideoPath (dirImgF ++ fn))) = false := by
    rw [hpre2, Bool.and_false, Bool.false_and]
  have hc8 : (isOverlayRef (dirImgF ++ fn) && isPre preCanvas (dirImgF ++ fn) &&
      exA s (getOverlayPath (dirImgF ++ fn))) = false := by
    rw [hpre3, Bool.and_false, Bool.false_and]
  unfold resolveMediaPath
  rw [if_cond_false (show (dirImgF ++ fn).isEmpty = false from rfl),
      if_cond_false (show isAbsPath (dirImgF ++ fn) = false from rfl),
      if_cond_false hc4, if_cond_false hc6, if_cond_false hc8]
  by_cases hex : exA s (pjoin mediaRoot (dirImgF ++ fn)) = true
  · rw [hex]
    simp only [Bool.and_true, if_true]
    exact ite_same3 _ _ _ _
  · have hex' : exA s (pjoin mediaRoot (dirImgF ++ fn)) = false := by
      revert hex; cases exA s (pjoin mediaRoot (dirImgF ++ fn)) <;> simp
    rw [hex']
    simp

theorem fileAt_vidPath (s : Store γ H) (fn : Chars) :
    fileAt s (pjoin mediaRoot (dirVidF ++ fn)) = lookupA s.vid fn := rfl

theorem fileAt_imgPath (s : Store γ H) (fn : Chars) :
    fileAt s (pjoin mediaRoot (dirImgF ++ fn)) = lookupA s.img fn := rfl

theorem isEmpty_false_of_ne_nil {α : Type} {l : List α} (h : l ≠ []) :
    l.isEmpty = false := by
  cases l with
  | nil => exact absurd rfl h
  | cons a as => rfl

theorem ensurePopVid_fields [DecidableEq H] (env : Env γ ι H) (s : Store γ H) :
    (ensurePopVid env s).vid = s.vid ∧ (ensurePopVid env s).img = s.img ∧
    (ensurePopVid env s).ctr = s.ctr := by
  unfold ensurePopVid
  split <;> exact ⟨rfl, rfl, rfl⟩

theorem ensurePopVid_lookup_fresh [DecidableEq H] (env : Env γ ι H)
    (s : Store γ H) {h : H}
    (hreg : lookupA s.regVid h = none)
    (hscan : ∀ fn c, (fn, c) ∈ s.vid → vidExtOk fn = true →
      env.fileHash c ≠ h) :
    lookupA (ensurePopVid env s).regVid h = none := by
  unfold ensurePopVid
  split
  · rw [scanVideos_lookup_fresh env h s.vid s.regVid hscan]
    exact hreg
  · exact hreg

/-- First attach of fresh video content: the dedup lookup and the self-heal
scans find nothing, so a new file is written and registered. -/
theorem attachVideo_run [DecidableEq H] (env : Env γ ι H) (s : Store γ H)
    (C : γ) (xt : Chars)
    (hreg : lookupA s.regVid (env.fileHash C) = none)
    (hscan : ∀ fn c, (fn, c) ∈ s.vid → vidExtOk fn = true →
      env.fileHash c ≠ env.fileHash C)
    (hdisk : env.diskOk (genVidName s.ctr xt) = true) :
    ∃ s1 : Store γ H,
      attachVideo env s C xt = (.ok (dirVidF ++ genVidName s.ctr xt), s1) ∧
      s1.vid = insertFile s.vid (genVidName s.ctr xt) C ∧
      lookupA s1.regVid (env.fileHash C) =
        some (dirVidF ++ genVidName s.ctr xt) ∧
      s1.regPersisted = true ∧ s1.regVid ≠ [] ∧ s1.img = s.img := by
  obtain ⟨hv, hi, hc⟩ := ensurePopVid_fields env s
  have hlook1 : lookupA (ensurePopVid env s).regVid (env.fileHash C) = none :=
    ensurePopVid_lookup_fresh env s hreg hscan
  have hscan1 : ∀ fn c, (fn, c) ∈ (ensurePopVid env s).vid →
      vidExtOk fn = true → env.fileHash c ≠ env.fileHash C := by
    rw [hv]; exact hscan
  have hlook2 : lookupA (rescanVid env (ensurePopVid env s)).regVid
      (env.fileHash C) = none := by
    show lookupA (scanVideos env (ensurePopVid env s).regVid
      (ensurePopVid env s).vid) (env.fileHash C) = none
    rw [scanVideos_lookup_fresh env _ _ _ hscan1]
    exact hlook1
  have hfind : findExistVid env s (env.fileHash C) =
      (none, rescanVid env (ensurePopVid env s)) := by
    simp only [findExistVid, hlook1, hlook2]
  have hctr2 : (rescanVid env (ensurePopVid env s)).ctr = s.ctr := hc
  have hvid2 : (rescanVid env (ensurePopVid env s)).vid = s.vid := hv
  refine ⟨registerMediaVid
      { rescanVid env (ensurePopVid env s) with
        vid := insertFile (rescanVid env (ensurePopVid env s)).vid
          (genVidName s.ctr xt) C,
        ctr := (rescanVid env (ensurePopVid env s)).ctr + 1 }
      (env.fileHash C) (dirVidF ++ genVidName s.ctr xt),
    ?_, ?_, ?_, ?_, ?_, ?_⟩
  · simp only [attachVideo, hfind]
    unfold attachVideoFresh
    rw [hctr2, if_cond_true hdisk]
  · show insertFile (rescanVid env (ensurePopVid env s)).vid
      (genVidName s.ctr xt) C = insertFile s.vid (genVidName s.ctr xt) C
    rw [hvid2]
  · exact insertReg_lookup_self _ _ _
  · rfl
  · exact insertReg_ne_nil _ _ _
  · exact hi

/-- Any later attach of the same video content takes the dedup fast path:
same reference, store untouched. -/
theorem attachVideo_stable [DecidableEq H] (env : Env γ ι H) (s : Store γ H)
    (C : γ) (xt : Chars) (fn : Chars)
    (hpers : s.regPersisted = true) (hne : s.regVid ≠ [])
    (hlook : lookupA s.regVid (env.fileHash C) = some (dirVidF ++ fn))
    (hfile : (lookupA s.vid fn).isSome = true) :
    attachVideo env s C xt = (.ok (dirVidF ++ fn), s) := by
  have hpop : ensurePopVid env s = s := by
    unfold ensurePopVid
    rw [if_cond_false]
    rw [hpers, isEmpty_false_of_ne_nil hne]
    rfl
  have hres : (resolveMediaPath s (dirVidF ++ fn) none).isSome = true := by
    rw [resolve_vidRef,
      if_cond_true (show exA s (pjoin mediaRoot (dirVidF ++ fn)) = true by
        unfold exA; rw [fileAt_vidPath]; exact hfile)]
    rfl
  have hfind : findExistVid env s (env.fileHash C) =
      (some (dirVidF ++ fn), s) := by
    simp only [findExistVid, hpop, hlook, hres, if_true]
  simp only [attachVideo, hfind, hres, if_true]

theorem ensurePopImg_fields [DecidableEq H] (env : Env γ ι H) (s : Store γ H) :
    (ensurePopImg env s).vid = s.vid ∧ (ensurePopImg env s).img = s.img ∧
    (ensurePopImg env s).ctr = s.ctr := by
  unfold ensurePopImg
  split <;> exact ⟨rfl, rfl, rfl⟩

theorem ensurePopImg_lookup_fresh [DecidableEq H] (env : Env γ ι H)
    (s : Store γ H) {h : H}
    (hreg : lookupA s.regImg h = none)
    (hscan : ∀ fn c, (fn, c) ∈ s.img → imgExtOk fn = true →
      ∀ im, env.reopen c = some im → computePilHash env im ≠ h) :
    lookupA (ensurePopImg env s).regImg h = none := by
  unfold ensurePopImg
  split
  · rw [scanImages_lookup_fresh env h s.img s.regImg hscan]
    exact hreg
  · exact hreg

/-- First attach of fresh image content: nothing deduplicates, so the
normalized JPEG is written under a fresh name and registered under the
upload's normalized hash. -/
theorem attachImage_run [DecidableEq H] (env : Env γ ι H) (s : Store γ H)
    (C : γ) (img : ι)
    (hdec : env.decode C = some img)
    (hreg : lookupA s.regImg (computePilHash env img) = none)
    (hscan : ∀ fn c, (fn, c) ∈ s.img → imgExtOk fn = true →
      ∀ im, env.reopen c = some im →
        computePilHash env im ≠ computePilHash env img)
    (hdisk : env.diskOk (genImgName s.ctr) = true) :
    ∃ s1 : Store γ H,
      attachImage env s C = (.ok (dirImgF ++ genImgName s.ctr), s1) ∧
      s1.img = insertFile s.img (genImgName s.ctr)
        (pilToJpgContent env img 90) ∧
      lookupA s1.regImg (computePilHash env img) =
        some (dirImgF ++ genImgName s.ctr) ∧
      s1.regPersisted = true ∧ s1.regImg ≠ [] ∧ s1.vid = s.vid := by
  obtain ⟨hv, hi, hc⟩ := ensurePopImg_fields env s
  have hlook1 : lookupA (ensurePopImg env s).regImg (computePilHash env img) =
      none := ensurePopImg_lookup_fresh env s hreg hscan
  have hscan1 : ∀ fn c, (fn, c) ∈ (ensurePopImg env s).img →
      imgExtOk fn = true → ∀ im, env.reopen c = some im →
        computePilHash env im ≠ computePilHash env img := by
    rw [hi]; exact hscan
  have hlook2 : lookupA (rescanImg env (ensurePopImg env s)).regImg
      (computePilHash env img) = none := by
    show lookupA (scanImages env (ensurePopImg env s).regImg
      (ensurePopImg env s).img) (computePilHash env img) = none
    rw [scanImages_lookup_fresh env _ _ _ hscan1]
    exact hlook1
  have hfind : findExistImg env s (computePilHash env img) =
      (none, rescanImg env (ensurePopImg env s)) := by
    simp only [findExistImg, hlook1, hlook2]
  have hctr2 : (rescanImg env (ensurePopImg env s)).ctr = s.ctr := hc
  have himg2 : (rescanImg env (ensurePopImg env s)).img = s.img := hi
  refine ⟨registerMediaImg
      { rescanImg env (ensurePopImg env s) with
        img := insertFile (rescanImg env (ensurePopImg env s)).img
          (genImgName s.ctr) (pilToJpgContent env img 90),
        ctr := (rescanImg env (ensurePopImg env s)).ctr + 1 }
      (computePilHash env img) (dirImgF ++ genImgName s.ctr),
    ?_, ?_, ?_, ?_, ?_, ?_⟩
  · simp only [attachImage, hdec, hfind]
    unfold attachImageFresh
    rw [hctr2, if_cond_true hdisk]
  · show insertFile (rescanImg env (ensurePopImg env s)).img
      (genImgName s.ctr) (pilToJpgContent env img 90) =
      insertFile s.img (genImgName s.ctr) (pilToJpgContent env img 90)
    rw [himg2]
  · exact insertReg_lookup_self _ _ _
  · rfl
  · exact insertReg_ne_nil _ _ _
  · exact hv

/-- Any later attach of the same image content takes the dedup fast path. -/
theorem attachImage_stable [DecidableEq H] (env : Env γ ι H) (s : Store γ H)
    (C : γ) (img : ι) (fn : Chars)
    (hdec : env.decode C = some img)
    (hpers : s.regPersisted = true) (hne : s.regImg ≠ [])
    (hlook : lookupA s.regImg (computePilHash env img) =
      some (dirImgF ++ fn))
    (hfile : (lookupA s.img fn).isSome = true) :
    attachImage env s C = (.ok (dirImgF ++ fn), s) := by
  have hpop : ensurePopImg env s = s := by
    unfold ensurePopImg
    rw [if_cond_false]
    rw [hpers, isEmpty_false_of_ne_nil hne]
    rfl
  have hres : (resolveMediaPath s (dirImgF ++ fn) none).isSome = true := by
    rw [resolve_imgRef,
      if_cond_true (show exA s (pjoin mediaRoot (dirImgF ++ fn)) = true by
        unfold exA; rw [fileAt_imgPath]; exact hfile)]
    rfl
  have hfind : findExistImg env s (computePilHash env img) =
      (some (dirImgF ++ fn), s) := by
    simp only [findExistImg, hpop, hlook, hres, if_true]
  simp only [attachImage, hdec, hfind, hres, if_true]

theorem attachMedia_vid [DecidableEq H] (env : Env γ ι H) (s : Store γ H)
    (C : γ) (xt : Chars) :
    attachMedia env s ("video".data) C xt = attachVideo env s C xt := by
  unfold attachMedia
  rw [if_pos rfl]

theorem attachMedia_img [DecidableEq H] (env : Env γ ι H) (s : Store γ H)
    (C : γ) (xt : Chars) :
    attachMedia env s ("image".data) C xt = attachImage env s C := by
  unfold attachMedia
  rw [if_neg (by decide)]

theorem attachMediaN_stable_vid [DecidableEq H] (env : Env γ ι H)
    (s : Store γ H) (C : γ) (xt : Chars) (fn : Chars)
    (hpers : s.regPersisted = true) (hne : s.regVid ≠ [])
    (hlook : lookupA s.regVid (env.fileHash C) = some (dirVidF ++ fn))
    (hfile : (lookupA s.vid fn).isSome = true) :
    ∀ n, attachMediaN env s ("video".data) C xt n =
      (List.replicate n (.ok (dirVidF ++ fn)), s) := by
  intro n
  induction n with
  | zero => rfl
  | succ m ih =>
    show (let r := attachMedia env s ("video".data) C xt
          let rest := attachMediaN env r.2 ("video".data) C xt m
          (r.1 :: rest.1, rest.2)) = _
    rw [attachMedia_vid, attachVideo_stable env s C xt fn hpers hne hlook hfile]
    simp only [ih, List.replicate]

theorem attachMediaN_stable_img [DecidableEq H] (env : Env γ ι H)
    (s : Store γ H) (C : γ) (xt : Chars) (img : ι) (fn : Chars)
    (hdec : env.decode C = some img)
    (hpers : s.regPersisted = true) (hne : s.regImg ≠ [])
    (hlook : lookupA s.regImg (computePilHash env img) =
      some (dirImgF ++ fn))
    (hfile : (lookupA s.img fn).isSome = true) :
    ∀ n, attachMediaN env s ("image".data) C xt n =
      (List.replicate n (.ok (dirImgF ++ fn)), s) := by
  intro n
  induction n with
  | zero => rfl
  | succ m ih =>
    show (let r := attachMedia env s ("image".data) C xt
          let rest := attachMediaN env r.2 ("image".data) C xt m
          (r.1 :: rest.1, rest.2)) = _
    rw [attachMedia_img,
      attachImage_stable env s C img fn hdec hpers hne hlook hfile]
    simp only [ih, List.replicate]

/-- C1: attaching the same uploaded bytes N times sequentially — for
videos and for images — returns the same canonical reference on every
call, and afterwards exactly one base-media file with that content exists
in the corresponding base directory.  The freshness hypotheses say the
content is new to the store: no registry entry, no on-disk file hashing or
comparing equal to it — the setting of the spec's idempotence test. -/
theorem C1_attach_idempotent [DecidableEq H] [DecidableEq γ] :
    (∀ (env : Env γ ι H) (s : Store γ H) (C : γ) (xt : Chars) (N : Nat),
      lookupA s.regVid (env.fileHash C) = none →
      (∀ fn c, (fn, c) ∈ s.vid → vidExtOk fn = true →
        env.fileHash c ≠ env.fileHash C) →
      (∀ e ∈ s.vid, e.2 ≠ C) →
      env.diskOk (genVidName s.ctr xt) = true →
      0 < N →
      ∃ s' : Store γ H,
        attachMediaN env s ("video".data) C xt N =
          (List.replicate N (.ok (dirVidF ++ genVidName s.ctr xt)), s') ∧
        countContent s'.vid C = 1) ∧
    (∀ (env : Env γ ι H) (s : Store γ H) (C : γ) (img : ι) (xt : Chars)
        (N : Nat),
      env.decode C = some img →
      lookupA s.regImg (computePilHash env img) = none →
      (∀ fn c, (fn, c) ∈ s.img → imgExtOk fn = true →
        ∀ im, env.reopen c = some im →
          computePilHash env im ≠ computePilHash env img) →
      (∀ e ∈ s.img, e.2 ≠ pilToJpgContent env img 90) →
      env.diskOk (genImgName s.ctr) = true →
      0 < N →
      ∃ s' : Store γ H,
        attachMediaN env s ("image".data) C xt N =
          (List.replicate N (.ok (dirImgF ++ genImgName s.ctr)), s') ∧
        countContent s'.img (pilToJpgContent env img 90) = 1) := by
  constructor
  · intro env s C xt N hreg hscan hcount hdisk hN
    obtain ⟨s1, hrun, hvid, hlook1, hpers1, hne1, _⟩ :=
      attachVideo_run env s C xt hreg hscan hdisk
    have hfile : (lookupA s1.vid (genVidName s.ctr xt)).isSome = true := by
      rw [hvid, insertFile_lookup_self]
      rfl
    cases N with
    | zero => exact absurd hN (by omega)
    | succ m =>
      refine ⟨s1, ?_, ?_⟩
      · show (let r := attachMedia env s ("video".data) C xt
              let rest := attachMediaN env r.2 ("video".data) C xt m
              (r.1 :: rest.1, rest.2)) = _
        rw [attachMedia_vid, hrun]
        simp only [attachMediaN_stable_vid env s1 C xt (genVidName s.ctr xt)
          hpers1 hne1 hlook1 hfile m, List.replicate]
      · rw [hvid]
        exact countContent_insertFile_fresh s.vid _ C hcount
  · intro env s C img xt N hdec hreg hscan hcount hdisk hN
    obtain ⟨s1, hrun, himg, hlook1, hpers1, hne1, _⟩ :=
      attachImage_run env s C img hdec hreg hscan hdisk
    have hfile : (lookupA s1.img (genImgName s.ctr)).isSome = true := by
      rw [himg, insertFile_lookup_self]
      rfl
    cases N with
    | zero => exact absurd hN (by omega)
    | succ m =>
      refine ⟨s1, ?_, ?_⟩
      · show (let r := attachMedia env s ("image".data) C xt
              let rest := attachMediaN env r.2 ("image".data) C xt m
              (r.1 :: rest.1, rest.2)) = _
        rw [attachMedia_img, hrun]
        simp only [attachMediaN_stable_img env s1 C xt img (genImgName s.ctr)
          hdec hpers1 hne1 hlook1 hfile m, List.replicate]
      · rw [himg]
        exact countContent_insertFile_fresh s.img _ _ hcount

/-- C1 witness: attaching fresh video bytes and fresh image bytes twice
each to an empty store yields the same reference both times and exactly
one file of that content. -/
theorem C1_attach_idempotent_witness :
    (∃ s' : Store Nat Nat,
      attachMediaN (⟨fun n => some n, id, fun q i => 100 * q + i,
          fun c => some c, fun i => (i, 10), fun _ w _ => w, fun _ => true⟩ :
          Env Nat Nat Nat)
        (⟨[], [], fun _ => none, fun _ => none, [], [], false, 0⟩ : Store Nat Nat)
        ("video".data) 5 (".mp4".data) 2 =
        (List.replicate 2 (.ok (dirVidF ++ genVidName 0 (".mp4".data))), s') ∧
      countContent s'.vid 5 = 1) ∧
    dirVidF ++ genVidName 0 (".mp4".data) =
      "base_videos/MEDIA_VID__0.mp4".data ∧
    (∃ s' : Store Nat Nat,
      attachMediaN (⟨fun n => some n, id, fun q i => 100 * q + i,
          fun c => some c, fun i => (i, 10), fun _ w _ => w, fun _ => true⟩ :
          Env Nat Nat Nat)
        (⟨[], [], fun _ => none, fun _ => none, [], [], false, 0⟩ : Store Nat Nat)
        ("image".data) 7 (".mp4".data) 2 =
        (List.replicate 2 (.ok (dirImgF ++ genImgName 0)), s') ∧
      countContent s'.img 9007 = 1) ∧
    dirImgF ++ genImgName 0 = "base_images/MEDIA_IMG__0.jpg".data := by
  obtain ⟨hvid, himg⟩ :=
    C1_attach_idempotent (γ := Nat) (H := Nat) (ι := Nat)
  refine ⟨?_, by decide, ?_, by decide⟩
  · exact hvid
      (⟨fun n => some n, id, fun q i => 100 * q + i, fun c => some c,
        fun i => (i, 10), fun _ w _ => w, fun _ => true⟩ : Env Nat Nat Nat)
      (⟨[], [], fun _ => none, fun _ => none, [], [], false, 0⟩ : Store Nat Nat)
      5 (".mp4".data) 2 rfl
      (fun fn c hm _ => absurd hm (List.not_mem_nil _))
      (fun e hm => absurd hm (List.not_mem_nil _)) rfl (by decide)
  · exact himg
      (⟨fun n => some n, id, fun q i => 100 * q + i, fun c => some c,
        fun i => (i, 10), fun _ w _ => w, fun _ => true⟩ : Env Nat Nat Nat)
      (⟨[], [], fun _ => none, fun _ => none, [], [], false, 0⟩ : Store Nat Nat)
      7 7 (".mp4".data) 2 rfl rfl
      (fun fn c hm _ => absurd hm (List.not_mem_nil _))
      (fun e hm => absurd hm (List.not_mem_nil _)) rfl (by decide)

theorem extOf_dotjpg (x : Chars) : extOf (x ++ (".jpg".data)) = ".jpg".data := by
  unfold extOf
  rw [if_pos (List.mem_append.mpr (Or.inr (by decide))),
    show (x ++ (".jpg".data)).reverse = 'g' :: 'p' :: 'j' :: '.' :: x.reverse from
      by rw [List.reverse_append]; rfl]
  rfl

theorem toLowerC_genImgName (n : Nat) :
    toLowerC (genImgName n) =
      (toLowerC preImg ++ toLowerC (natRepr n)) ++ (".jpg".data) := by
  unfold toLowerC genImgName
  rw [List.map_append, List.map_append]
  rfl

/-- C10: a fresh image attach stores the normalization of the upload: the
JPEG-quality-90 encode of the decoded bitmap, downscaled to width 1800
when wider, under a `.jpg` filename; downscaling preserves the aspect
ratio via the height formula `round(h * 1800 / w)`, and images at most
1800 wide are stored unscaled.  A concrete instance shows the stored
bytes differ from the uploaded bytes. -/
theorem C10_image_normalization [DecidableEq H] :
    (∀ (env : Env γ ι H) (s : Store γ H) (C : γ) (img : ι),
      env.decode C = some img →
      lookupA s.regImg (computePilHash env img) = none →
      (∀ fn c, (fn, c) ∈ s.img → imgExtOk fn = true →
        ∀ im, env.reopen c = some im →
          computePilHash env im ≠ computePilHash env img) →
      env.diskOk (genImgName s.ctr) = true →
      ∃ s1 : Store γ H,
        attachImage env s C = (.ok (dirImgF ++ genImgName s.ctr), s1) ∧
        lookupA s1.img (genImgName s.ctr) =
          some (env.encodeJ 90 (downscaleToWidth env img 1800)) ∧
        extOf (toLowerC (genImgName s.ctr)) = ".jpg".data) ∧
    (∀ (env : Env γ ι H) (img : ι) (w h : Nat),
      (∀ i w' h', env.size (env.resize i w' h') = (w', h')) →
      env.size img = (w, h) → 1800 < w →
      env.size (downscaleToWidth env img 1800) = (1800, pyRound (h * 1800) w)) ∧
    (∀ (env : Env γ ι H) (img : ι) (w h : Nat),
      env.size img = (w, h) → w ≤ 1800 →
      downscaleToWidth env img 1800 = img) ∧
    pilToJpgContent (⟨fun n => some n, id, fun q i => 100 * q + i,
      fun c => some c, fun i => (i, 10), fun _ w _ => w, fun _ => true⟩ :
      Env Nat Nat Nat) 7 90 ≠ 7 := by
  refine ⟨?_, ?_, ?_, by decide⟩
  · intro env s C img hdec hreg hscan hdisk
    obtain ⟨s1, hrun, himg, _, _, _, _⟩ :=
      attachImage_run env s C img hdec hreg hscan hdisk
    refine ⟨s1, hrun, ?_, ?_⟩
    · rw [himg, insertFile_lookup_self]
      rfl
    · rw [toLowerC_genImgName, extOf_dotjpg]
  · intro env img w h hres hsz hw
    unfold downscaleToWidth
    rw [hsz]
    rw [if_neg (by simpa using by omega : ¬((w, h).1 ≤ 1800))]
    exact hres img 1800 (pyRound ((w, h).2 * 1800) (w, h).1)
  · intro env img w h hsz hw
    unfold downscaleToWidth
    rw [hsz, if_pos (by simpa using hw)]

/-- C10 witness: a concrete fresh attach of a decodable upload on an empty
store, via the theorem. -/
theorem C10_image_normalization_witness :
    ∃ s1 : Store Nat Nat,
      attachImage (⟨fun n => some n, id, fun q i => 100 * q + i,
          fun c => some c, fun i => (i, 10), fun _ w _ => w, fun _ => true⟩ :
          Env Nat Nat Nat)
        (⟨[], [], fun _ => none, fun _ => none, [], [], false, 0⟩ : Store Nat Nat)
        7 = (.ok (dirImgF ++ genImgName 0), s1) ∧
      lookupA s1.img (genImgName 0) = some 9007 := by
  obtain ⟨hmain, _, _, _⟩ :=
    C10_image_normalization (γ := Nat) (H := Nat) (ι := Nat)
  obtain ⟨s1, h1, h2, _⟩ := hmain
    (⟨fun n => some n, id, fun q i => 100 * q + i, fun c => some c,
      fun i => (i, 10), fun _ w _ => w, fun _ => true⟩ : Env Nat Nat Nat)
    (⟨[], [], fun _ => none, fun _ => none, [], [], false, 0⟩ : Store Nat Nat)
    7 7 rfl rfl (fun fn c hm _ => absurd hm (List.not_mem_nil _)) rfl
  exact ⟨s1, h1, h2⟩

theorem attachVideoFresh_ok_resolves [DecidableEq H] (env : Env γ ι H)
    (S : Store γ H) (C : γ) (h0 : H) (xt ref : Chars) (s' : Store γ H)
    (h : attachVideoFresh env S C h0 xt = (.ok ref, s')) :
    ∃ p, resolveMediaPath s' ref none = some p ∧ (fileAt s' p).isSome = true := by
  unfold attachVideoFresh at h
  by_cases hd : env.diskOk (genVidName S.ctr xt) = true
  · rw [if_cond_true hd] at h
    rw [Prod.mk.injEq] at h
    obtain ⟨h1, h2⟩ := h
    injection h1 with h1
    subst h1
    subst h2
    have hfile : lookupA (registerMediaVid
        { S with vid := insertFile S.vid (genVidName S.ctr xt) C,
                 ctr := S.ctr + 1 } h0
        (dirVidF ++ genVidName S.ctr xt)).vid (genVidName S.ctr xt) =
        some C := insertFile_lookup_self _ _ _
    have hex : exA (registerMediaVid
        { S with vid := insertFile S.vid (genVidName S.ctr xt) C,
                 ctr := S.ctr + 1 } h0 (dirVidF ++ genVidName S.ctr xt))
        (pjoin mediaRoot (dirVidF ++ genVidName S.ctr xt)) = true := by
      unfold exA
      rw [fileAt_vidPath, hfile]
      rfl
    refine ⟨pjoin mediaRoot (dirVidF ++ genVidName S.ctr xt), ?_, ?_⟩
    · rw [resolve_vidRef, if_cond_true hex]
    · rw [show (fileAt _ (pjoin mediaRoot (dirVidF ++ genVidName S.ctr xt))).isSome
        = exA _ (pjoin mediaRoot (dirVidF ++ genVidName S.ctr xt)) from rfl, hex]
  · rw [Bool.not_eq_true] at hd
    rw [if_cond_false hd] at h
    rw [Prod.mk.injEq] at h
    exact absurd h.1 (by simp)

theorem attachImageFresh_ok_resolves [DecidableEq H] (env : Env γ ι H)
    (S : Store γ H) (img : ι) (h0 : H) (ref : Chars) (s' : Store γ H)
    (h : attachImageFresh env S img h0 = (.ok ref, s')) :
    ∃ p, resolveMediaPath s' ref none = some p ∧ (fileAt s' p).isSome = true := by
  unfold attachImageFresh at h
  by_cases hd : env.diskOk (genImgName S.ctr) = true
  · rw [if_cond_true hd] at h
    rw [Prod.mk.injEq] at h
    obtain ⟨h1, h2⟩ := h
    injection h1 with h1
    subst h1
    subst h2
    have hfile : lookupA (registerMediaImg
        { S with img := (insertFile S.img (genImgName S.ctr)
            (pilToJpgContent env img 90)), ctr := S.ctr + 1 } h0
        (dirImgF ++ genImgName S.ctr)).img (genImgName S.ctr) =
        some (pilToJpgContent env img 90) := insertFile_lookup_self _ _ _
    have hex : exA (registerMediaImg
        { S with img := (insertFile S.img (genImgName S.ctr)
            (pilToJpgContent env img 90)), ctr := S.ctr + 1 } h0
        (dirImgF ++ genImgName S.ctr))
        (pjoin mediaRoot (dirImgF ++ genImgName S.ctr)) = true := by
      unfold exA
      rw [fileAt_imgPath, hfile]
      rfl
    refine ⟨pjoin mediaRoot (dirImgF ++ genImgName S.ctr), ?_, ?_⟩
    · rw [resolve_imgRef, if_cond_true hex]
    · rw [show (fileAt _ (pjoin mediaRoot (dirImgF ++ genImgName S.ctr))).isSome
        = exA _ (pjoin mediaRoot (dirImgF ++ genImgName S.ctr)) from rfl, hex]
  · rw [Bool.not_eq_true] at hd
    rw [if_cond_false hd] at h
    rw [Prod.mk.injEq] at h
    exact absurd h.1 (by simp)

/-- C2 counterexample.  Image hashes are computed from the upload BEFORE
the storage re-encode: an upload 3600 pixels wide is stored downscaled to
1800 at quality 90, and re-reading the stored file and re-hashing it the
way attach does yields a different hash from the one registered at attach
time, falsifying the claim as stated.  (The image codec is instantiated
concretely: a bitmap is its (width, height) pair, an encoded file keeps
the bitmap and the encode quality, so encodes of different widths differ
— as JPEG headers do.) -/
theorem C2_counterexample :
    (attachImage (⟨fun g => some g.1, id, fun q i => (i, q), fun g => some g.1,
        fun i => i, fun _ w h => (w, h), fun _ => true⟩ :
        Env ((Nat × Nat) × Nat) (Nat × Nat) ((Nat × Nat) × Nat))
      (⟨[], [], fun _ => none, fun _ => none, [], [], false, 0⟩ :
        Store ((Nat × Nat) × Nat) ((Nat × Nat) × Nat))
      ((3600, 100), 0)).1.toOption = some (dirImgF ++ genImgName 0) ∧
    lookupA (attachImage (⟨fun g => some g.1, id, fun q i => (i, q),
        fun g => some g.1, fun i => i, fun _ w h => (w, h), fun _ => true⟩ :
        Env ((Nat × Nat) × Nat) (Nat × Nat) ((Nat × Nat) × Nat))
      (⟨[], [], fun _ => none, fun _ => none, [], [], false, 0⟩ :
        Store ((Nat × Nat) × Nat) ((Nat × Nat) × Nat))
      ((3600, 100), 0)).2.regImg ((3600, 100), 95) =
      some (dirImgF ++ genImgName 0) ∧
    lookupA (attachImage (⟨fun g => some g.1, id, fun q i => (i, q),
        fun g => some g.1, fun i => i, fun _ w h => (w, h), fun _ => true⟩ :
        Env ((Nat × Nat) × Nat) (Nat × Nat) ((Nat × Nat) × Nat))
      (⟨[], [], fun _ => none, fun _ => none, [], [], false, 0⟩ :
        Store ((Nat × Nat) × Nat) ((Nat × Nat) × Nat))
      ((3600, 100), 0)).2.img (genImgName 0) = some ((1800, 50), 90) ∧
    (Option.map
      (computePilHash (⟨fun g => some g.1, id, fun q i => (i, q),
        fun g => some g.1, fun i => i, fun _ w h => (w, h), fun _ => true⟩ :
        Env ((Nat × Nat) × Nat) (Nat × Nat) ((Nat × Nat) × Nat)))
      ((⟨fun g => some g.1, id, fun q i => (i, q), fun g => some g.1,
        fun i => i, fun _ w h => (w, h), fun _ => true⟩ :
        Env ((Nat × Nat) × Nat) (Nat × Nat) ((Nat × Nat) × Nat)).reopen
        ((1800, 50), 90)) = some ((1800, 50), 95)) ∧
    (((1800, 50), 95) : (Nat × Nat) × Nat) ≠ ((3600, 100), 95) := by
  refine ⟨?_, ?_, ?_, by decide, by decide⟩ <;> decide

/-- C2 (amended): every reference returned by attach resolves to an
existing file.  For freshly stored content the video file's bytes are the
hashed bytes, so the recomputed hash equals the registered one; for images
the registered hash is that of the upload's normalized encode, while the
stored file is re-encoded at quality 90 (and possibly downscaled), so the
recomputed hash agrees only when that re-encode re-reads to the same
normalized hash — for uploads wider than 1800 it differs. -/
theorem C2_resolve_roundtrip [DecidableEq H] :
    (∀ (env : Env γ ι H) (s : Store γ H) (C : γ) (xt ref : Chars)
        (s' : Store γ H),
      attachVideo env s C xt = (.ok ref, s') →
      ∃ p, resolveMediaPath s' ref none = some p ∧
        (fileAt s' p).isSome = true) ∧
    (∀ (env : Env γ ι H) (s : Store γ H) (C : γ) (ref : Chars)
        (s' : Store γ H),
      attachImage env s C = (.ok ref, s') →
      ∃ p, resolveMediaPath s' ref none = some p ∧
        (fileAt s' p).isSome = true) ∧
    (∀ (env : Env γ ι H) (s : Store γ H) (C : γ) (xt : Chars),
      env.diskOk (genVidName s.ctr xt) = true →
      ∃ s' : Store γ H,
        attachVideoFresh env s C (env.fileHash C) xt =
          (.ok (dirVidF ++ genVidName s.ctr xt), s') ∧
        ∃ c, lookupA s'.vid (genVidName s.ctr xt) = some c ∧
          env.fileHash c = env.fileHash C) ∧
    (∀ (env : Env γ ι H) (s : Store γ H) (img : ι) (h0 : H),
      env.diskOk (genImgName s.ctr) = true →
      ∃ s' : Store γ H,
        attachImageFresh env s img h0 =
          (.ok (dirImgF ++ genImgName s.ctr), s') ∧
        lookupA s'.img (genImgName s.ctr) =
          some (pilToJpgContent env img 90) ∧
        lookupA s'.regImg h0 = some (dirImgF ++ genImgName s.ctr)) := by
  refine ⟨?_, ?_, ?_, ?_⟩
  · intro env s C xt ref s' h
    unfold attachVideo at h
    cases hf : (findExistVid env s (env.fileHash C)).1 with
    | some ref' =>
      simp only [hf] at h
      by_cases hres : (resolveMediaPath (findExistVid env s (env.fileHash C)).2
          ref' none).isSome = true
      · rw [if_cond_true hres] at h
        rw [Prod.mk.injEq] at h
        obtain ⟨h1, h2⟩ := h
        injection h1 with h1
        subst h1
        subst h2
        obtain ⟨p, hp⟩ := Option.isSome_iff_exists.mp hres
        refine ⟨p, hp, ?_⟩
        exact resolveMediaPath_sound _ _ none p hp
      · rw [Bool.not_eq_true] at hres
        rw [if_cond_false hres] at h
        exact attachVideoFresh_ok_resolves env _ C _ xt ref s' h
    | none =>
      simp only [hf] at h
      exact attachVideoFresh_ok_resolves env _ C _ xt ref s' h
  · intro env s C ref s' h
    unfold attachImage at h
    cases hdec : env.decode C with
    | none =>
      simp only [hdec] at h
      rw [Prod.mk.injEq] at h
      exact absurd h.1 (by simp)
    | some img =>
      simp only [hdec] at h
      cases hf : (findExistImg env s (computePilHash env img)).1 with
      | some ref' =>
        simp only [hf] at h
        by_cases hres : (resolveMediaPath
            (findExistImg env s (computePilHash env img)).2 ref' none).isSome = true
        · rw [if_cond_true hres] at h
          rw [Prod.mk.injEq] at h
          obtain ⟨h1, h2⟩ := h
          injection h1 with h1
          subst h1
          subst h2
          obtain ⟨p, hp⟩ := Option.isSome_iff_exists.mp hres
          refine ⟨p, hp, ?_⟩
          exact resolveMediaPath_sound _ _ none p hp
        · rw [Bool.not_eq_true] at hres
          rw [if_cond_false hres] at h
          exact attachImageFresh_ok_resolves env _ img _ ref s' h
      | none =>
        simp only [hf] at h
        exact attachImageFresh_ok_resolves env _ img _ ref s' h
  · intro env s C xt hd
    unfold attachVideoFresh
    rw [if_cond_true hd]
    exact ⟨_, rfl, C, insertFile_lookup_self _ _ _, rfl⟩
  · intro env s img h0 hd
    unfold attachImageFresh
    rw [if_cond_true hd]
    exact ⟨_, rfl, insertFile_lookup_self _ _ _, insertReg_lookup_self _ _ _⟩

/-- C2 witness: a concrete fresh video attach; the theorem yields an
existing resolved path and a matching file hash. -/
theorem C2_resolve_roundtrip_witness :
    (∃ p, resolveMediaPath
        (attachVideo (⟨fun n => some n, id, fun q i => 100 * q + i,
            fun c => some c, fun i => (i, 10), fun _ w _ => w, fun _ => true⟩ :
            Env Nat Nat Nat)
          (⟨[], [], fun _ => none, fun _ => none, [], [], false, 0⟩ :
            Store Nat Nat) 5 (".mp4".data)).2
        (dirVidF ++ genVidName 0 (".mp4".data)) none = some p ∧
      (fileAt (attachVideo (⟨fun n => some n, id, fun q i => 100 * q + i,
            fun c => some c, fun i => (i, 10), fun _ w _ => w, fun _ => true⟩ :
            Env Nat Nat Nat)
          (⟨[], [], fun _ => none, fun _ => none, [], [], false, 0⟩ :
            Store Nat Nat) 5 (".mp4".data)).2 p).isSome = true) := by
  obtain ⟨hvid, _, _, _⟩ := C2_resolve_roundtrip (γ := Nat) (H := Nat) (ι := Nat)
  exact hvid
    (⟨fun n => some n, id, fun q i => 100 * q + i, fun c => some c,
      fun i => (i, 10), fun _ w _ => w, fun _ => true⟩ : Env Nat Nat Nat)
    (⟨[], [], fun _ => none, fun _ => none, [], [], false, 0⟩ : Store Nat Nat)
    5 (".mp4".data) (dirVidF ++ genVidName 0 (".mp4".data)) _ rfl

def errOf : Except AErr Chars → Option AErr
  | .error a => some a
  | .ok _ => none

theorem scanVideos_entries [DecidableEq H] (env : Env γ ι H) :
    ∀ (files : List (Chars × γ)) (reg : List (H × Chars)) (h' : H) (r : Chars),
      lookupA (scanVideos env reg files) h' = some r →
      lookupA reg h' = some r ∨
        ∃ fn c, (fn, c) ∈ files ∧ r = dirVidF ++ fn ∧ env.fileHash c = h' := by
  intro files
  induction files with
  | nil => intro reg h' r h; exact Or.inl h
  | cons e rest ih =>
    intro reg h' r h
    obtain ⟨fn, c⟩ := e
    by_cases hx : vidExtOk fn = true
    · simp only [scanVideos, hx, if_true] at h
      by_cases hl : (lookupA reg (env.fileHash c)).isSome = true
      · rw [if_pos hl] at h
        rcases ih reg h' r h with h0 | ⟨fn', c', hm, hr, hh⟩
        · exact Or.inl h0
        · exact Or.inr ⟨fn', c', List.mem_cons_of_mem _ hm, hr, hh⟩
      · rw [if_neg hl] at h
        rcases ih _ h' r h with h0 | ⟨fn', c', hm, hr, hh⟩
        · rw [lookupA_append] at h0
          cases hreg : lookupA reg h' with
          | some v =>
            rw [hreg] at h0
            exact Or.inl h0
          | none =>
            rw [hreg] at h0
            by_cases hhe : env.fileHash c = h'
            · simp only [lookupA, hhe, if_pos] at h0
              injection h0 with h0
              exact Or.inr ⟨fn, c, List.mem_cons_self _ _, h0.symm, hhe⟩
            · simp only [lookupA, hhe, if_neg, if_false] at h0
              exact absurd h0 (by simp [lookupA, hhe])
        · exact Or.inr ⟨fn', c', List.mem_cons_of_mem _ hm, hr, hh⟩
    · simp only [scanVideos, hx, if_false] at h
      rcases ih reg h' r h with h0 | ⟨fn', c', hm, hr, hh⟩
      · exact Or.inl h0
      · exact Or.inr ⟨fn', c', List.mem_cons_of_mem _ hm, hr, hh⟩

theorem scanImages_entries [DecidableEq H] (env : Env γ ι H) :
    ∀ (files : List (Chars × γ)) (reg : List (H × Chars)) (h' : H) (r : Chars),
      lookupA (scanImages env reg files) h' = some r →
      lookupA reg h' = some r ∨
        ∃ fn c im, (fn, c) ∈ files ∧ r = dirImgF ++ fn ∧
          env.reopen c = some im ∧ computePilHash env im = h' := by
  intro files
  induction files with
  | nil => intro reg h' r h; exact Or.inl h
  | cons e rest ih =>
    intro reg h' r h
    obtain ⟨fn, c⟩ := e
    by_cases hx : imgExtOk fn = true
    · cases hro : env.reopen c with
      | none =>
        simp only [scanImages, hx, hro, if_true] at h
        rcases ih reg h' r h with h0 | ⟨fn', c', im', hm, hr, hro', hh⟩
        · exact Or.inl h0
        · exact Or.inr ⟨fn', c', im', List.mem_cons_of_mem _ hm, hr, hro', hh⟩
      | some im =>
        simp only [scanImages, hx, hro, if_true] at h
        by_cases hl : (lookupA reg (computePilHash env im)).isSome = true
        · rw [if_pos hl] at h
          rcases ih reg h' r h with h0 | ⟨fn', c', im', hm, hr, hro', hh⟩
          · exact Or.inl h0
          · exact Or.inr ⟨fn', c', im', List.mem_cons_of_mem _ hm, hr, hro', hh⟩
        · rw [if_neg hl] at h
          rcases ih _ h' r h with h0 | ⟨fn', c', im', hm, hr, hro', hh⟩
          · rw [lookupA_append] at h0
            cases hreg : lookupA reg h' with
            | some v =>
              rw [hreg] at h0
              exact Or.inl h0
            | none =>
              rw [hreg] at h0
              by_cases hhe : computePilHash env im = h'
              · simp only [lookupA, hhe, if_pos] at h0
                injection h0 with h0
                exact Or.inr ⟨fn, c, im, List.mem_cons_self _ _, h0.symm, hro, hhe⟩
              · exact absurd h0 (by simp [lookupA, hhe])
          · exact Or.inr ⟨fn', c', im', List.mem_cons_of_mem _ hm, hr, hro', hh⟩
    · simp only [scanImages, hx, if_false] at h
      rcases ih reg h' r h with h0 | ⟨fn', c', im', hm, hr, hro', hh⟩
      · exact Or.inl h0
      · exact Or.inr ⟨fn', c', im', List.mem_cons_of_mem _ hm, hr, hro', hh⟩

theorem findExistVid_snd_cases [DecidableEq H] (env : Env γ ι H)
    (s : Store γ H) (h : H) :
    (findExistVid env s h).2 = ensurePopVid env s ∨
    (findExistVid env s h).2 = rescanVid env (ensurePopVid env s) := by
  unfold findExistVid
  cases lookupA (ensurePopVid env s).regVid h with
  | none => exact Or.inr rfl
  | some ref =>
    dsimp only
    by_cases hres : (resolveMediaPath (ensurePopVid env s) ref none).isSome = true
    · rw [if_cond_true hres]
      exact Or.inl rfl
    · rw [Bool.not_eq_true] at hres
      rw [if_cond_false hres]
      exact Or.inr rfl

theorem ensurePopVid_reg_cases [DecidableEq H] (env : Env γ ι H)
    (s : Store γ H) :
    (ensurePopVid env s).regVid = s.regVid ∨
    (ensurePopVid env s).regVid = scanVideos env s.regVid s.vid := by
  unfold ensurePopVid
  split
  · exact Or.inr rfl
  · exact Or.inl rfl

theorem findExistImg_snd_cases [DecidableEq H] (env : Env γ ι H)
    (s : Store γ H) (h : H) :
    (findExistImg env s h).2 = ensurePopImg env s ∨
    (findExistImg env s h).2 = rescanImg env (ensurePopImg env s) := by
  unfold findExistImg
  cases lookupA (ensurePopImg env s).regImg h with
  | none => exact Or.inr rfl
  | some ref =>
    dsimp only
    by_cases hres : (resolveMediaPath (ensurePopImg env s) ref none).isSome = true
    · rw [if_cond_true hres]
      exact Or.inl rfl
    · rw [Bool.not_eq_true] at hres
      rw [if_cond_false hres]
      exact Or.inr rfl

theorem ensurePopImg_reg_cases [DecidableEq H] (env : Env γ ι H)
    (s : Store γ H) :
    (ensurePopImg env s).regImg = s.regImg ∨
    (ensurePopImg env s).regImg = scanImages env s.regImg s.img := by
  unfold ensurePopImg
  split
  · exact Or.inr rfl
  · exact Or.inl rfl

/-- Entries of any registry state reachable during a video attach are
either original entries or self-heal entries for files on disk. -/
theorem vidReg_entries_oldOrDisk [DecidableEq H] (env : Env γ ι H)
    (s : Store γ H) (reg' : List (H × Chars))
    (hcase : reg' = s.regVid ∨ reg' = scanVideos env s.regVid s.vid ∨
      reg' = scanVideos env (scanVideos env s.regVid s.vid) s.vid) :
    ∀ h' r, lookupA reg' h' = some r →
      lookupA s.regVid h' = some r ∨
        ∃ fn c, (fn, c) ∈ s.vid ∧ r = dirVidF ++ fn ∧ env.fileHash c = h' := by
  intro h' r hl
  rcases hcase with hc | hc | hc
  · rw [hc] at hl
    exact Or.inl hl
  · rw [hc] at hl
    exact scanVideos_entries env s.vid s.regVid h' r hl
  · rw [hc] at hl
    rcases scanVideos_entries env s.vid _ h' r hl with h0 | h0
    · exact scanVideos_entries env s.vid s.regVid h' r h0
    · exact Or.inr h0

theorem imgReg_entries_oldOrDisk [DecidableEq H] (env : Env γ ι H)
    (s : Store γ H) (reg' : List (H × Chars))
    (hcase : reg' = s.regImg ∨ reg' = scanImages env s.regImg s.img ∨
      reg' = scanImages env (scanImages env s.regImg s.img) s.img) :
    ∀ h' r, lookupA reg' h' = some r →
      lookupA s.regImg h' = some r ∨
        ∃ fn c im, (fn, c) ∈ s.img ∧ r = dirImgF ++ fn ∧
          env.reopen c = some im ∧ computePilHash env im = h' := by
  intro h' r hl
  rcases hcase with hc | hc | hc
  · rw [hc] at hl
    exact Or.inl hl
  · rw [hc] at hl
    exact scanImages_entries env s.img s.regImg h' r hl
  · rw [hc] at hl
    rcases scanImages_entries env s.img _ h' r hl with h0 | h0
    · exact scanImages_entries env s.img s.regImg h' r h0
    · exact Or.inr h0

theorem findExistVid_snd_fields [DecidableEq H] (env : Env γ ι H)
    (s : Store γ H) (h : H) :
    (findExistVid env s h).2.vid = s.vid ∧
      (findExistVid env s h).2.img = s.img := by
  rcases findExistVid_snd_cases env s h with hB | hB <;> rw [hB] <;>
    exact ⟨(ensurePopVid_fields env s).1, (ensurePopVid_fields env s).2.1⟩

theorem findExistVid_snd_reg [DecidableEq H] (env : Env γ ι H)
    (s : Store γ H) (h : H) :
    (findExistVid env s h).2.regVid = s.regVid ∨
    (findExistVid env s h).2.regVid = scanVideos env s.regVid s.vid ∨
    (findExistVid env s h).2.regVid =
      scanVideos env (scanVideos env s.regVid s.vid) s.vid := by
  rcases findExistVid_snd_cases env s h with hB | hB <;> rw [hB]
  · rcases ensurePopVid_reg_cases env s with h1 | h1
    · exact Or.inl h1
    · exact Or.inr (Or.inl h1)
  · have hv : (ensurePopVid env s).vid = s.vid := (ensurePopVid_fields env s).1
    rcases ensurePopVid_reg_cases env s with h1 | h1
    · refine Or.inr (Or.inl ?_)
      show scanVideos env (ensurePopVid env s).regVid (ensurePopVid env s).vid =
        scanVideos env s.regVid s.vid
      rw [h1, hv]
    · refine Or.inr (Or.inr ?_)
      show scanVideos env (ensurePopVid env s).regVid (ensurePopVid env s).vid =
        scanVideos env (scanVideos env s.regVid s.vid) s.vid
      rw [h1, hv]

theorem findExistImg_snd_fields [DecidableEq H] (env : Env γ ι H)
    (s : Store γ H) (h : H) :
    (findExistImg env s h).2.vid = s.vid ∧
      (findExistImg env s h).2.img = s.img := by
  rcases findExistImg_snd_cases env s h with hB | hB <;> rw [hB] <;>
    exact ⟨(ensurePopImg_fields env s).1, (ensurePopImg_fields env s).2.1⟩

theorem findExistImg_snd_reg [DecidableEq H] (env : Env γ ι H)
    (s : Store γ H) (h : H) :
    (findExistImg env s h).2.regImg = s.regImg ∨
    (findExistImg env s h).2.regImg = scanImages env s.regImg s.img ∨
    (findExistImg env s h).2.regImg =
      scanImages env (scanImages env s.regImg s.img) s.img := by
  rcases findExistImg_snd_cases env s h with hB | hB <;> rw [hB]
  · rcases ensurePopImg_reg_cases env s with h1 | h1
    · exact Or.inl h1
    · exact Or.inr (Or.inl h1)
  · have hv : (ensurePopImg env s).img = s.img := (ensurePopImg_fields env s).2.1
    rcases ensurePopImg_reg_cases env s with h1 | h1
    · refine Or.inr (Or.inl ?_)
      show scanImages env (ensurePopImg env s).regImg (ensurePopImg env s).img =
        scanImages env s.regImg s.img
      rw [h1, hv]
    · refine Or.inr (Or.inr ?_)
      show scanImages env (ensurePopImg env s).regImg (ensurePopImg env s).img =
        scanImages env (scanImages env s.regImg s.img) s.img
      rw [h1, hv]

/-- On any failing fresh-write step for videos, the result is exactly a
storage error with nothing but the name counter advanced. -/
theorem attachVideoFresh_error [DecidableEq H] (env : Env γ ι H)
    (s : Store γ H) (data : γ) (h : H) (xt : Chars) (e : AErr)
    (he : (attachVideoFresh env s data h xt).1 = .error e) :
    attachVideoFresh env s data h xt =
      (.error .storageE, { s with ctr := s.ctr + 1 }) := by
  unfold attachVideoFresh at he ⊢
  by_cases hd : env.diskOk (genVidName s.ctr xt) = true
  · rw [if_cond_true hd] at he
    exact absurd he (by simp)
  · rw [Bool.not_eq_true] at hd
    rw [if_cond_false hd]

theorem attachImageFresh_error [DecidableEq H] (env : Env γ ι H)
    (s : Store γ H) (img : ι) (h : H) (e : AErr)
    (he : (attachImageFresh env s img h).1 = .error e) :
    attachImageFresh env s img h =
      (.error .storageE, { s with ctr := s.ctr + 1 }) := by
  unfold attachImageFresh at he ⊢
  by_cases hd : env.diskOk (genImgName s.ctr) = true
  · rw [if_cond_true hd] at he
    exact absurd he (by simp)
  · rw [Bool.not_eq_true] at hd
    rw [if_cond_false hd]

/-- A failing `_attach_video` call is exactly a storage error on the
lookup state with only the name counter advanced. -/
theorem attachVideo_error [DecidableEq H] (env : Env γ ι H) (s : Store γ H)
    (data : γ) (xt : Chars) (e : AErr)
    (he : (attachVideo env s data xt).1 = .error e) :
    attachVideo env s data xt =
      (.error .storageE,
       { (findExistVid env s (env.fileHash data)).2 with
         ctr := (findExistVid env s (env.fileHash data)).2.ctr + 1 }) := by
  unfold attachVideo at he ⊢
  cases hx : (findExistVid env s (env.fileHash data)).1 with
  | none =>
    simp only [hx] at he ⊢
    exact attachVideoFresh_error env _ data (env.fileHash data) xt e he
  | some ref =>
    simp only [hx] at he ⊢
    by_cases hres : (resolveMediaPath (findExistVid env s (env.fileHash data)).2
        ref none).isSome = true
    · rw [if_cond_true hres] at he
      exact absurd he (by simp)
    · rw [Bool.not_eq_true] at hres
      rw [if_cond_false hres] at he ⊢
      exact attachVideoFresh_error env _ data (env.fileHash data) xt e he

theorem attachImage_error [DecidableEq H] (env : Env γ ι H) (s : Store γ H)
    (data : γ) (e : AErr)
    (he : (attachImage env s data).1 = .error e) :
    attachImage env s data = (.error .decodeE, s) ∨
    ∃ im, env.decode data = some im ∧
      attachImage env s data =
        (.error .storageE,
         { (findExistImg env s (computePilHash env im)).2 with
           ctr := (findExistImg env s (computePilHash env im)).2.ctr + 1 }) := by
  unfold attachImage at he ⊢
  cases hd : env.decode data with
  | none =>
    simp only [hd]
    exact Or.inl trivial
  | some im =>
    simp only [hd] at he ⊢
    refine Or.inr ⟨im, rfl, ?_⟩
    cases hx : (findExistImg env s (computePilHash env im)).1 with
    | none =>
      simp only [hx] at he ⊢
      exact attachImageFresh_error env _ im (computePilHash env im) e he
    | some ref =>
      simp only [hx] at he ⊢
      by_cases hres : (resolveMediaPath
          (findExistImg env s (computePilHash env im)).2 ref none).isSome = true
      · rw [if_cond_true hres] at he
        exact absurd he (by simp)
      · rw [Bool.not_eq_true] at hres
        rw [if_cond_false hres] at he ⊢
        exact attachImageFresh_error env _ im (computePilHash env im) e he

/-- A concrete environment whose disk rejects every write. -/
def envNoDisk : Env Nat Nat Nat :=
  ⟨fun n => some n, id, fun q i => 100 * q + i, fun c => some c,
   fun i => (i, 10), fun _ w _ => w, fun _ => false⟩

/-- A store with one unregistered video file on disk and an empty,
already-persisted registry. -/
def storeOneVid : Store Nat Nat :=
  ⟨[], [("a.mp4".data, 7)], fun _ => none, fun _ => none, [], [], true, 0⟩

/-- C8 counterexample: with every disk write failing, attaching a new
video fails with a storage error, yet the registry does NOT stay
unchanged - the self-heal scan run during the duplicate lookup registers
the pre-existing on-disk file `a.mp4`, so the registry grows from empty
to one entry despite the failed write. -/
theorem C8_counterexample :
    errOf (attachVideo envNoDisk storeOneVid 5 (".mp4".data)).1 =
      some AErr.storageE ∧
    storeOneVid.regVid = [] ∧
    (attachVideo envNoDisk storeOneVid 5 (".mp4".data)).2.regVid =
      [(7, "base_videos/a.mp4".data)] := by
  exact ⟨rfl, rfl, by decide⟩

/-- C8 (amended): new content is written before it is registered.  On a
fresh write that succeeds, the file is on disk and the registry entry
points at it; on a fresh write that fails, the step returns a storage
error with files and registry untouched (only the name counter advances).
A failing attach as a whole writes no file, and every registry entry
after it is either an old entry or a self-heal entry pointing at a file
that was already on disk - never at the file the store failed to write. -/
theorem C8_write_then_register [DecidableEq H] (env : Env γ ι H)
    (s : Store γ H) (data : γ) (img : ι) (h : H) (xt : Chars) (e : AErr) :
    (env.diskOk (genVidName s.ctr xt) = true →
      ∃ s1, attachVideoFresh env s data h xt =
          (.ok (dirVidF ++ genVidName s.ctr xt), s1) ∧
        lookupA s1.vid (genVidName s.ctr xt) = some data ∧
        lookupA s1.regVid h = some (dirVidF ++ genVidName s.ctr xt)) ∧
    (env.diskOk (genVidName s.ctr xt) = false →
      attachVideoFresh env s data h xt =
        (.error .storageE, { s with ctr := s.ctr + 1 })) ∧
    (env.diskOk (genImgName s.ctr) = true →
      ∃ s1, attachImageFresh env s img h =
          (.ok (dirImgF ++ genImgName s.ctr), s1) ∧
        lookupA s1.img (genImgName s.ctr) =
          some (pilToJpgContent env img 90) ∧
        lookupA s1.regImg h = some (dirImgF ++ genImgName s.ctr)) ∧
    (env.diskOk (genImgName s.ctr) = false →
      attachImageFresh env s img h =
        (.error .storageE, { s with ctr := s.ctr + 1 })) ∧
    ((attachVideo env s data xt).1 = .error e →
      (attachVideo env s data xt).2.vid = s.vid ∧
      (attachVideo env s data xt).2.img = s.img ∧
      ∀ h' r, lookupA (attachVideo env s data xt).2.regVid h' = some r →
        lookupA s.regVid h' = some r ∨
          ∃ fn c, (fn, c) ∈ s.vid ∧ r = dirVidF ++ fn ∧
            env.fileHash c = h') ∧
    ((attachImage env s data).1 = .error e →
      (attachImage env s data).2.vid = s.vid ∧
      (attachImage env s data).2.img = s.img ∧
      ∀ h' r, lookupA (attachImage env s data).2.regImg h' = some r →
        lookupA s.regImg h' = some r ∨
          ∃ fn c im, (fn, c) ∈ s.img ∧ r = dirImgF ++ fn ∧
            env.reopen c = some im ∧ computePilHash env im = h') := by
  refine ⟨?_, ?_, ?_, ?_, ?_, ?_⟩
  · intro hd
    unfold attachVideoFresh
    rw [if_cond_true hd]
    exact ⟨_, rfl, insertFile_lookup_self _ _ _, insertReg_lookup_self _ _ _⟩
  · intro hd
    unfold attachVideoFresh
    rw [if_cond_false hd]
  · intro hd
    unfold attachImageFresh
    rw [if_cond_true hd]
    exact ⟨_, rfl, insertFile_lookup_self _ _ _, insertReg_lookup_self _ _ _⟩
  · intro hd
    unfold attachImageFresh
    rw [if_cond_false hd]
  · intro he
    have heq := attachVideo_error env s data xt e he
    rw [heq]
    refine ⟨(findExistVid_snd_fields env s (env.fileHash data)).1,
            (findExistVid_snd_fields env s (env.fileHash data)).2, ?_⟩
    intro h' r hl
    exact vidReg_entries_oldOrDisk env s _
      (findExistVid_snd_reg env s (env.fileHash data)) h' r hl
  · intro he
    rcases attachImage_error env s data e he with heq | ⟨im, _, heq⟩
    · rw [heq]
      exact ⟨rfl, rfl, fun h' r hl => Or.inl hl⟩
    · rw [heq]
      refine ⟨(findExistImg_snd_fields env s (computePilHash env im)).1,
              (findExistImg_snd_fields env s (computePilHash env im)).2, ?_⟩
      intro h' r hl
      exact imgReg_entries_oldOrDisk env s _
        (findExistImg_snd_reg env s (computePilHash env im)) h' r hl

/-- C8 witness: at the all-writes-fail environment the failure branches
evaluate concretely - both fresh steps return a storage error with only
the counter advanced, and the failing full video attach leaves the
video directory unchanged. -/
theorem C8_write_then_register_witness :
    attachVideoFresh envNoDisk storeOneVid 5 5 (".mp4".data) =
      (.error AErr.storageE, { storeOneVid with ctr := 1 }) ∧
    attachImageFresh envNoDisk storeOneVid 0 5 =
      (.error AErr.storageE, { storeOneVid with ctr := 1 }) ∧
    (attachVideo envNoDisk storeOneVid 5 (".mp4".data)).2.vid =
      storeOneVid.vid := by
  have h := C8_write_then_register envNoDisk storeOneVid 5 0 5 (".mp4".data)
    AErr.storageE
  exact ⟨h.2.1 rfl, h.2.2.2.1 rfl, (h.2.2.2.2.1 rfl).1⟩

/-! ## Decimal digits, decoding and string helpers (overlay filenames) -/

def tenDigits : Chars := "0123456789".data

theorem digCh_mem : ∀ n : Nat, digCh n ∈ tenDigits
  | 0 => by decide
  | 1 => by decide
  | 2 => by decide
  | 3 => by decide
  | 4 => by decide
  | 5 => by decide
  | 6 => by decide
  | 7 => by decide
  | 8 => by decide
  | _ + 9 => by exact (by decide : ('9' : Char) ∈ tenDigits)

theorem digCh_val (m : Nat) (h : m < 10) : (digCh m).toNat - 48 = m := by
  interval_cases m <;> decide

/-- Read a digit string back as a number (proof device, not program code). -/
def decodeD (s : Chars) : Nat := s.foldl (fun a c => 10 * a + (c.toNat - 48)) 0

theorem decodeD_zero_cons (xs : Chars) : decodeD ('0' :: xs) = decodeD xs := rfl

theorem decodeD_natReprAux : ∀ fuel n, n < fuel → decodeD (natReprAux fuel n) = n := by
  intro fuel
  induction fuel with
  | zero => intro n h; exact absurd h (Nat.not_lt_zero n)
  | succ fuel ih =>
    intro n h
    unfold natReprAux
    by_cases h10 : n < 10
    · rw [if_pos h10]
      show 10 * 0 + ((digCh n).toNat - 48) = n
      rw [digCh_val n h10]
      omega
    · rw [if_neg h10]
      have hd : n / 10 < fuel := by
        have := Nat.div_lt_self (show 0 < n by omega) (show 1 < 10 by omega)
        omega
      unfold decodeD
      rw [List.foldl_append]
      show 10 * decodeD (natReprAux fuel (n / 10)) + ((digCh (n % 10)).toNat - 48) = n
      rw [ih (n / 10) hd, digCh_val (n % 10) (Nat.mod_lt n (by omega))]
      omega

theorem decodeD_natRepr (n : Nat) : decodeD (natRepr n) = n :=
  decodeD_natReprAux (n + 1) n (Nat.lt_succ_self n)

theorem decodeD_pad3 (n : Nat) : decodeD (pad3 n) = n := by
  unfold pad3
  have hz : ∀ k, decodeD (List.replicate k '0' ++ natRepr n) = decodeD (natRepr n) := by
    intro k
    induction k with
    | zero => rfl
    | succ k ih =>
      show decodeD ('0' :: (List.replicate k '0' ++ natRepr n)) = _
      rw [decodeD_zero_cons, ih]
  rw [hz, decodeD_natRepr]

theorem pad3_inj {a b : Nat} (h : pad3 a = pad3 b) : a = b := by
  have h2 := congrArg decodeD h
  rwa [decodeD_pad3, decodeD_pad3] at h2

theorem natRepr_inj {a b : Nat} (h : natRepr a = natRepr b) : a = b := by
  have h2 := congrArg decodeD h
  rwa [decodeD_natRepr, decodeD_natRepr] at h2

theorem natReprAux_mem : ∀ fuel n c, c ∈ natReprAux fuel n → c ∈ tenDigits := by
  intro fuel
  induction fuel with
  | zero => intro n c hc; exact absurd hc (List.not_mem_nil c)
  | succ fuel ih =>
    intro n c hc
    unfold natReprAux at hc
    by_cases h10 : n < 10
    · rw [if_pos h10, List.mem_singleton] at hc
      exact hc ▸ digCh_mem n
    · rw [if_neg h10] at hc
      rcases List.mem_append.1 hc with h1 | h1
      · exact ih _ c h1
      · rw [List.mem_singleton] at h1
        exact h1 ▸ digCh_mem _

theorem natRepr_mem (n : Nat) : ∀ c ∈ natRepr n, c ∈ tenDigits :=
  fun c hc => natReprAux_mem (n + 1) n c hc

theorem pad3_mem (n : Nat) : ∀ c ∈ pad3 n, c ∈ tenDigits := by
  intro c hc
  rcases List.mem_append.1 hc with h1 | h1
  · rw [List.eq_of_mem_replicate h1]; decide
  · exact natRepr_mem n c h1

theorem natRepr_ne_nil (n : Nat) : natRepr n ≠ [] := by
  unfold natRepr natReprAux
  by_cases h10 : n < 10
  · rw [if_pos h10]; simp
  · rw [if_neg h10]; simp

theorem pad3_ne_nil (n : Nat) : pad3 n ≠ [] := by
  unfold pad3
  intro h
  exact natRepr_ne_nil n (List.append_eq_nil.1 h).2

theorem tenDigits_facts : ∀ c ∈ tenDigits,
    Char.isDigit c = true ∧ isWS c = false ∧ badChar c = false ∧ c ≠ '_' := by
  decide

theorem dropWhile_all {p : Char → Bool} :
    ∀ xs : Chars, (∀ c ∈ xs, p c = false) → xs.dropWhile p = xs
  | [], _ => rfl
  | x :: xs, h => by
    rw [List.dropWhile_cons, h x (List.mem_cons_self x xs)]
    simp

theorem stripBoth_id {p : Char → Bool} (xs : Chars)
    (h : ∀ c ∈ xs, p c = false) : stripBoth p xs = xs := by
  unfold stripBoth
  rw [dropWhile_all xs h,
      dropWhile_all xs.reverse (fun c hc => h c (List.mem_reverse.1 hc)),
      List.reverse_reverse]

theorem map_id_all {f : Char → Char} :
    ∀ xs : Chars, (∀ c ∈ xs, f c = c) → xs.map f = xs
  | [], _ => rfl
  | x :: xs, h => by
    rw [List.map_cons, h x (List.mem_cons_self x xs),
        map_id_all xs (fun c hc => h c (List.mem_cons_of_mem x hc))]

theorem takeWhile_all_nil {p : Char → Bool} :
    ∀ xs ys : Chars, (∀ c ∈ xs, p c = true) → ys.takeWhile p = [] →
      (xs ++ ys).takeWhile p = xs
  | [], _, _, h2 => h2
  | x :: xs, ys, h1, h2 => by
    rw [List.cons_append, List.takeWhile_cons, h1 x (List.mem_cons_self x xs)]
    simp only [if_true]
    rw [takeWhile_all_nil xs ys (fun c hc => h1 c (List.mem_cons_of_mem x hc)) h2]

theorem hasSub_dd_nil : ∀ xs : Chars, (∀ c ∈ xs, c ≠ '_') →
    hasSub ('_' :: ['_']) xs = false
  | [], _ => rfl
  | x :: xs, h => by
    show (isPre ('_' :: ['_']) (x :: xs) || hasSub ('_' :: ['_']) xs) = false
    rw [hasSub_dd_nil xs (fun c hc => h c (List.mem_cons_of_mem x hc)), Bool.or_false]
    show (('_' == x) && isPre ['_'] xs) = false
    have hx : ('_' == x) = false := by
      rw [beq_eq_false_iff_ne]
      exact fun he => h x (List.mem_cons_self x xs) he.symm
    rw [hx, Bool.false_and]

theorem collapseFix_no (fuel : Nat) (t : Chars) (h : hasDD t = false) :
    collapseFix fuel t = t := by
  cases fuel with
  | zero => rfl
  | succ fuel =>
    show (if hasDD t = true then collapseFix fuel (collapse1 t) else t) = t
    rw [if_cond_false h]

theorem dropWhile_rev_last {p : Char → Bool} (ys : Chars) (y : Char)
    (hy : p y = false) : (ys ++ [y]).reverse.dropWhile p = (ys ++ [y]).reverse := by
  rw [List.reverse_append]
  show List.dropWhile p (y :: ys.reverse) = y :: ys.reverse
  rw [List.dropWhile_cons, hy]
  simp

/-! ## Evaluation of `sanitize_filename` on the reindex number strings -/

theorem sanitize_of_plain (xs : Chars)
    (h : ∀ c ∈ xs, isWS c = false ∧ badChar c = false ∧ c ≠ '_') :
    sanitize xs = xs := by
  unfold sanitize
  rw [stripBoth_id xs (fun c hc => (h c hc).1)]
  rw [map_id_all xs (fun c hc => by rw [(h c hc).2.1]; rfl)]
  rw [collapseFix_no _ xs (hasSub_dd_nil xs (fun c hc => (h c hc).2.2))]
  exact stripBoth_id xs (fun c hc => decide_eq_false (h c hc).2.2)

theorem sanitize_pad3 (k : Nat) : sanitize (pad3 k) = pad3 k :=
  sanitize_of_plain (pad3 k) (fun c hc =>
    (tenDigits_facts c (pad3_mem k c hc)).2)

/-- `sanitize_filename` turns the temporary number `_TMP_{i:03d}` into
`TMP_{i:03d}` (the leading underscore is stripped). -/
theorem sanitize_TMP (k : Nat) :
    sanitize ("_TMP_".data ++ pad3 k) = "TMP_".data ++ pad3 k := by
  have hds := fun c hc => tenDigits_facts c (pad3_mem k c hc)
  have h1 : stripBoth isWS ("_TMP_".data ++ pad3 k) = "_TMP_".data ++ pad3 k := by
    refine stripBoth_id _ ?_
    intro c hc
    rcases List.mem_append.1 hc with hm | hm
    · revert hm
      exact (by decide : ∀ c ∈ "_TMP_".data, isWS c = false) c
    · exact (hds c hm).2.1
  have h2 : ("_TMP_".data ++ pad3 k).map (fun c => if badChar c then '_' else c) =
      "_TMP_".data ++ pad3 k := by
    refine map_id_all _ ?_
    intro c hc
    rcases List.mem_append.1 hc with hm | hm
    · revert hm
      exact (by decide : ∀ c ∈ "_TMP_".data,
        (if badChar c then '_' else c) = c) c
    · rw [(hds c hm).2.2.1]; rfl
  have h3 : hasDD ("_TMP_".data ++ pad3 k) = false := by
    have e5 : isPre ('_' :: ['_']) ('_' :: pad3 k) = false := by
      cases hp : pad3 k with
      | nil => exact absurd hp (pad3_ne_nil k)
      | cons d rest =>
        show isPre ['_'] (d :: rest) = false
        have hdd : ('_' == d) = false := by
          rw [beq_eq_false_iff_ne]
          exact fun he =>
            (hds d (by rw [hp]; exact List.mem_cons_self d rest)).2.2.2 he.symm
        show (('_' == d) && isPre [] rest) = false
        rw [hdd, Bool.false_and]
    have e6 : hasSub ('_' :: ['_']) (pad3 k) = false :=
      hasSub_dd_nil _ (fun c hc => (hds c hc).2.2.2)
    show (isPre ('_' :: ['_']) ('_' :: pad3 k) || hasSub ('_' :: ['_']) (pad3 k)) = false
    rw [e5, e6]
    rfl
  unfold sanitize
  rw [h1, h2, collapseFix_no _ _ h3]
  rcases List.eq_nil_or_concat (pad3 k) with hnil | ⟨l2, d, hp⟩
  · exact absurd hnil (pad3_ne_nil k)
  · rw [List.concat_eq_append] at hp
    have hd : (fun c => (decide (c = '_'))) d = false := by
      refine decide_eq_false ?_
      exact (hds d (by rw [hp]; exact List.mem_append_right l2 (List.mem_singleton_self d))).2.2.2
    unfold stripBoth
    rw [show List.dropWhile (fun c => (decide (c = '_'))) ("_TMP_".data ++ pad3 k) =
        "TMP_".data ++ pad3 k from rfl]
    rw [show "TMP_".data ++ pad3 k = ("TMP_".data ++ l2) ++ [d] from by
      rw [hp, List.append_assoc]]
    rw [dropWhile_rev_last _ d hd, List.reverse_reverse]

theorem sanitize_tys :
    sanitize tyFehlerbild = tyFehlerbild ∧
    sanitize tyKontext = tyKontext ∧
    sanitize tyNacharbeit = tyNacharbeit ∧
    sanitize tyZusatzFehler = tyZusatzFehler ∧
    sanitize tyZusatzNacharbeit = tyZusatzNacharbeit := by
  decide

/-! ## Overlay roles and generated-name disambiguation -/

/-- The five overlay positions a record can carry: main Fehlerbild overlay,
rework (`after_`) overlay, and the 1-indexed entries of `ctx_list`,
`add_fehler_list` and `add_after_list`. -/
inductive ORole where
  | mainF
  | mainA
  | ctxK (k : Nat)
  | addFe (k : Nat)
  | addNa (k : Nat)
  deriving DecidableEq

def tyOf : ORole → Chars
  | .mainF => tyFehlerbild
  | .mainA => tyNacharbeit
  | .ctxK _ => tyKontext
  | .addFe _ => tyZusatzFehler
  | .addNa _ => tyZusatzNacharbeit

def ixOf : ORole → Option Nat
  | .mainF => none
  | .mainA => none
  | .ctxK k => some k
  | .addFe k => some k
  | .addNa k => some k

/-- The part of a generated overlay filename after the number block. -/
def roleTail (ro : ORole) : Chars :=
  "__TYPE_".data ++ (tyOf ro ++
    ((match ixOf ro with
      | some i => '_' :: natRepr i
      | none => []) ++ ".png".data))

/-- The part of a generated overlay filename before the number block. -/
def hpre (p a : Chars) : Chars :=
  "CANVAS__PRJ_".data ++ (sanitize (if p.isEmpty then "PROJ".data else p) ++
  ("__AUD_".data ++ (sanitize (if a.isEmpty then "AUDIT".data else a) ++
  "__NR_".data)))

theorem genCanvas_role (p a n : Chars) (hn : n.isEmpty = false) (ro : ORole) :
    generateCanvasOverlayFilename p a n (tyOf ro) (ixOf ro) =
      hpre p a ++ (sanitize n ++ roleTail ro) := by
  have hty : sanitize (if (tyOf ro).isEmpty then tyFehlerbild else tyOf ro) =
      tyOf ro := by
    cases ro
    · exact (by decide :
        sanitize (if tyFehlerbild.isEmpty then tyFehlerbild else tyFehlerbild) =
          tyFehlerbild)
    · exact (by decide :
        sanitize (if tyNacharbeit.isEmpty then tyFehlerbild else tyNacharbeit) =
          tyNacharbeit)
    · exact (by decide :
        sanitize (if tyKontext.isEmpty then tyFehlerbild else tyKontext) =
          tyKontext)
    · exact (by decide :
        sanitize (if tyZusatzFehler.isEmpty then tyFehlerbild else tyZusatzFehler) =
          tyZusatzFehler)
    · exact (by decide :
        sanitize (if tyZusatzNacharbeit.isEmpty then tyFehlerbild
          else tyZusatzNacharbeit) = tyZusatzNacharbeit)
  unfold generateCanvasOverlayFilename hpre roleTail
  rw [if_cond_false hn, hty]
  simp [List.append_assoc]

theorem append_neq_of_take {t1 t2 : Chars}
    (h1 : t2.take t1.length ≠ t1) (h2 : t1.take t2.length ≠ t2) :
    ∀ u v, t1 ++ u ≠ t2 ++ v := by
  intro u v h
  rcases List.append_eq_append_iff.1 h with ⟨as, ha, _⟩ | ⟨cs, hc, _⟩
  · exact h1 (by rw [ha, List.take_left])
  · exact h2 (by rw [hc, List.take_left])

theorem takeWhile_all_eq {p : Char → Bool} :
    ∀ xs : Chars, (∀ c ∈ xs, p c = true) → xs.takeWhile p = xs
  | [], _ => rfl
  | x :: xs, h => by
    rw [List.takeWhile_cons, h x (List.mem_cons_self x xs)]
    simp only [if_true]
    rw [takeWhile_all_eq xs (fun c hc => h c (List.mem_cons_of_mem x hc))]

theorem takeWhile_digits_of (xs ys : Chars) (hx : ∀ c ∈ xs, c ∈ tenDigits)
    (hy : ys.takeWhile Char.isDigit = []) :
    (xs ++ ys).takeWhile Char.isDigit = xs :=
  takeWhile_all_nil xs ys (fun c hc => (tenDigits_facts c (hx c hc)).1) hy

theorem roleTail_takeWhile (ro : ORole) :
    (roleTail ro).takeWhile Char.isDigit = [] := by
  cases ro <;> rfl

/-- The shapes the sanitized `nr` block takes during reindex. -/
def NShape (n : Chars) : Prop :=
  (∃ k, n = pad3 k) ∨ ∃ k, n = "TMP_".data ++ pad3 k

theorem nTail_inj {n1 n2 : Chars} {ro1 ro2 : ORole}
    (h1 : NShape n1) (h2 : NShape n2)
    (h : n1 ++ roleTail ro1 = n2 ++ roleTail ro2) :
    n1 = n2 ∧ roleTail ro1 = roleTail ro2 := by
  have key : ∀ (k1 k2 : Nat) (r1 r2 : ORole),
      pad3 k1 ++ roleTail r1 = pad3 k2 ++ roleTail r2 →
      pad3 k1 = pad3 k2 ∧ roleTail r1 = roleTail r2 := by
    intro k1 k2 r1 r2 heq
    have ht := congrArg (List.takeWhile Char.isDigit) heq
    rw [takeWhile_digits_of _ _ (pad3_mem k1) (roleTail_takeWhile r1),
        takeWhile_digits_of _ _ (pad3_mem k2) (roleTail_takeWhile r2)] at ht
    refine ⟨ht, ?_⟩
    rw [ht] at heq
    exact List.append_cancel_left heq
  rcases h1 with ⟨k1, rfl⟩ | ⟨k1, rfl⟩ <;> rcases h2 with ⟨k2, rfl⟩ | ⟨k2, rfl⟩
  · exact key k1 k2 ro1 ro2 h
  · exfalso
    have ht := congrArg (List.takeWhile Char.isDigit) h
    rw [takeWhile_digits_of _ _ (pad3_mem k1) (roleTail_takeWhile ro1),
        show (("TMP_".data ++ pad3 k2) ++ roleTail ro2).takeWhile Char.isDigit = []
          from rfl] at ht
    exact pad3_ne_nil k1 ht
  · exfalso
    have ht := congrArg (List.takeWhile Char.isDigit) h
    rw [takeWhile_digits_of _ _ (pad3_mem k2) (roleTail_takeWhile ro2),
        show (("TMP_".data ++ pad3 k1) ++ roleTail ro1).takeWhile Char.isDigit = []
          from rfl] at ht
    exact pad3_ne_nil k2 ht.symm
  · have h' : pad3 k1 ++ roleTail ro1 = pad3 k2 ++ roleTail ro2 := by
      rw [List.append_assoc, List.append_assoc] at h
      exact List.append_cancel_left h
    obtain ⟨e1, e2⟩ := key k1 k2 ro1 ro2 h'
    exact ⟨by rw [e1], e2⟩

theorem ixTail_inj {k1 k2 : Nat}
    (h : ('_' :: natRepr k1) ++ ".png".data = ('_' :: natRepr k2) ++ ".png".data) :
    k1 = k2 := by
  rw [List.cons_append, List.cons_append] at h
  injection h with _ h2
  have ht := congrArg (List.takeWhile Char.isDigit) h2
  rw [takeWhile_digits_of (natRepr k1) (".png".data) (natRepr_mem k1) rfl,
      takeWhile_digits_of (natRepr k2) (".png".data) (natRepr_mem k2) rfl] at ht
  exact natRepr_inj ht

theorem roleTail_inj {ro1 ro2 : ORole} (h : roleTail ro1 = roleTail ro2) :
    ro1 = ro2 := by
  unfold roleTail at h
  have h2 := List.append_cancel_left h
  cases ro1 <;> cases ro2 <;> simp only [tyOf, ixOf] at h2 <;>
    first
      | rfl
      | exact congrArg ORole.ctxK (ixTail_inj (List.append_cancel_left h2))
      | exact congrArg ORole.addFe (ixTail_inj (List.append_cancel_left h2))
      | exact congrArg ORole.addNa (ixTail_inj (List.append_cancel_left h2))
      | exact absurd h2 (append_neq_of_take (by decide) (by decide) _ _)

/-- Generated overlay filename for a role at a given number string. -/
def cname (p a n : Chars) (ro : ORole) : Chars :=
  generateCanvasOverlayFilename p a n (tyOf ro) (ixOf ro)

/-- Temporary number assigned in pass 1 of reindex: `f"_TMP_{i:03d}"`. -/
def tmpNr (i : Nat) : Chars := "_TMP_".data ++ pad3 i

/-- Final number assigned in pass 2 of reindex: `f"{i + 1:03d}"`. -/
def finNr (i : Nat) : Chars := pad3 (i + 1)

theorem cname_inj {p a n1 n2 : Chars} {ro1 ro2 : ORole}
    (h1 : NShape (sanitize n1)) (h2 : NShape (sanitize n2))
    (he1 : n1.isEmpty = false) (he2 : n2.isEmpty = false)
    (h : cname p a n1 ro1 = cname p a n2 ro2) :
    sanitize n1 = sanitize n2 ∧ ro1 = ro2 := by
  unfold cname at h
  rw [genCanvas_role p a n1 he1 ro1, genCanvas_role p a n2 he2 ro2] at h
  obtain ⟨e1, e2⟩ := nTail_inj h1 h2 (List.append_cancel_left h)
  exact ⟨e1, roleTail_inj e2⟩

theorem tmpNr_isEmpty (i : Nat) : (tmpNr i).isEmpty = false := rfl

theorem finNr_isEmpty (i : Nat) : (finNr i).isEmpty = false :=
  isEmpty_false_of_ne_nil (pad3_ne_nil _)

theorem NShape_tmp (i : Nat) : NShape (sanitize (tmpNr i)) :=
  Or.inr ⟨i, sanitize_TMP i⟩

theorem NShape_fin (i : Nat) : NShape (sanitize (finNr i)) :=
  Or.inl ⟨i + 1, sanitize_pad3 _⟩

theorem tmp_cname_inj {p a : Chars} {i i' : Nat} {ro ro' : ORole}
    (h : cname p a (tmpNr i) ro = cname p a (tmpNr i') ro') :
    i = i' ∧ ro = ro' := by
  obtain ⟨e1, e2⟩ := cname_inj (NShape_tmp i) (NShape_tmp i')
    (tmpNr_isEmpty i) (tmpNr_isEmpty i') h
  simp only [tmpNr] at e1
  rw [sanitize_TMP, sanitize_TMP] at e1
  exact ⟨pad3_inj (List.append_cancel_left e1), e2⟩

theorem fin_cname_inj {p a : Chars} {i i' : Nat} {ro ro' : ORole}
    (h : cname p a (finNr i) ro = cname p a (finNr i') ro') :
    i = i' ∧ ro = ro' := by
  obtain ⟨e1, e2⟩ := cname_inj (NShape_fin i) (NShape_fin i')
    (finNr_isEmpty i) (finNr_isEmpty i') h
  simp only [finNr] at e1
  rw [sanitize_pad3, sanitize_pad3] at e1
  have e3 := pad3_inj e1
  exact ⟨by omega, e2⟩

theorem tmp_cname_ne_fin {p a : Chars} {i i' : Nat} {ro ro' : ORole} :
    cname p a (tmpNr i) ro ≠ cname p a (finNr i') ro' := by
  intro h
  obtain ⟨e1, _⟩ := cname_inj (NShape_tmp i) (NShape_fin i')
    (tmpNr_isEmpty i) (finNr_isEmpty i') h
  simp only [tmpNr, finNr] at e1
  rw [sanitize_TMP, sanitize_pad3] at e1
  have ht := congrArg (List.takeWhile Char.isDigit) e1
  rw [show ("TMP_".data ++ pad3 i).takeWhile Char.isDigit = [] from rfl,
      takeWhile_all_eq _ (fun c hc => (tenDigits_facts c (pad3_mem _ c hc)).1)] at ht
  exact pad3_ne_nil (i' + 1) ht.symm

/-! ## `reindex_audit_images` (common.py lines 1256-1371) -/

/-- The shape of an audit-image record as `reindex_audit_images` reads it:
audit id, record number, main overlay (`overlay`/`edited`, which the code
keeps equal), rework overlay (`after_overlay`/`after_edited`), and the
overlay references of the `ctx_list`, `add_fehler_list` and
`add_after_list` entries. -/
structure RecR where
  audit : Chars
  nr : Chars
  ov : Option Chars
  aov : Option Chars
  ctx : List (Option Chars)
  addF : List (Option Chars)
  addA : List (Option Chars)
  deriving DecidableEq

/-- `os.path.splitext` (no directory component contains a dot here). -/
def splitExt (pth : Chars) : Chars × Chars :=
  if '.' ∈ pth then
    (pth.take (pth.length - (pth.reverse.takeWhile fun c => c ≠ '.').length - 1),
     '.' :: (pth.reverse.takeWhile fun c => c ≠ '.').reverse)
  else (pth, [])

/-- `os.path.basename`. -/
def baseName (pth : Chars) : Chars :=
  (pth.reverse.takeWhile fun c => c ≠ '/').reverse

/-- The `while os.path.exists(new_abs)` collision-bump loop of
`rename_overlay` (counter from 1); `fuel` bounds the unrolling of the
unbounded Python loop.  In every state considered by the theorems below
the deterministic target is free, so the loop is never entered. -/
def bumpLoop (s : Store γ H) (base ext : Chars) : Nat → Nat → Chars
  | 0, k => base ++ '_' :: (natRepr k ++ ext)
  | fuel + 1, k =>
    if exA s (base ++ '_' :: (natRepr k ++ ext)) then
      bumpLoop s base ext fuel (k + 1)
    else base ++ '_' :: (natRepr k ++ ext)

/-- Write file content at an absolute path (a `shutil.move` destination),
dispatching on the directory like `fileAt`. -/
def fileWrite (s : Store γ H) (pth : Chars) (c : γ) : Store γ H :=
  match stripPre (dirBaseImages ++ ['/']) pth with
  | some fn => { s with img := insertFile s.img fn c }
  | none =>
    match stripPre (dirBaseVideos ++ ['/']) pth with
    | some fn => { s with vid := insertFile s.vid fn c }
    | none =>
      match stripPre (dirOverlays ++ ['/']) pth with
      | some fn => { s with ovl := fun x => if x = fn then some c else s.ovl x }
      | none => { s with other := fun x => if x = pth then some c else s.other x }

/-- `shutil.move` between absolute paths: remove the source, write the
content at the target. -/
def moveFile (s : Store γ H) (pOld pNew : Chars) : Store γ H :=
  match fileAt s pOld with
  | some c => fileWrite (eraseAt s pOld) pNew c
  | none => s

/-- `rename_overlay` inside `reindex_audit_images` (common.py lines
1273-1308).  `os.path.normpath` is the identity on the canonical
slash-normalized absolute paths produced by `resolve_media_path` and
`get_overlay_path`, and a successful `shutil.move` is `moveFile`. -/
def renameOverlay (s : Store γ H) (pr : Option Chars) (projId auditId : Chars)
    (fuel : Nat) (oldRef newNr ty : Chars) (ix : Option Nat) :
    Option Chars × Store γ H :=
  if oldRef.isEmpty then (none, s)
  else if !isOverlayRef oldRef then (some oldRef, s)
  else
    match resolveMediaPath s oldRef pr with
    | none => (some oldRef, s)
    | some oldAbs =>
      if !exA s oldAbs then (some oldRef, s)
      else if oldAbs =
          getOverlayPath (generateCanvasOverlayFilename projId auditId newNr ty ix) then
        (some (dirOvlF ++ generateCanvasOverlayFilename projId auditId newNr ty ix), s)
      else if exA s
          (getOverlayPath (generateCanvasOverlayFilename projId auditId newNr ty ix)) then
        (some (dirOvlF ++ baseName (bumpLoop s
            (splitExt (getOverlayPath
              (generateCanvasOverlayFilename projId auditId newNr ty ix))).1
            (splitExt (getOverlayPath
              (generateCanvasOverlayFilename projId auditId newNr ty ix))).2
            fuel 1)),
         moveFile s oldAbs (bumpLoop s
            (splitExt (getOverlayPath
              (generateCanvasOverlayFilename projId auditId newNr ty ix))).1
            (splitExt (getOverlayPath
              (generateCanvasOverlayFilename projId auditId newNr ty ix))).2
            fuel 1))
      else
        (some (dirOvlF ++ generateCanvasOverlayFilename projId auditId newNr ty ix),
         moveFile s oldAbs
           (getOverlayPath (generateCanvasOverlayFilename projId auditId newNr ty ix)))

/-- `rename_overlays_in_list` (common.py lines 1310-1321), with the
1-based `enumerate(items, 1)` slot index made explicit. -/
def renameList (pr : Option Chars) (projId auditId : Chars) (fuel : Nat)
    (newNr ty : Chars) : Store γ H → List (Option Chars) → Nat →
    List (Option Chars) × Store γ H
  | s, [], _ => ([], s)
  | s, none :: rest, i =>
    (none :: (renameList pr projId auditId fuel newNr ty s rest (i + 1)).1,
     (renameList pr projId auditId fuel newNr ty s rest (i + 1)).2)
  | s, some oref :: rest, i =>
    if oref.isEmpty then
      (some oref :: (renameList pr projId auditId fuel newNr ty s rest (i + 1)).1,
       (renameList pr projId auditId fuel newNr ty s rest (i + 1)).2)
    else
      ((renameOverlay s pr projId auditId fuel oref newNr ty (some i)).1 ::
        (renameList pr projId auditId fuel newNr ty
          (renameOverlay s pr projId auditId fuel oref newNr ty (some i)).2
          rest (i + 1)).1,
       (renameList pr projId auditId fuel newNr ty
         (renameOverlay s pr projId auditId fuel oref newNr ty (some i)).2
         rest (i + 1)).2)

/-- The main-overlay block of one pass iteration. -/
def stepMain (pr : Option Chars) (projId auditId : Chars) (fuel : Nat)
    (newNr : Chars) (rs : RecR × Store γ H) : RecR × Store γ H :=
  match rs.1.ov with
  | none => rs
  | some oref =>
    if oref.isEmpty then rs
    else
      ({ rs.1 with
          ov := (renameOverlay rs.2 pr projId auditId fuel oref newNr
            tyFehlerbild none).1 },
       (renameOverlay rs.2 pr projId auditId fuel oref newNr tyFehlerbild none).2)

/-- The after-overlay block of one pass iteration. -/
def stepAfter (pr : Option Chars) (projId auditId : Chars) (fuel : Nat)
    (newNr : Chars) (rs : RecR × Store γ H) : RecR × Store γ H :=
  match rs.1.aov with
  | none => rs
  | some oref =>
    if oref.isEmpty then rs
    else
      ({ rs.1 with
          aov := (renameOverlay rs.2 pr projId auditId fuel oref newNr
            tyNacharbeit none).1 },
       (renameOverlay rs.2 pr projId auditId fuel oref newNr tyNacharbeit none).2)

def stepCtx (pr : Option Chars) (projId auditId : Chars) (fuel : Nat)
    (newNr : Chars) (rs : RecR × Store γ H) : RecR × Store γ H :=
  ({ rs.1 with
      ctx := (renameList pr projId auditId fuel newNr tyKontext rs.2 rs.1.ctx 1).1 },
   (renameList pr projId auditId fuel newNr tyKontext rs.2 rs.1.ctx 1).2)

def stepAddF (pr : Option Chars) (projId auditId : Chars) (fuel : Nat)
    (newNr : Chars) (rs : RecR × Store γ H) : RecR × Store γ H :=
  ({ rs.1 with
      addF := (renameList pr projId auditId fuel newNr tyZusatzFehler rs.2
        rs.1.addF 1).1 },
   (renameList pr projId auditId fuel newNr tyZusatzFehler rs.2 rs.1.addF 1).2)

def stepAddA (pr : Option Chars) (projId auditId : Chars) (fuel : Nat)
    (newNr : Chars) (rs : RecR × Store γ H) : RecR × Store γ H :=
  ({ rs.1 with
      addA := (renameList pr projId auditId fuel newNr tyZusatzNacharbeit rs.2
        rs.1.addA 1).1 },
   (renameList pr projId auditId fuel newNr tyZusatzNacharbeit rs.2 rs.1.addA 1).2)

/-- One record of one pass: main overlay, after overlay, then the three
lists, exactly in source order. -/
def processRec (pr : Option Chars) (projId auditId : Chars) (fuel : Nat)
    (newNr : Chars) (s : Store γ H) (r : RecR) : RecR × Store γ H :=
  stepAddA pr projId auditId fuel newNr
    (stepAddF pr projId auditId fuel newNr
      (stepCtx pr projId auditId fuel newNr
        (stepAfter pr projId auditId fuel newNr
          (stepMain pr projId auditId fuel newNr (r, s)))))

/-- One pass of `reindex_audit_images` over the sorted audit records:
pass 1 uses `nF = tmpNr`, `setNr = false`; pass 2 uses `nF = finNr`,
`setNr = true` (it also writes the record's new `nr`).  The two loops are
textually identical in the source apart from those two differences. -/
def passGo (pr : Option Chars) (projId auditId : Chars) (fuel : Nat)
    (nF : Nat → Chars) (setNr : Bool) :
    Store γ H → List RecR → Nat → List RecR × Store γ H
  | s, [], _ => ([], s)
  | s, r :: rest, i =>
    ((if setNr then
        { (processRec pr projId auditId fuel (nF i) s r).1 with nr := nF i }
      else (processRec pr projId auditId fuel (nF i) s r).1) ::
      (passGo pr projId auditId fuel nF setNr
        (processRec pr projId auditId fuel (nF i) s r).2 rest (i + 1)).1,
     (passGo pr projId auditId fuel nF setNr
       (processRec pr projId auditId fuel (nF i) s r).2 rest (i + 1)).2)

/-- Lexicographic code-point comparison (Python `<=` on `str`, the order
used by `list.sort(key=lambda r: r.get("nr", "999"))`). -/
def lexLe : Chars → Chars → Bool
  | [], _ => true
  | _ :: _, [] => false
  | a :: as, b :: bs =>
    if a.toNat < b.toNat then true
    else if b.toNat < a.toNat then false
    else lexLe as bs

/-- The audit records in processing order: filtered to the audit id and
stably sorted by `nr`. -/
def audSorted (index : List RecR) (auditId : Chars) : List RecR :=
  (index.filter fun r => r.audit = auditId).mergeSort fun r1 r2 => lexLe r1.nr r2.nr

/-- `reindex_audit_images` (common.py lines 1256-1371): with no matching
records nothing changes; otherwise pass 1 renames every overlay to its
temporary `_TMP_{i:03d}` name and pass 2 renames to the final `{i+1:03d}`
name and sets each record's `nr`.  `projId` stands for the index's
`project.project_id` entry.  The function returns the processed records
(in sorted order) and the final store; the Python return value
`(len(audit_images), errors)` is determined by these. -/
def reindexAuditImages (pr : Option Chars) (projId : Chars) (fuel : Nat)
    (index : List RecR) (auditId : Chars) (s : Store γ H) :
    List RecR × Store γ H :=
  if (audSorted index auditId).isEmpty then ([], s)
  else
    passGo pr projId auditId fuel finNr true
      (passGo pr projId auditId fuel tmpNr false s (audSorted index auditId) 0).2
      (passGo pr projId auditId fuel tmpNr false s (audSorted index auditId) 0).1 0

theorem ovlPath_shape (fn : Chars) :
    getOverlayPath fn = "/GM/overlays/".data ++ fn := rfl

theorem pjoin_ovl_shape (fn : Chars) :
    pjoin mediaRoot (dirOvlF ++ fn) = "/GM/overlays/".data ++ fn := rfl

/-- Resolution of a canonical `overlays/<fn>` reference whose file exists
succeeds at the media-root join for ANY project-paths argument (the
fallback is never reached). -/
theorem resolve_ovlRef_pos (s : Store γ H) (fn : Chars) (pr : Option Chars)
    (hex : exA s (pjoin mediaRoot (dirOvlF ++ fn)) = true) :
    resolveMediaPath s (dirOvlF ++ fn) pr =
      some (pjoin mediaRoot (dirOvlF ++ fn)) := by
  have hc4 : (isBaseImageRef (dirOvlF ++ fn) && isPre preImg (dirOvlF ++ fn) &&
      exA s (getBaseImagePath (dirOvlF ++ fn))) = false := by
    rw [show isPre preImg (dirOvlF ++ fn) = false from rfl, Bool.and_false,
        Bool.false_and]
  have hc6 : (isBaseVideoRef (dirOvlF ++ fn) && isPre preVid (dirOvlF ++ fn) &&
      exA s (getBaseVideoPath (dirOvlF ++ fn))) = false := by
    rw [show isPre preVid (dirOvlF ++ fn) = false from rfl, Bool.and_false,
        Bool.false_and]
  have hc8 : (isOverlayRef (dirOvlF ++ fn) && isPre preCanvas (dirOvlF ++ fn) &&
      exA s (getOverlayPath (dirOvlF ++ fn))) = false := by
    rw [show isPre preCanvas (dirOvlF ++ fn) = false from rfl, Bool.and_false,
        Bool.false_and]
  unfold resolveMediaPath
  rw [if_cond_false (show (dirOvlF ++ fn).isEmpty = false from rfl),
      if_cond_false (show isAbsPath (dirOvlF ++ fn) = false from rfl),
      if_cond_false hc4, if_cond_false hc6, if_cond_false hc8, hex]
  simp only [Bool.and_true, if_true]
  exact ite_same3 _ _ _ _

/-- The good case of `rename_overlay`: the old reference is a canonical
overlay reference whose file exists, and the deterministic target name is
either free (then the file is moved there) or equal to the source (then
nothing moves).  In both cases the returned reference is the
deterministic `overlays/<generated name>` and the overlay directory is
updated pointwise; nothing else in the store changes. -/
theorem renameOverlay_good (s : Store γ H) (pr : Option Chars)
    (projId auditId : Chars) (fuel : Nat) (src : Chars) (c : γ)
    (nr ty : Chars) (ix : Option Nat)
    (hsrc : s.ovl src = some c)
    (hfree : s.ovl (generateCanvasOverlayFilename projId auditId nr ty ix) = none ∨
      generateCanvasOverlayFilename projId auditId nr ty ix = src) :
    (renameOverlay s pr projId auditId fuel (dirOvlF ++ src) nr ty ix).1 =
      some (dirOvlF ++ generateCanvasOverlayFilename projId auditId nr ty ix) ∧
    (renameOverlay s pr projId auditId fuel (dirOvlF ++ src) nr ty ix).2.ovl =
      (fun x => if x = generateCanvasOverlayFilename projId auditId nr ty ix
        then some c else if x = src then none else s.ovl x) ∧
    (renameOverlay s pr projId auditId fuel (dirOvlF ++ src) nr ty ix).2.img = s.img ∧
    (renameOverlay s pr projId auditId fuel (dirOvlF ++ src) nr ty ix).2.vid = s.vid ∧
    (renameOverlay s pr projId auditId fuel (dirOvlF ++ src) nr ty ix).2.other =
      s.other := by
  have hex : exA s (pjoin mediaRoot (dirOvlF ++ src)) = true := by
    unfold exA
    rw [show fileAt s (pjoin mediaRoot (dirOvlF ++ src)) = s.ovl src from rfl, hsrc]
    rfl
  have hres := resolve_ovlRef_pos s src pr hex
  unfold renameOverlay
  rw [if_cond_false (show (dirOvlF ++ src).isEmpty = false from rfl),
      if_cond_false (show (!isOverlayRef (dirOvlF ++ src)) = false from by
        rw [isOverlayRef_dirOvl]; rfl)]
  simp only [hres]
  rw [if_cond_false (show (!exA s (pjoin mediaRoot (dirOvlF ++ src))) = false from by
    rw [hex]; rfl)]
  by_cases heq : pjoin mediaRoot (dirOvlF ++ src) =
      getOverlayPath (generateCanvasOverlayFilename projId auditId nr ty ix)
  · rw [if_pos heq]
    have hts : generateCanvasOverlayFilename projId auditId nr ty ix = src := by
      rw [pjoin_ovl_shape, ovlPath_shape] at heq
      exact (List.append_cancel_left heq).symm
    refine ⟨rfl, ?_, rfl, rfl, rfl⟩
    funext x
    show s.ovl x = _
    rw [hts]
    by_cases hx : x = src
    · rw [if_pos hx, hx, hsrc]
    · rw [if_neg hx, if_neg hx]
  · rw [if_neg heq]
    have hne : generateCanvasOverlayFilename projId auditId nr ty ix ≠ src := by
      intro h
      exact heq (by rw [pjoin_ovl_shape, ovlPath_shape, h])
    have hfree2 :
        s.ovl (generateCanvasOverlayFilename projId auditId nr ty ix) = none := by
      rcases hfree with h | h
      · exact h
      · exact absurd h hne
    rw [if_cond_false (show exA s (getOverlayPath
        (generateCanvasOverlayFilename projId auditId nr ty ix)) = false from by
      unfold exA
      rw [show fileAt s (getOverlayPath
          (generateCanvasOverlayFilename projId auditId nr ty ix)) =
        s.ovl (generateCanvasOverlayFilename projId auditId nr ty ix) from rfl,
        hfree2]
      rfl)]
    have hm : fileAt s (pjoin mediaRoot (dirOvlF ++ src)) = some c := by
      rw [show fileAt s (pjoin mediaRoot (dirOvlF ++ src)) = s.ovl src from rfl, hsrc]
    refine ⟨rfl, ?_, ?_, ?_, ?_⟩
    · show (moveFile s (pjoin mediaRoot (dirOvlF ++ src))
          (getOverlayPath (generateCanvasOverlayFilename projId auditId nr ty ix))).ovl = _
      unfold moveFile
      simp only [hm]
      rfl
    · show (moveFile s (pjoin mediaRoot (dirOvlF ++ src))
          (getOverlayPath (generateCanvasOverlayFilename projId auditId nr ty ix))).img = s.img
      unfold moveFile
      simp only [hm]
      rfl
    · show (moveFile s (pjoin mediaRoot (dirOvlF ++ src))
          (getOverlayPath (generateCanvasOverlayFilename projId auditId nr ty ix))).vid = s.vid
      unfold moveFile
      simp only [hm]
      rfl
    · show (moveFile s (pjoin mediaRoot (dirOvlF ++ src))
          (getOverlayPath (generateCanvasOverlayFilename projId auditId nr ty ix))).other = s.other
      unfold moveFile
      simp only [hm]
      rfl

/-- A per-record description of the overlay positions a record carries,
each with its current filename (inside `overlays/`) and file content. -/
structure RDesc (γ : Type) where
  mo : Option (Chars × γ)
  ma : Option (Chars × γ)
  mc : List (Option (Chars × γ))
  mf : List (Option (Chars × γ))
  mn : List (Option (Chars × γ))

/-- One reference field matches one descriptor slot in store `s`: absent
slots carry no reference, present slots carry the canonical
`overlays/<name>` reference and the file holds the slot's content. -/
def slotMatch (s : Store γ H) : Option Chars → Option (Chars × γ) → Prop
  | rf, none => rf = none
  | rf, some (nm, c) => rf = some (dirOvlF ++ nm) ∧ s.ovl nm = some c

def recMatch (s : Store γ H) (r : RecR) (d : RDesc γ) : Prop :=
  slotMatch s r.ov d.mo ∧ slotMatch s r.aov d.ma ∧
  List.Forall₂ (slotMatch s) r.ctx d.mc ∧
  List.Forall₂ (slotMatch s) r.addF d.mf ∧
  List.Forall₂ (slotMatch s) r.addA d.mn

/-- The positions of a slot list, tagged with 1-based roles. -/
def ctxRoles {γ : Type} (mk : Nat → ORole) :
    Nat → List (Option (Chars × γ)) → List (ORole × Chars × γ)
  | _, [] => []
  | k, none :: rest => ctxRoles mk (k + 1) rest
  | k, some (nm, c) :: rest => (mk k, nm, c) :: ctxRoles mk (k + 1) rest

/-- All positions of a record descriptor. -/
def rolesOf {γ : Type} (d : RDesc γ) : List (ORole × Chars × γ) :=
  (match d.mo with | none => [] | some (nm, c) => [(ORole.mainF, nm, c)]) ++
  (match d.ma with | none => [] | some (nm, c) => [(ORole.mainA, nm, c)]) ++
  ctxRoles ORole.ctxK 1 d.mc ++ ctxRoles ORole.addFe 1 d.mf ++
  ctxRoles ORole.addNa 1 d.mn

/-- All positions of a descriptor list, tagged with record indices. -/
def allPosFrom {γ : Type} : Nat → List (RDesc γ) → List (Nat × ORole × Chars × γ)
  | _, [] => []
  | i0, d :: ds => (rolesOf d).map (fun q => (i0, q)) ++ allPosFrom (i0 + 1) ds

/-- Rename the slots of a list to target names `T` of their roles. -/
def ctxRename {γ : Type} (T : ORole → Chars) (mk : Nat → ORole) :
    Nat → List (Option (Chars × γ)) → List (Option (Chars × γ))
  | _, [] => []
  | k, none :: rest => none :: ctxRename T mk (k + 1) rest
  | k, some (_, c) :: rest => some (T (mk k), c) :: ctxRename T mk (k + 1) rest

/-- Rename a record descriptor to target names `T` of its roles. -/
def rnDesc {γ : Type} (T : ORole → Chars) (d : RDesc γ) : RDesc γ :=
  { mo := d.mo.map (fun x => (T ORole.mainF, x.2)),
    ma := d.ma.map (fun x => (T ORole.mainA, x.2)),
    mc := ctxRename T ORole.ctxK 1 d.mc,
    mf := ctxRename T ORole.addFe 1 d.mf,
    mn := ctxRename T ORole.addNa 1 d.mn }

theorem slotMatch_of_eq {s s' : Store γ H} :
    ∀ {it : Option Chars} {dd : Option (Chars × γ)},
      slotMatch s it dd →
      (∀ nm c, dd = some (nm, c) → s'.ovl nm = s.ovl nm) →
      slotMatch s' it dd
  | _, none, h, _ => h
  | _, some (nm, c), h, h2 => ⟨h.1, by rw [h2 nm c rfl]; exact h.2⟩

theorem forall₂_slotMatch_of {s s' : Store γ H} :
    ∀ {items : List (Option Chars)} {dl : List (Option (Chars × γ))},
      List.Forall₂ (slotMatch s) items dl →
      (∀ nm c, some (nm, c) ∈ dl → s'.ovl nm = s.ovl nm) →
      List.Forall₂ (slotMatch s') items dl := by
  intro items dl h
  induction h with
  | nil => intro _; exact List.Forall₂.nil
  | cons h1 _ ih =>
    intro hp
    exact List.Forall₂.cons
      (slotMatch_of_eq h1 (fun nm c hdd => hp nm c (hdd ▸ List.mem_cons_self _ _)))
      (ih (fun nm c hm => hp nm c (List.mem_cons_of_mem _ hm)))

theorem ctxRoles_mem {γ : Type} (mk : Nat → ORole) :
    ∀ (dl : List (Option (Chars × γ))) (k0 : Nat) (q : ORole × Chars × γ),
      q ∈ ctxRoles mk k0 dl →
      (∃ k, k0 ≤ k ∧ q.1 = mk k) ∧ some (q.2.1, q.2.2) ∈ dl := by
  intro dl
  induction dl with
  | nil => intro k0 q hq; exact absurd hq (List.not_mem_nil q)
  | cons dd dtl ih =>
    intro k0 q hq
    match dd with
    | none =>
      obtain ⟨⟨k, hk, he⟩, hm⟩ := ih (k0 + 1) q hq
      exact ⟨⟨k, by omega, he⟩, List.mem_cons_of_mem _ hm⟩
    | some (nm, c) =>
      rcases List.mem_cons.1 hq with h | h
      · refine ⟨⟨k0, Nat.le_refl k0, by rw [h]⟩, ?_⟩
        rw [h]
        exact List.mem_cons_self _ _
      · obtain ⟨⟨k, hk, he⟩, hm⟩ := ih (k0 + 1) q h
        exact ⟨⟨k, by omega, he⟩, List.mem_cons_of_mem _ hm⟩

theorem ctxRoles_mem_of {γ : Type} (mk : Nat → ORole) :
    ∀ (dl : List (Option (Chars × γ))) (k0 : Nat) (nm : Chars) (c : γ),
      some (nm, c) ∈ dl → ∃ k, (mk k, nm, c) ∈ ctxRoles mk k0 dl := by
  intro dl
  induction dl with
  | nil => intro _ _ _ h; exact absurd h (List.not_mem_nil _)
  | cons dd dtl ih =>
    intro k0 nm c hm
    rcases List.mem_cons.1 hm with h | h
    · exact ⟨k0, by rw [← h]; exact List.mem_cons_self _ _⟩
    · obtain ⟨k, hk⟩ := ih (k0 + 1) nm c h
      match dd with
      | none => exact ⟨k, hk⟩
      | some _ => exact ⟨k, List.mem_cons_of_mem _ hk⟩

set_option maxHeartbeats 2000000 in
/-- The good case of `rename_overlays_in_list`: all slots hold canonical
overlay references with files present, the deterministic targets are free
and distinct from every source, and the sources are pairwise distinct.
Then each present slot ends renamed to its deterministic target with the
same content, every source file is gone, and nothing else changes. -/
theorem renameList_good (pr : Option Chars) (p a : Chars) (fuel : Nat)
    (nrS ty : Chars) (mk : Nat → ORole)
    (hmk : ∀ k, tyOf (mk k) = ty ∧ ixOf (mk k) = some k)
    (hmkinj : ∀ k k2, mk k = mk k2 → k = k2)
    (hti : ∀ ro ro2, cname p a nrS ro = cname p a nrS ro2 → ro = ro2) :
    ∀ (items : List (Option Chars)) (dl : List (Option (Chars × γ)))
      (s : Store γ H) (k0 : Nat),
      List.Forall₂ (slotMatch s) items dl →
      (∀ q ∈ ctxRoles mk k0 dl, s.ovl (cname p a nrS q.1) = none) →
      (∀ q ∈ ctxRoles mk k0 dl, ∀ q2 ∈ ctxRoles mk k0 dl,
        cname p a nrS q.1 ≠ q2.2.1) →
      ((ctxRoles mk k0 dl).map (fun q => q.2.1)).Nodup →
      List.Forall₂ (slotMatch (renameList pr p a fuel nrS ty s items k0).2)
          (renameList pr p a fuel nrS ty s items k0).1
          (ctxRename (cname p a nrS) mk k0 dl) ∧
      (∀ q ∈ ctxRoles mk k0 dl,
        (renameList pr p a fuel nrS ty s items k0).2.ovl (cname p a nrS q.1) =
          some q.2.2) ∧
      (∀ q ∈ ctxRoles mk k0 dl,
        (renameList pr p a fuel nrS ty s items k0).2.ovl q.2.1 = none) ∧
      (∀ x, (∀ q ∈ ctxRoles mk k0 dl, x ≠ q.2.1 ∧ x ≠ cname p a nrS q.1) →
        (renameList pr p a fuel nrS ty s items k0).2.ovl x = s.ovl x) ∧
      (renameList pr p a fuel nrS ty s items k0).2.img = s.img ∧
      (renameList pr p a fuel nrS ty s items k0).2.vid = s.vid ∧
      (renameList pr p a fuel nrS ty s items k0).2.other = s.other := by
  intro items
  induction items with
  | nil =>
    intro dl s k0 hm _ _ _
    rw [List.forall₂_nil_left_iff.1 hm]
    exact ⟨List.Forall₂.nil, fun q hq => absurd hq (List.not_mem_nil q),
      fun q hq => absurd hq (List.not_mem_nil q), fun _ _ => rfl, rfl, rfl, rfl⟩
  | cons it rest ih =>
    intro dl s k0 hm hfree hts hnd
    rcases List.forall₂_cons_left_iff.1 hm with ⟨dd, dtl, hslot, htail, rfl⟩
    rcases dd with _ | ⟨nm, c⟩
    · have hit : it = none := hslot
      subst hit
      obtain ⟨c1, c2, c3, c4, c5, c6, c7⟩ := ih dtl s (k0 + 1) htail hfree hts hnd
      exact ⟨List.Forall₂.cons rfl c1, c2, c3, c4, c5, c6, c7⟩
    · obtain ⟨href, hovl⟩ := hslot
      subst href
      have htn : generateCanvasOverlayFilename p a nrS ty (some k0) =
          cname p a nrS (mk k0) := by
        unfold cname
        rw [(hmk k0).1, (hmk k0).2]
      have hq0 : ((mk k0, nm, c) : ORole × Chars × γ) ∈
          ctxRoles mk k0 (some (nm, c) :: dtl) := List.mem_cons_self _ _
      have hfree0 : s.ovl (cname p a nrS (mk k0)) = none := hfree (mk k0, nm, c) hq0
      have hOr : s.ovl (generateCanvasOverlayFilename p a nrS ty (some k0)) =
          none ∨ generateCanvasOverlayFilename p a nrS ty (some k0) = nm := by
        rw [htn]
        exact Or.inl hfree0
      obtain ⟨r1, r2, r3, r4, r5⟩ :=
        renameOverlay_good s pr p a fuel nm c nrS ty (some k0) hovl hOr
      rw [htn] at r1 r2
      have hTomem : ∀ q ∈ ctxRoles mk (k0 + 1) dtl,
          q ∈ ctxRoles mk k0 (some (nm, c) :: dtl) :=
        fun q hq => List.mem_cons_of_mem _ hq
      have htne : ∀ q ∈ ctxRoles mk (k0 + 1) dtl,
          cname p a nrS q.1 ≠ cname p a nrS (mk k0) := by
        intro q hq he
        obtain ⟨⟨k, hk, hke⟩, _⟩ := ctxRoles_mem mk dtl (k0 + 1) q hq
        have he2 := hti _ _ he
        rw [hke] at he2
        have := hmkinj _ _ he2
        omega
      have hnd2 := List.nodup_cons.1 hnd
      have hm2 : List.Forall₂
          (slotMatch (renameOverlay s pr p a fuel (dirOvlF ++ nm) nrS ty
            (some k0)).2) rest dtl := by
        refine forall₂_slotMatch_of htail ?_
        intro nm2 c2 hmem
        rw [r2]
        obtain ⟨k, hk⟩ := ctxRoles_mem_of mk dtl (k0 + 1) nm2 c2 hmem
        have h1 : nm2 ≠ cname p a nrS (mk k0) := fun he =>
          (hts (mk k0, nm, c) hq0 (mk k, nm2, c2) (hTomem (mk k, nm2, c2) hk))
            he.symm
        have h2 : nm2 ≠ nm := fun he =>
          hnd2.1 (List.mem_map.2 ⟨(mk k, nm2, c2), hk, he⟩)
        show (if nm2 = cname p a nrS (mk k0) then some c
          else if nm2 = nm then none else s.ovl nm2) = s.ovl nm2
        rw [if_neg h1, if_neg h2]
      have hfree2 : ∀ q ∈ ctxRoles mk (k0 + 1) dtl,
          (renameOverlay s pr p a fuel (dirOvlF ++ nm) nrS ty
            (some k0)).2.ovl (cname p a nrS q.1) = none := by
        intro q hq
        rw [r2]
        show (if cname p a nrS q.1 = cname p a nrS (mk k0) then some c
          else if cname p a nrS q.1 = nm then none
          else s.ovl (cname p a nrS q.1)) = none
        rw [if_neg (htne q hq), if_neg (hts q (hTomem q hq) (mk k0, nm, c) hq0)]
        exact hfree q (hTomem q hq)
      obtain ⟨c1, c2, c3, c4, c5, c6, c7⟩ :=
        ih dtl (renameOverlay s pr p a fuel (dirOvlF ++ nm) nrS ty (some k0)).2
          (k0 + 1) hm2 hfree2
          (fun q hq q2 hq2 => hts q (hTomem q hq) q2 (hTomem q2 hq2)) hnd2.2
      have hkeep : ∀ x, x = cname p a nrS (mk k0) ∨ x = nm →
          (∀ q ∈ ctxRoles mk (k0 + 1) dtl,
            x ≠ q.2.1 ∧ x ≠ cname p a nrS q.1) := by
        intro x hx q hq
        rcases hx with rfl | he2
        · exact ⟨hts (mk k0, nm, c) hq0 q (hTomem q hq), Ne.symm (htne q hq)⟩
        · rw [he2]
          refine ⟨?_, Ne.symm (hts q (hTomem q hq) (mk k0, nm, c) hq0)⟩
          intro he
          exact hnd2.1 (List.mem_map.2 ⟨q, hq, he.symm⟩)
      have hreadT :
          (renameList pr p a fuel nrS ty
            (renameOverlay s pr p a fuel (dirOvlF ++ nm) nrS ty (some k0)).2
            rest (k0 + 1)).2.ovl (cname p a nrS (mk k0)) = some c := by
        rw [c4 _ (hkeep _ (Or.inl rfl)), r2]
        show (if cname p a nrS (mk k0) = cname p a nrS (mk k0) then some c
          else _) = some c
        rw [if_pos rfl]
      have hreadS :
          (renameList pr p a fuel nrS ty
            (renameOverlay s pr p a fuel (dirOvlF ++ nm) nrS ty (some k0)).2
            rest (k0 + 1)).2.ovl nm = none := by
        rw [c4 _ (hkeep _ (Or.inr rfl)), r2]
        show (if nm = cname p a nrS (mk k0) then some c
          else if nm = nm then none else s.ovl nm) = none
        rw [if_neg (Ne.symm (hts (mk k0, nm, c) hq0 (mk k0, nm, c) hq0)),
          if_pos rfl]
      refine ⟨List.Forall₂.cons ⟨r1, hreadT⟩ c1, ?_, ?_, ?_, ?_, ?_, ?_⟩
      · intro q hq
        rcases List.mem_cons.1 hq with h | h
        · rw [h]
          exact hreadT
        · exact c2 q h
      · intro q hq
        rcases List.mem_cons.1 hq with h | h
        · rw [h]
          exact hreadS
        · exact c3 q h
      · intro x hx
        have hx0 := hx (mk k0, nm, c) hq0
        show (renameList pr p a fuel nrS ty
          (renameOverlay s pr p a fuel (dirOvlF ++ nm) nrS ty (some k0)).2
          rest (k0 + 1)).2.ovl x = s.ovl x
        rw [c4 x (fun q hq => hx q (hTomem q hq)), r2]
        show (if x = cname p a nrS (mk k0) then some c
          else if x = nm then none else s.ovl x) = s.ovl x
        rw [if_neg hx0.2, if_neg hx0.1]
      · show (renameList pr p a fuel nrS ty
          (renameOverlay s pr p a fuel (dirOvlF ++ nm) nrS ty (some k0)).2
          rest (k0 + 1)).2.img = s.img
        rw [c5, r3]
      · show (renameList pr p a fuel nrS ty
          (renameOverlay s pr p a fuel (dirOvlF ++ nm) nrS ty (some k0)).2
          rest (k0 + 1)).2.vid = s.vid
        rw [c6, r4]
      · show (renameList pr p a fuel nrS ty
          (renameOverlay s pr p a fuel (dirOvlF ++ nm) nrS ty (some k0)).2
          rest (k0 + 1)).2.other = s.other
        rw [c7, r5]

def moRoles {γ : Type} : Option (Chars × γ) → List (ORole × Chars × γ)
  | none => []
  | some (nm, c) => [(ORole.mainF, nm, c)]

def maRoles {γ : Type} : Option (Chars × γ) → List (ORole × Chars × γ)
  | none => []
  | some (nm, c) => [(ORole.mainA, nm, c)]

theorem rolesOf_eq {γ : Type} (d : RDesc γ) :
    rolesOf d = moRoles d.mo ++ (maRoles d.ma ++ (ctxRoles ORole.ctxK 1 d.mc ++
      (ctxRoles ORole.addFe 1 d.mf ++ ctxRoles ORole.addNa 1 d.mn))) := by
  unfold rolesOf moRoles maRoles
  rcases d.mo with _ | ⟨nm, c⟩ <;> rcases d.ma with _ | ⟨nm2, c2⟩ <;>
    simp [List.append_assoc]

theorem ctxRename_mem {γ : Type} (T : ORole → Chars) (mk : Nat → ORole) :
    ∀ (dl : List (Option (Chars × γ))) (k0 : Nat) (nm2 : Chars) (c2 : γ),
      some (nm2, c2) ∈ ctxRename T mk k0 dl →
      ∃ k nm0, nm2 = T (mk k) ∧ (mk k, nm0, c2) ∈ ctxRoles mk k0 dl := by
  intro dl
  induction dl with
  | nil => intro _ _ _ h; exact absurd h (List.not_mem_nil _)
  | cons dd dtl ih =>
    intro k0 nm2 c2 hm
    match dd with
    | none =>
      rcases List.mem_cons.1 hm with h | h
      · exact absurd h.symm (Option.noConfusion)
      · obtain ⟨k, nm0, he, hmem⟩ := ih (k0 + 1) nm2 c2 h
        exact ⟨k, nm0, he, hmem⟩
    | some (nm, c) =>
      rcases List.mem_cons.1 hm with h | h
      · injection h with h
        have h1 : nm2 = T (mk k0) := congrArg Prod.fst h
        have h2 : c2 = c := congrArg Prod.snd h
        refine ⟨k0, nm, h1, ?_⟩
        rw [h2]
        exact List.mem_cons_self _ _
      · obtain ⟨k, nm0, he, hmem⟩ := ih (k0 + 1) nm2 c2 h
        exact ⟨k, nm0, he, List.mem_cons_of_mem _ hmem⟩

/-- Combine the effects of two consecutive rename stages. -/
theorem ren_comp (T : ORole → Chars) (s0 s1 s2 : Store γ H)
    (L1 L2 : List (ORole × Chars × γ))
    (A1 : ∀ q ∈ L1, s1.ovl (T q.1) = some q.2.2)
    (B1 : ∀ q ∈ L1, s1.ovl q.2.1 = none)
    (C1 : ∀ x, (∀ q ∈ L1, x ≠ q.2.1 ∧ x ≠ T q.1) → s1.ovl x = s0.ovl x)
    (A2 : ∀ q ∈ L2, s2.ovl (T q.1) = some q.2.2)
    (B2 : ∀ q ∈ L2, s2.ovl q.2.1 = none)
    (C2 : ∀ x, (∀ q ∈ L2, x ≠ q.2.1 ∧ x ≠ T q.1) → s2.ovl x = s1.ovl x)
    (hts : ∀ q ∈ L1 ++ L2, ∀ q2 ∈ L1 ++ L2, T q.1 ≠ q2.2.1)
    (hdisj : ∀ q ∈ L1, ∀ q2 ∈ L2, q.2.1 ≠ q2.2.1)
    (hrd : ∀ q ∈ L1, ∀ q2 ∈ L2, T q.1 ≠ T q2.1) :
    (∀ q ∈ L1 ++ L2, s2.ovl (T q.1) = some q.2.2) ∧
    (∀ q ∈ L1 ++ L2, s2.ovl q.2.1 = none) ∧
    (∀ x, (∀ q ∈ L1 ++ L2, x ≠ q.2.1 ∧ x ≠ T q.1) → s2.ovl x = s0.ovl x) := by
  refine ⟨?_, ?_, ?_⟩
  · intro q hq
    rcases List.mem_append.1 hq with h | h
    · rw [C2 (T q.1) (fun q2 hq2 =>
        ⟨hts q (List.mem_append_left _ h) q2 (List.mem_append_right _ hq2),
         hrd q h q2 hq2⟩)]
      exact A1 q h
    · exact A2 q h
  · intro q hq
    rcases List.mem_append.1 hq with h | h
    · rw [C2 q.2.1 (fun q2 hq2 =>
        ⟨hdisj q h q2 hq2,
         Ne.symm (hts q2 (List.mem_append_right _ hq2) q
           (List.mem_append_left _ h))⟩)]
      exact B1 q h
    · exact B2 q h
  · intro x hx
    rw [C2 x (fun q2 hq2 => hx q2 (List.mem_append_right _ hq2))]
    exact C1 x (fun q1 hq1 => hx q1 (List.mem_append_left _ hq1))

/-- Push the preconditions of a later rename stage through an earlier one. -/
theorem ren_pre (T : ORole → Chars) (s0 s1 : Store γ H)
    (L1 L2 : List (ORole × Chars × γ))
    (C1 : ∀ x, (∀ q ∈ L1, x ≠ q.2.1 ∧ x ≠ T q.1) → s1.ovl x = s0.ovl x)
    (hfree : ∀ q ∈ L1 ++ L2, s0.ovl (T q.1) = none)
    (hts : ∀ q ∈ L1 ++ L2, ∀ q2 ∈ L1 ++ L2, T q.1 ≠ q2.2.1)
    (hdisj : ∀ q ∈ L1, ∀ q2 ∈ L2, q.2.1 ≠ q2.2.1)
    (hrd : ∀ q ∈ L1, ∀ q2 ∈ L2, T q.1 ≠ T q2.1) :
    (∀ q ∈ L2, s1.ovl q.2.1 = s0.ovl q.2.1) ∧
    (∀ q ∈ L2, s1.ovl (T q.1) = none) := by
  constructor
  · intro q hq
    exact C1 q.2.1 (fun q1 hq1 =>
      ⟨Ne.symm (hdisj q1 hq1 q hq),
       Ne.symm (hts q1 (List.mem_append_left _ hq1) q
         (List.mem_append_right _ hq))⟩)
  · intro q hq
    rw [C1 (T q.1) (fun q1 hq1 =>
      ⟨hts q (List.mem_append_right _ hq) q1 (List.mem_append_left _ hq1),
       Ne.symm (hrd q1 hq1 q hq)⟩)]
    exact hfree q (List.mem_append_right _ hq)

/-- The good case of the main-overlay block. -/
theorem stepMain_good (pr : Option Chars) (p a : Chars) (fuel : Nat)
    (nrS : Chars) (s : Store γ H) (r : RecR) (dm : Option (Chars × γ))
    (hslot : slotMatch s r.ov dm)
    (hfree : ∀ q ∈ moRoles dm, s.ovl (cname p a nrS q.1) = none) :
    slotMatch (stepMain pr p a fuel nrS (r, s)).2
        (stepMain pr p a fuel nrS (r, s)).1.ov
        (dm.map fun x => (cname p a nrS ORole.mainF, x.2)) ∧
    (stepMain pr p a fuel nrS (r, s)).1.aov = r.aov ∧
    (stepMain pr p a fuel nrS (r, s)).1.ctx = r.ctx ∧
    (stepMain pr p a fuel nrS (r, s)).1.addF = r.addF ∧
    (stepMain pr p a fuel nrS (r, s)).1.addA = r.addA ∧
    (stepMain pr p a fuel nrS (r, s)).1.audit = r.audit ∧
    (stepMain pr p a fuel nrS (r, s)).1.nr = r.nr ∧
    (∀ q ∈ moRoles dm,
      (stepMain pr p a fuel nrS (r, s)).2.ovl (cname p a nrS q.1) = some q.2.2) ∧
    (∀ q ∈ moRoles dm, (stepMain pr p a fuel nrS (r, s)).2.ovl q.2.1 = none) ∧
    (∀ x, (∀ q ∈ moRoles dm, x ≠ q.2.1 ∧ x ≠ cname p a nrS q.1) →
      (stepMain pr p a fuel nrS (r, s)).2.ovl x = s.ovl x) ∧
    (stepMain pr p a fuel nrS (r, s)).2.img = s.img ∧
    (stepMain pr p a fuel nrS (r, s)).2.vid = s.vid ∧
    (stepMain pr p a fuel nrS (r, s)).2.other = s.other := by
  rcases dm with _ | ⟨nm, c⟩
  · have hov : r.ov = none := hslot
    have hstep : stepMain pr p a fuel nrS (r, s) = (r, s) := by
      unfold stepMain
      dsimp only
      rw [hov]
    rw [hstep]
    exact ⟨hslot, rfl, rfl, rfl, rfl, rfl, rfl,
      fun q hq => absurd hq (List.not_mem_nil q),
      fun q hq => absurd hq (List.not_mem_nil q),
      fun x _ => rfl, rfl, rfl, rfl⟩
  · obtain ⟨href, hovl⟩ := hslot
    have hq0 : ((ORole.mainF, nm, c) : ORole × Chars × γ) ∈
        moRoles (some (nm, c)) := List.mem_cons_self _ _
    have hfree0 : s.ovl (cname p a nrS ORole.mainF) = none :=
      hfree (ORole.mainF, nm, c) hq0
    have htn : generateCanvasOverlayFilename p a nrS tyFehlerbild none =
        cname p a nrS ORole.mainF := rfl
    obtain ⟨r1, r2, r3, r4, r5⟩ :=
      renameOverlay_good s pr p a fuel nm c nrS tyFehlerbild none hovl
        (Or.inl (by rw [htn]; exact hfree0))
    rw [htn] at r1 r2
    have hT_ne : cname p a nrS ORole.mainF ≠ nm := by
      intro he
      rw [he, hovl] at hfree0
      exact Option.noConfusion hfree0
    have hstep : stepMain pr p a fuel nrS (r, s) =
        ({ r with ov := (renameOverlay s pr p a fuel (dirOvlF ++ nm) nrS
            tyFehlerbild none).1 },
         (renameOverlay s pr p a fuel (dirOvlF ++ nm) nrS tyFehlerbild none).2) := by
      unfold stepMain
      dsimp only
      rw [href]
      rfl
    rw [hstep]
    refine ⟨⟨r1, ?_⟩, rfl, rfl, rfl, rfl, rfl, rfl, ?_, ?_, ?_, r3, r4, r5⟩
    · rw [r2]
      show (if cname p a nrS ORole.mainF = cname p a nrS ORole.mainF
        then some c else _) = some c
      rw [if_pos rfl]
    · intro q hq
      rw [List.mem_singleton.1 hq, r2]
      show (if cname p a nrS ORole.mainF = cname p a nrS ORole.mainF
        then some c else _) = some c
      rw [if_pos rfl]
    · intro q hq
      rw [List.mem_singleton.1 hq, r2]
      show (if nm = cname p a nrS ORole.mainF then some c
        else if nm = nm then none else s.ovl nm) = none
      rw [if_neg (Ne.symm hT_ne), if_pos rfl]
    · intro x hx
      have hx0 := hx (ORole.mainF, nm, c) hq0
      rw [r2]
      show (if x = cname p a nrS ORole.mainF then some c
        else if x = nm then none else s.ovl x) = s.ovl x
      rw [if_neg hx0.2, if_neg hx0.1]

/-- The good case of the after-overlay block. -/
theorem stepAfter_good (pr : Option Chars) (p a : Chars) (fuel : Nat)
    (nrS : Chars) (s : Store γ H) (r : RecR) (dm : Option (Chars × γ))
    (hslot : slotMatch s r.aov dm)
    (hfree : ∀ q ∈ maRoles dm, s.ovl (cname p a nrS q.1) = none) :
    slotMatch (stepAfter pr p a fuel nrS (r, s)).2
        (stepAfter pr p a fuel nrS (r, s)).1.aov
        (dm.map fun x => (cname p a nrS ORole.mainA, x.2)) ∧
    (stepAfter pr p a fuel nrS (r, s)).1.ov = r.ov ∧
    (stepAfter pr p a fuel nrS (r, s)).1.ctx = r.ctx ∧
    (stepAfter pr p a fuel nrS (r, s)).1.addF = r.addF ∧
    (stepAfter pr p a fuel nrS (r, s)).1.addA = r.addA ∧
    (stepAfter pr p a fuel nrS (r, s)).1.audit = r.audit ∧
    (stepAfter pr p a fuel nrS (r, s)).1.nr = r.nr ∧
    (∀ q ∈ maRoles dm,
      (stepAfter pr p a fuel nrS (r, s)).2.ovl (cname p a nrS q.1) = some q.2.2) ∧
    (∀ q ∈ maRoles dm, (stepAfter pr p a fuel nrS (r, s)).2.ovl q.2.1 = none) ∧
    (∀ x, (∀ q ∈ maRoles dm, x ≠ q.2.1 ∧ x ≠ cname p a nrS q.1) →
      (stepAfter pr p a fuel nrS (r, s)).2.ovl x = s.ovl x) ∧
    (stepAfter pr p a fuel nrS (r, s)).2.img = s.img ∧
    (stepAfter pr p a fuel nrS (r, s)).2.vid = s.vid ∧
    (stepAfter pr p a fuel nrS (r, s)).2.other = s.other := by
  rcases dm with _ | ⟨nm, c⟩
  · have hov : r.aov = none := hslot
    have hstep : stepAfter pr p a fuel nrS (r, s) = (r, s) := by
      unfold stepAfter
      dsimp only
      rw [hov]
    rw [hstep]
    exact ⟨hslot, rfl, rfl, rfl, rfl, rfl, rfl,
      fun q hq => absurd hq (List.not_mem_nil q),
      fun q hq => absurd hq (List.not_mem_nil q),
      fun x _ => rfl, rfl, rfl, rfl⟩
  · obtain ⟨href, hovl⟩ := hslot
    have hq0 : ((ORole.mainA, nm, c) : ORole × Chars × γ) ∈
        maRoles (some (nm, c)) := List.mem_cons_self _ _
    have hfree0 : s.ovl (cname p a nrS ORole.mainA) = none :=
      hfree (ORole.mainA, nm, c) hq0
    have htn : generateCanvasOverlayFilename p a nrS tyNacharbeit none =
        cname p a nrS ORole.mainA := rfl
    obtain ⟨r1, r2, r3, r4, r5⟩ :=
      renameOverlay_good s pr p a fuel nm c nrS tyNacharbeit none hovl
        (Or.inl (by rw [htn]; exact hfree0))
    rw [htn] at r1 r2
    have hT_ne : cname p a nrS ORole.mainA ≠ nm := by
      intro he
      rw [he, hovl] at hfree0
      exact Option.noConfusion hfree0
    have hstep : stepAfter pr p a fuel nrS (r, s) =
        ({ r with aov := (renameOverlay s pr p a fuel (dirOvlF ++ nm) nrS
            tyNacharbeit none).1 },
         (renameOverlay s pr p a fuel (dirOvlF ++ nm) nrS tyNacharbeit none).2) := by
      unfold stepAfter
      dsimp only
      rw [href]
      rfl
    rw [hstep]
    refine ⟨⟨r1, ?_⟩, rfl, rfl, rfl, rfl, rfl, rfl, ?_, ?_, ?_, r3, r4, r5⟩
    · rw [r2]
      show (if cname p a nrS ORole.mainA = cname p a nrS ORole.mainA
        then some c else _) = some c
      rw [if_pos rfl]
    · intro q hq
      rw [List.mem_singleton.1 hq, r2]
      show (if cname p a nrS ORole.mainA = cname p a nrS ORole.mainA
        then some c else _) = some c
      rw [if_pos rfl]
    · intro q hq
      rw [List.mem_singleton.1 hq, r2]
      show (if nm = cname p a nrS ORole.mainA then some c
        else if nm = nm then none else s.ovl nm) = none
      rw [if_neg (Ne.symm hT_ne), if_pos rfl]
    · intro x hx
      have hx0 := hx (ORole.mainA, nm, c) hq0
      rw [r2]
      show (if x = cname p a nrS ORole.mainA then some c
        else if x = nm then none else s.ovl x) = s.ovl x
      rw [if_neg hx0.2, if_neg hx0.1]

theorem nodup_map_app {α β : Type} (f : α → β) (l1 l2 : List α)
    (h : ((l1 ++ l2).map f).Nodup) :
    (l1.map f).Nodup ∧ (l2.map f).Nodup ∧ ∀ x ∈ l1, ∀ y ∈ l2, f x ≠ f y := by
  rw [List.map_append, List.nodup_append] at h
  refine ⟨h.1, h.2.1, ?_⟩
  intro x hx y hy he
  exact h.2.2 (List.mem_map.2 ⟨x, hx, rfl⟩) (List.mem_map.2 ⟨y, hy, he.symm⟩)

theorem moRoles_role {γ : Type} (x : Option (Chars × γ)) :
    ∀ q ∈ moRoles x, q.1 = ORole.mainF := by
  match x with
  | none => intro q hq; exact absurd hq (List.not_mem_nil q)
  | some (nm, c) => intro q hq; rw [List.mem_singleton.1 hq]

theorem maRoles_role {γ : Type} (x : Option (Chars × γ)) :
    ∀ q ∈ maRoles x, q.1 = ORole.mainA := by
  match x with
  | none => intro q hq; exact absurd hq (List.not_mem_nil q)
  | some (nm, c) => intro q hq; rw [List.mem_singleton.1 hq]

theorem ctxRoles_shape {γ : Type} (mk : Nat → ORole)
    (dl : List (Option (Chars × γ))) (k0 : Nat) :
    ∀ q ∈ ctxRoles mk k0 dl, ∃ k, q.1 = mk k := by
  intro q hq
  obtain ⟨⟨k, _, he⟩, _⟩ := ctxRoles_mem mk dl k0 q hq
  exact ⟨k, he⟩

set_option maxHeartbeats 2000000 in
/-- The good case of one pass iteration on one record: all its overlay
positions hold canonical references with distinct names and present
files, and the record's deterministic target names are free and disjoint
from all its sources.  The record ends with every position renamed to its
deterministic target (same contents), sources gone, everything else
untouched. -/
theorem processRec_good (pr : Option Chars) (p a : Chars) (fuel : Nat)
    (nrS : Chars)
    (hti : ∀ ro ro2, cname p a nrS ro = cname p a nrS ro2 → ro = ro2)
    (s : Store γ H) (r : RecR) (d : RDesc γ)
    (hmatch : recMatch s r d)
    (hfree : ∀ q ∈ rolesOf d, s.ovl (cname p a nrS q.1) = none)
    (hts : ∀ q ∈ rolesOf d, ∀ q2 ∈ rolesOf d, cname p a nrS q.1 ≠ q2.2.1)
    (hnd : ((rolesOf d).map (fun q => q.2.1)).Nodup) :
    recMatch (processRec pr p a fuel nrS s r).2 (processRec pr p a fuel nrS s r).1
        (rnDesc (cname p a nrS) d) ∧
    (∀ q ∈ rolesOf d,
      (processRec pr p a fuel nrS s r).2.ovl (cname p a nrS q.1) = some q.2.2) ∧
    (∀ q ∈ rolesOf d, (processRec pr p a fuel nrS s r).2.ovl q.2.1 = none) ∧
    (∀ x, (∀ q ∈ rolesOf d, x ≠ q.2.1 ∧ x ≠ cname p a nrS q.1) →
      (processRec pr p a fuel nrS s r).2.ovl x = s.ovl x) ∧
    (processRec pr p a fuel nrS s r).2.img = s.img ∧
    (processRec pr p a fuel nrS s r).2.vid = s.vid ∧
    (processRec pr p a fuel nrS s r).2.other = s.other ∧
    (processRec pr p a fuel nrS s r).1.audit = r.audit ∧
    (processRec pr p a fuel nrS s r).1.nr = r.nr := by
  have rolesOf_eq2 : rolesOf d =
      (((moRoles d.mo ++ maRoles d.ma) ++ ctxRoles ORole.ctxK 1 d.mc) ++
        ctxRoles ORole.addFe 1 d.mf) ++ ctxRoles ORole.addNa 1 d.mn := by
    rw [rolesOf_eq]
    simp [List.append_assoc]
  rw [rolesOf_eq2] at hfree hts hnd ⊢
  -- membership injections into the full position list
  have i12 : ∀ q ∈ moRoles d.mo ++ maRoles d.ma,
      q ∈ (((moRoles d.mo ++ maRoles d.ma) ++ ctxRoles ORole.ctxK 1 d.mc) ++
        ctxRoles ORole.addFe 1 d.mf) ++ ctxRoles ORole.addNa 1 d.mn :=
    fun q hq => List.mem_append_left _ (List.mem_append_left _
      (List.mem_append_left _ hq))
  have i123 : ∀ q ∈ (moRoles d.mo ++ maRoles d.ma) ++ ctxRoles ORole.ctxK 1 d.mc,
      q ∈ (((moRoles d.mo ++ maRoles d.ma) ++ ctxRoles ORole.ctxK 1 d.mc) ++
        ctxRoles ORole.addFe 1 d.mf) ++ ctxRoles ORole.addNa 1 d.mn :=
    fun q hq => List.mem_append_left _ (List.mem_append_left _ hq)
  have i1234 : ∀ q ∈ ((moRoles d.mo ++ maRoles d.ma) ++
        ctxRoles ORole.ctxK 1 d.mc) ++ ctxRoles ORole.addFe 1 d.mf,
      q ∈ (((moRoles d.mo ++ maRoles d.ma) ++ ctxRoles ORole.ctxK 1 d.mc) ++
        ctxRoles ORole.addFe 1 d.mf) ++ ctxRoles ORole.addNa 1 d.mn :=
    fun q hq => List.mem_append_left _ hq
  have i1 : ∀ q ∈ moRoles d.mo,
      q ∈ (((moRoles d.mo ++ maRoles d.ma) ++ ctxRoles ORole.ctxK 1 d.mc) ++
        ctxRoles ORole.addFe 1 d.mf) ++ ctxRoles ORole.addNa 1 d.mn :=
    fun q hq => i12 q (List.mem_append_left _ hq)
  have i2 : ∀ q ∈ maRoles d.ma,
      q ∈ (((moRoles d.mo ++ maRoles d.ma) ++ ctxRoles ORole.ctxK 1 d.mc) ++
        ctxRoles ORole.addFe 1 d.mf) ++ ctxRoles ORole.addNa 1 d.mn :=
    fun q hq => i12 q (List.mem_append_right _ hq)
  have i3 : ∀ q ∈ ctxRoles ORole.ctxK 1 d.mc,
      q ∈ (((moRoles d.mo ++ maRoles d.ma) ++ ctxRoles ORole.ctxK 1 d.mc) ++
        ctxRoles ORole.addFe 1 d.mf) ++ ctxRoles ORole.addNa 1 d.mn :=
    fun q hq => i123 q (List.mem_append_right _ hq)
  have i4 : ∀ q ∈ ctxRoles ORole.addFe 1 d.mf,
      q ∈ (((moRoles d.mo ++ maRoles d.ma) ++ ctxRoles ORole.ctxK 1 d.mc) ++
        ctxRoles ORole.addFe 1 d.mf) ++ ctxRoles ORole.addNa 1 d.mn :=
    fun q hq => i1234 q (List.mem_append_right _ hq)
  -- source-name disjointness between the stages
  obtain ⟨n1234, n5, x45⟩ := nodup_map_app _ _ _ hnd
  obtain ⟨n123, n4, x34⟩ := nodup_map_app _ _ _ n1234
  obtain ⟨n12, n3, x23⟩ := nodup_map_app _ _ _ n123
  obtain ⟨n1, n2, x12⟩ := nodup_map_app _ _ _ n12
  -- role shapes and target-name disjointness between the stages
  have sh1 := moRoles_role d.mo
  have sh2 := maRoles_role d.ma
  have sh3 := ctxRoles_shape ORole.ctxK d.mc 1
  have sh4 := ctxRoles_shape ORole.addFe d.mf 1
  have sh5 := ctxRoles_shape ORole.addNa d.mn 1
  have ne12 : ∀ q ∈ moRoles d.mo, ∀ q2 ∈ maRoles d.ma,
      cname p a nrS q.1 ≠ cname p a nrS q2.1 := by
    intro q hq q2 hq2 he
    have h0 := hti _ _ he
    rw [sh1 q hq, sh2 q2 hq2] at h0
    exact ORole.noConfusion h0
  have ne13 : ∀ q ∈ moRoles d.mo, ∀ q2 ∈ ctxRoles ORole.ctxK 1 d.mc,
      cname p a nrS q.1 ≠ cname p a nrS q2.1 := by
    intro q hq q2 hq2 he
    have h0 := hti _ _ he
    obtain ⟨k, hk⟩ := sh3 q2 hq2
    rw [sh1 q hq, hk] at h0
    exact ORole.noConfusion h0
  have ne14 : ∀ q ∈ moRoles d.mo, ∀ q2 ∈ ctxRoles ORole.addFe 1 d.mf,
      cname p a nrS q.1 ≠ cname p a nrS q2.1 := by
    intro q hq q2 hq2 he
    have h0 := hti _ _ he
    obtain ⟨k, hk⟩ := sh4 q2 hq2
    rw [sh1 q hq, hk] at h0
    exact ORole.noConfusion h0
  have ne15 : ∀ q ∈ moRoles d.mo, ∀ q2 ∈ ctxRoles ORole.addNa 1 d.mn,
      cname p a nrS q.1 ≠ cname p a nrS q2.1 := by
    intro q hq q2 hq2 he
    have h0 := hti _ _ he
    obtain ⟨k, hk⟩ := sh5 q2 hq2
    rw [sh1 q hq, hk] at h0
    exact ORole.noConfusion h0
  have ne23 : ∀ q ∈ maRoles d.ma, ∀ q2 ∈ ctxRoles ORole.ctxK 1 d.mc,
      cname p a nrS q.1 ≠ cname p a nrS q2.1 := by
    intro q hq q2 hq2 he
    have h0 := hti _ _ he
    obtain ⟨k, hk⟩ := sh3 q2 hq2
    rw [sh2 q hq, hk] at h0
    exact ORole.noConfusion h0
  have ne24 : ∀ q ∈ maRoles d.ma, ∀ q2 ∈ ctxRoles ORole.addFe 1 d.mf,
      cname p a nrS q.1 ≠ cname p a nrS q2.1 := by
    intro q hq q2 hq2 he
    have h0 := hti _ _ he
    obtain ⟨k, hk⟩ := sh4 q2 hq2
    rw [sh2 q hq, hk] at h0
    exact ORole.noConfusion h0
  have ne25 : ∀ q ∈ maRoles d.ma, ∀ q2 ∈ ctxRoles ORole.addNa 1 d.mn,
      cname p a nrS q.1 ≠ cname p a nrS q2.1 := by
    intro q hq q2 hq2 he
    have h0 := hti _ _ he
    obtain ⟨k, hk⟩ := sh5 q2 hq2
    rw [sh2 q hq, hk] at h0
    exact ORole.noConfusion h0
  have ne34 : ∀ q ∈ ctxRoles ORole.ctxK 1 d.mc, ∀ q2 ∈ ctxRoles ORole.addFe 1 d.mf,
      cname p a nrS q.1 ≠ cname p a nrS q2.1 := by
    intro q hq q2 hq2 he
    have h0 := hti _ _ he
    obtain ⟨k, hk⟩ := sh3 q hq
    obtain ⟨k2, hk2⟩ := sh4 q2 hq2
    rw [hk, hk2] at h0
    exact ORole.noConfusion h0
  have ne35 : ∀ q ∈ ctxRoles ORole.ctxK 1 d.mc, ∀ q2 ∈ ctxRoles ORole.addNa 1 d.mn,
      cname p a nrS q.1 ≠ cname p a nrS q2.1 := by
    intro q hq q2 hq2 he
    have h0 := hti _ _ he
    obtain ⟨k, hk⟩ := sh3 q hq
    obtain ⟨k2, hk2⟩ := sh5 q2 hq2
    rw [hk, hk2] at h0
    exact ORole.noConfusion h0
  have ne45 : ∀ q ∈ ctxRoles ORole.addFe 1 d.mf, ∀ q2 ∈ ctxRoles ORole.addNa 1 d.mn,
      cname p a nrS q.1 ≠ cname p a nrS q2.1 := by
    intro q hq q2 hq2 he
    have h0 := hti _ _ he
    obtain ⟨k, hk⟩ := sh4 q hq
    obtain ⟨k2, hk2⟩ := sh5 q2 hq2
    rw [hk, hk2] at h0
    exact ORole.noConfusion h0
  have hrd3 : ∀ q ∈ moRoles d.mo ++ maRoles d.ma,
      ∀ q2 ∈ ctxRoles ORole.ctxK 1 d.mc,
      cname p a nrS q.1 ≠ cname p a nrS q2.1 := by
    intro q hq q2 hq2
    rcases List.mem_append.1 hq with h | h
    · exact ne13 q h q2 hq2
    · exact ne23 q h q2 hq2
  have hrd4 : ∀ q ∈ (moRoles d.mo ++ maRoles d.ma) ++ ctxRoles ORole.ctxK 1 d.mc,
      ∀ q2 ∈ ctxRoles ORole.addFe 1 d.mf,
      cname p a nrS q.1 ≠ cname p a nrS q2.1 := by
    intro q hq q2 hq2
    rcases List.mem_append.1 hq with h | h
    · rcases List.mem_append.1 h with h2 | h2
      · exact ne14 q h2 q2 hq2
      · exact ne24 q h2 q2 hq2
    · exact ne34 q h q2 hq2
  have hrd5 : ∀ q ∈ ((moRoles d.mo ++ maRoles d.ma) ++
        ctxRoles ORole.ctxK 1 d.mc) ++ ctxRoles ORole.addFe 1 d.mf,
      ∀ q2 ∈ ctxRoles ORole.addNa 1 d.mn,
      cname p a nrS q.1 ≠ cname p a nrS q2.1 := by
    intro q hq q2 hq2
    rcases List.mem_append.1 hq with h | h
    · rcases List.mem_append.1 h with h2 | h2
      · rcases List.mem_append.1 h2 with h3 | h3
        · exact ne15 q h3 q2 hq2
        · exact ne25 q h3 q2 hq2
      · exact ne35 q h2 q2 hq2
    · exact ne45 q h q2 hq2
  -- restricted freeness / target-not-source hypotheses
  have hfree12 : ∀ q ∈ moRoles d.mo ++ maRoles d.ma,
      s.ovl (cname p a nrS q.1) = none := fun q hq => hfree q (i12 q hq)
  have hfree123 : ∀ q ∈ (moRoles d.mo ++ maRoles d.ma) ++
        ctxRoles ORole.ctxK 1 d.mc,
      s.ovl (cname p a nrS q.1) = none := fun q hq => hfree q (i123 q hq)
  have hfree1234 : ∀ q ∈ ((moRoles d.mo ++ maRoles d.ma) ++
        ctxRoles ORole.ctxK 1 d.mc) ++ ctxRoles ORole.addFe 1 d.mf,
      s.ovl (cname p a nrS q.1) = none := fun q hq => hfree q (i1234 q hq)
  have hts12 : ∀ q ∈ moRoles d.mo ++ maRoles d.ma,
      ∀ q2 ∈ moRoles d.mo ++ maRoles d.ma,
      cname p a nrS q.1 ≠ q2.2.1 :=
    fun q hq q2 hq2 => hts q (i12 q hq) q2 (i12 q2 hq2)
  have hts123 : ∀ q ∈ (moRoles d.mo ++ maRoles d.ma) ++
        ctxRoles ORole.ctxK 1 d.mc,
      ∀ q2 ∈ (moRoles d.mo ++ maRoles d.ma) ++ ctxRoles ORole.ctxK 1 d.mc,
      cname p a nrS q.1 ≠ q2.2.1 :=
    fun q hq q2 hq2 => hts q (i123 q hq) q2 (i123 q2 hq2)
  have hts1234 : ∀ q ∈ ((moRoles d.mo ++ maRoles d.ma) ++
        ctxRoles ORole.ctxK 1 d.mc) ++ ctxRoles ORole.addFe 1 d.mf,
      ∀ q2 ∈ ((moRoles d.mo ++ maRoles d.ma) ++
        ctxRoles ORole.ctxK 1 d.mc) ++ ctxRoles ORole.addFe 1 d.mf,
      cname p a nrS q.1 ≠ q2.2.1 :=
    fun q hq q2 hq2 => hts q (i1234 q hq) q2 (i1234 q2 hq2)
  -- stage 1: main overlay
  rcases hP1 : stepMain pr p a fuel nrS (r, s) with ⟨r1, s1⟩
  obtain ⟨m1, m2, m3, m4, m5, m6, m7, mA, mB, mC, mI, mV, mO⟩ :=
    stepMain_good pr p a fuel nrS s r d.mo hmatch.1
      (fun q hq => hfree q (i1 q hq))
  rw [hP1] at m1 m2 m3 m4 m5 m6 m7 mA mB mC mI mV mO
  dsimp only at m1 m2 m3 m4 m5 m6 m7 mA mB mC mI mV mO
  -- stage 2: after overlay
  obtain ⟨p2src, p2tgt⟩ := ren_pre (cname p a nrS) s s1 (moRoles d.mo)
    (maRoles d.ma) mC hfree12 hts12 x12 ne12
  have hslot2 : slotMatch s1 r1.aov d.ma := by
    rw [m2]
    refine slotMatch_of_eq hmatch.2.1 ?_
    intro nm c hdd
    exact p2src (ORole.mainA, nm, c) (by rw [hdd]; exact List.mem_cons_self _ _)
  rcases hP2 : stepAfter pr p a fuel nrS (r1, s1) with ⟨r2, s2⟩
  obtain ⟨a1, a2, a3, a4, a5, a6, a7, aA, aB, aC, aI, aV, aO⟩ :=
    stepAfter_good pr p a fuel nrS s1 r1 d.ma hslot2 p2tgt
  rw [hP2] at a1 a2 a3 a4 a5 a6 a7 aA aB aC aI aV aO
  dsimp only at a1 a2 a3 a4 a5 a6 a7 aA aB aC aI aV aO
  obtain ⟨A2c, B2c, C2c⟩ := ren_comp (cname p a nrS) s s1 s2 (moRoles d.mo)
    (maRoles d.ma) mA mB mC aA aB aC hts12 x12 ne12
  -- stage 3: ctx_list
  obtain ⟨p3src, p3tgt⟩ := ren_pre (cname p a nrS) s s2
    (moRoles d.mo ++ maRoles d.ma) (ctxRoles ORole.ctxK 1 d.mc)
    C2c hfree123 hts123 x23 hrd3
  have hm3 : List.Forall₂ (slotMatch s2) r2.ctx d.mc := by
    rw [a3, m3]
    refine forall₂_slotMatch_of hmatch.2.2.1 ?_
    intro nm c hmem
    obtain ⟨k, hk⟩ := ctxRoles_mem_of ORole.ctxK d.mc 1 nm c hmem
    exact p3src (ORole.ctxK k, nm, c) hk
  obtain ⟨c1, c2, c3, c4, c5, c6, c7⟩ :=
    renameList_good pr p a fuel nrS tyKontext ORole.ctxK
      (fun k => ⟨rfl, rfl⟩) (fun k k2 he => by injection he) hti
      r2.ctx d.mc s2 1 hm3 p3tgt
      (fun q hq q2 hq2 => hts q (i3 q hq) q2 (i3 q2 hq2)) n3
  rcases hP3 : stepCtx pr p a fuel nrS (r2, s2) with ⟨r3, s3⟩
  have hRL3s : (renameList pr p a fuel nrS tyKontext s2 r2.ctx 1).2 = s3 :=
    congrArg Prod.snd hP3
  have hRL3r : (renameList pr p a fuel nrS tyKontext s2 r2.ctx 1).1 = r3.ctx :=
    congrArg (fun x => x.1.ctx) hP3
  have ho3 : r2.ov = r3.ov := congrArg (fun x => x.1.ov) hP3
  have ha3 : r2.aov = r3.aov := congrArg (fun x => x.1.aov) hP3
  have hf3 : r2.addF = r3.addF := congrArg (fun x => x.1.addF) hP3
  have hA3 : r2.addA = r3.addA := congrArg (fun x => x.1.addA) hP3
  have hau3 : r2.audit = r3.audit := congrArg (fun x => x.1.audit) hP3
  have hnr3 : r2.nr = r3.nr := congrArg (fun x => x.1.nr) hP3
  rw [hRL3s] at c1 c2 c3 c4 c5 c6 c7
  rw [hRL3r] at c1
  obtain ⟨A3c, B3c, C3c⟩ := ren_comp (cname p a nrS) s s2 s3
    (moRoles d.mo ++ maRoles d.ma) (ctxRoles ORole.ctxK 1 d.mc)
    A2c B2c C2c c2 c3 c4 hts123 x23 hrd3
  -- stage 4: add_fehler_list
  obtain ⟨p4src, p4tgt⟩ := ren_pre (cname p a nrS) s s3
    ((moRoles d.mo ++ maRoles d.ma) ++ ctxRoles ORole.ctxK 1 d.mc)
    (ctxRoles ORole.addFe 1 d.mf) C3c hfree1234 hts1234 x34 hrd4
  have hm4 : List.Forall₂ (slotMatch s3) r3.addF d.mf := by
    rw [← hf3, a4, m4]
    refine forall₂_slotMatch_of hmatch.2.2.2.1 ?_
    intro nm c hmem
    obtain ⟨k, hk⟩ := ctxRoles_mem_of ORole.addFe d.mf 1 nm c hmem
    exact p4src (ORole.addFe k, nm, c) hk
  obtain ⟨g1, g2, g3, g4, g5, g6, g7⟩ :=
    renameList_good pr p a fuel nrS tyZusatzFehler ORole.addFe
      (fun k => ⟨rfl, rfl⟩) (fun k k2 he => by injection he) hti
      r3.addF d.mf s3 1 hm4 p4tgt
      (fun q hq q2 hq2 => hts q (i4 q hq) q2 (i4 q2 hq2)) n4
  rcases hP4 : stepAddF pr p a fuel nrS (r3, s3) with ⟨r4, s4⟩
  have hRL4s : (renameList pr p a fuel nrS tyZusatzFehler s3 r3.addF 1).2 = s4 :=
    congrArg Prod.snd hP4
  have hRL4r : (renameList pr p a fuel nrS tyZusatzFehler s3 r3.addF 1).1 =
      r4.addF := congrArg (fun x => x.1.addF) hP4
  have ho4 : r3.ov = r4.ov := congrArg (fun x => x.1.ov) hP4
  have ha4 : r3.aov = r4.aov := congrArg (fun x => x.1.aov) hP4
  have hc4 : r3.ctx = r4.ctx := congrArg (fun x => x.1.ctx) hP4
  have hA4 : r3.addA = r4.addA := congrArg (fun x => x.1.addA) hP4
  have hau4 : r3.audit = r4.audit := congrArg (fun x => x.1.audit) hP4
  have hnr4 : r3.nr = r4.nr := congrArg (fun x => x.1.nr) hP4
  rw [hRL4s] at g1 g2 g3 g4 g5 g6 g7
  rw [hRL4r] at g1
  obtain ⟨A4c, B4c, C4c⟩ := ren_comp (cname p a nrS) s s3 s4
    ((moRoles d.mo ++ maRoles d.ma) ++ ctxRoles ORole.ctxK 1 d.mc)
    (ctxRoles ORole.addFe 1 d.mf) A3c B3c C3c g2 g3 g4 hts1234 x34 hrd4
  -- stage 5: add_after_list
  obtain ⟨p5src, p5tgt⟩ := ren_pre (cname p a nrS) s s4
    (((moRoles d.mo ++ maRoles d.ma) ++ ctxRoles ORole.ctxK 1 d.mc) ++
      ctxRoles ORole.addFe 1 d.mf)
    (ctxRoles ORole.addNa 1 d.mn) C4c hfree hts x45 hrd5
  have hm5 : List.Forall₂ (slotMatch s4) r4.addA d.mn := by
    rw [← hA4, ← hA3, a5, m5]
    refine forall₂_slotMatch_of hmatch.2.2.2.2 ?_
    intro nm c hmem
    obtain ⟨k, hk⟩ := ctxRoles_mem_of ORole.addNa d.mn 1 nm c hmem
    exact p5src (ORole.addNa k, nm, c) hk
  obtain ⟨w1, w2, w3, w4, w5, w6, w7⟩ :=
    renameList_good pr p a fuel nrS tyZusatzNacharbeit ORole.addNa
      (fun k => ⟨rfl, rfl⟩) (fun k k2 he => by injection he) hti
      r4.addA d.mn s4 1 hm5 p5tgt
      (fun q hq q2 hq2 => hts q (List.mem_append_right _ hq) q2
        (List.mem_append_right _ hq2)) n5
  rcases hP5 : stepAddA pr p a fuel nrS (r4, s4) with ⟨r5, s5⟩
  have hRL5s : (renameList pr p a fuel nrS tyZusatzNacharbeit s4 r4.addA 1).2 =
      s5 := congrArg Prod.snd hP5
  have hRL5r : (renameList pr p a fuel nrS tyZusatzNacharbeit s4 r4.addA 1).1 =
      r5.addA := congrArg (fun x => x.1.addA) hP5
  have ho5 : r4.ov = r5.ov := congrArg (fun x => x.1.ov) hP5
  have ha5 : r4.aov = r5.aov := congrArg (fun x => x.1.aov) hP5
  have hc5 : r4.ctx = r5.ctx := congrArg (fun x => x.1.ctx) hP5
  have hf5 : r4.addF = r5.addF := congrArg (fun x => x.1.addF) hP5
  have hau5 : r4.audit = r5.audit := congrArg (fun x => x.1.audit) hP5
  have hnr5 : r4.nr = r5.nr := congrArg (fun x => x.1.nr) hP5
  rw [hRL5s] at w1 w2 w3 w4 w5 w6 w7
  rw [hRL5r] at w1
  obtain ⟨A5c, B5c, C5c⟩ := ren_comp (cname p a nrS) s s4 s5
    (((moRoles d.mo ++ maRoles d.ma) ++ ctxRoles ORole.ctxK 1 d.mc) ++
      ctxRoles ORole.addFe 1 d.mf)
    (ctxRoles ORole.addNa 1 d.mn) A4c B4c C4c w2 w3 w4 hts x45 hrd5
  -- assemble
  have hPR : processRec pr p a fuel nrS s r = (r5, s5) := by
    show stepAddA pr p a fuel nrS (stepAddF pr p a fuel nrS
      (stepCtx pr p a fuel nrS (stepAfter pr p a fuel nrS
        (stepMain pr p a fuel nrS (r, s))))) = (r5, s5)
    rw [hP1, hP2, hP3, hP4, hP5]
  rw [hPR]
  dsimp only
  have hov5 : r5.ov = r1.ov := by rw [← ho5, ← ho4, ← ho3, a2]
  have haov5 : r5.aov = r2.aov := by rw [← ha5, ← ha4, ← ha3]
  have hctx5 : r5.ctx = r3.ctx := by rw [← hc5, ← hc4]
  have haddF5 : r5.addF = r4.addF := by rw [← hf5]
  refine ⟨⟨?_, ?_, ?_, ?_, ?_⟩, A5c, B5c, C5c, ?_, ?_, ?_, ?_, ?_⟩
  · show slotMatch s5 r5.ov
      (d.mo.map (fun x => (cname p a nrS ORole.mainF, x.2)))
    rw [hov5]
    refine slotMatch_of_eq m1 ?_
    intro nm c hdd
    obtain ⟨x, hx, hfx⟩ := Option.map_eq_some'.1 hdd
    have hq : ((ORole.mainF, x.1, x.2) : ORole × Chars × γ) ∈ moRoles d.mo := by
      rw [hx]
      exact List.mem_cons_self _ _
    have hnm : nm = cname p a nrS ORole.mainF := (congrArg Prod.fst hfx).symm
    rw [hnm]
    exact (A5c (ORole.mainF, x.1, x.2) (i1 (ORole.mainF, x.1, x.2) hq)).trans
      (mA (ORole.mainF, x.1, x.2) hq).symm
  · show slotMatch s5 r5.aov
      (d.ma.map (fun x => (cname p a nrS ORole.mainA, x.2)))
    rw [haov5]
    refine slotMatch_of_eq a1 ?_
    intro nm c hdd
    obtain ⟨x, hx, hfx⟩ := Option.map_eq_some'.1 hdd
    have hq : ((ORole.mainA, x.1, x.2) : ORole × Chars × γ) ∈ maRoles d.ma := by
      rw [hx]
      exact List.mem_cons_self _ _
    have hnm : nm = cname p a nrS ORole.mainA := (congrArg Prod.fst hfx).symm
    rw [hnm]
    exact (A5c (ORole.mainA, x.1, x.2) (i2 (ORole.mainA, x.1, x.2) hq)).trans
      (aA (ORole.mainA, x.1, x.2) hq).symm
  · show List.Forall₂ (slotMatch s5) r5.ctx
      (ctxRename (cname p a nrS) ORole.ctxK 1 d.mc)
    rw [hctx5]
    refine forall₂_slotMatch_of c1 ?_
    intro nm c hmem
    obtain ⟨k, nm0, hnm, hpos⟩ := ctxRename_mem (cname p a nrS) ORole.ctxK
      d.mc 1 nm c hmem
    rw [hnm]
    exact (A5c (ORole.ctxK k, nm0, c) (i3 (ORole.ctxK k, nm0, c) hpos)).trans
      (c2 (ORole.ctxK k, nm0, c) hpos).symm
  · show List.Forall₂ (slotMatch s5) r5.addF
      (ctxRename (cname p a nrS) ORole.addFe 1 d.mf)
    rw [haddF5]
    refine forall₂_slotMatch_of g1 ?_
    intro nm c hmem
    obtain ⟨k, nm0, hnm, hpos⟩ := ctxRename_mem (cname p a nrS) ORole.addFe
      d.mf 1 nm c hmem
    rw [hnm]
    exact (A5c (ORole.addFe k, nm0, c) (i4 (ORole.addFe k, nm0, c) hpos)).trans
      (g2 (ORole.addFe k, nm0, c) hpos).symm
  · exact w1
  · exact w5.trans (g5.trans (c5.trans (aI.trans mI)))
  · exact w6.trans (g6.trans (c6.trans (aV.trans mV)))
  · exact w7.trans (g7.trans (c7.trans (aO.trans mO)))
  · rw [← hau5, ← hau4, ← hau3, a6, m6]
  · rw [← hnr5, ← hnr4, ← hnr3, a7, m7]

/-- The record-index descriptor list with every name replaced by its
target, starting at record index `i0`. -/
def rnDescsT {γ : Type} (T2 : Nat → ORole → Chars) :
    Nat → List (RDesc γ) → List (RDesc γ)
  | _, [] => []
  | i0, d :: ds => rnDesc (T2 i0) d :: rnDescsT T2 (i0 + 1) ds

theorem allPosFrom_idx {γ : Type} :
    ∀ (ds : List (RDesc γ)) (i0 : Nat) (jq : Nat × ORole × Chars × γ),
      jq ∈ allPosFrom i0 ds → i0 ≤ jq.1 := by
  intro ds
  induction ds with
  | nil => intro i0 jq h; exact absurd h (List.not_mem_nil jq)
  | cons d ds ih =>
    intro i0 jq h
    rcases List.mem_append.1 h with h | h
    · obtain ⟨q, _, he⟩ := List.mem_map.1 h
      rw [← he]
    · exact Nat.le_of_succ_le (ih (i0 + 1) jq h)

theorem allPosFrom_of_memDesc {γ : Type} :
    ∀ (ds : List (RDesc γ)) (i0 : Nat) (d0 : RDesc γ), d0 ∈ ds →
      ∀ q ∈ rolesOf d0, ∃ j, ((j, q) : Nat × ORole × Chars × γ) ∈ allPosFrom i0 ds := by
  intro ds
  induction ds with
  | nil => intro i0 d0 h; exact absurd h (List.not_mem_nil d0)
  | cons d ds ih =>
    intro i0 d0 hd q hq
    rcases List.mem_cons.1 hd with h | h
    · exact ⟨i0, List.mem_append_left _ (List.mem_map.2 ⟨q, h ▸ hq, rfl⟩)⟩
    · obtain ⟨j, hj⟩ := ih (i0 + 1) d0 h q hq
      exact ⟨j, List.mem_append_right _ hj⟩

theorem ctxRoles_ctxRename {γ : Type} (T : ORole → Chars) (mk : Nat → ORole) :
    ∀ (dl : List (Option (Chars × γ))) (k0 : Nat),
      ctxRoles mk k0 (ctxRename T mk k0 dl) =
        (ctxRoles mk k0 dl).map (fun q => (q.1, T q.1, q.2.2)) := by
  intro dl
  induction dl with
  | nil => intro k0; rfl
  | cons dd dtl ih =>
    intro k0
    match dd with
    | none => exact ih (k0 + 1)
    | some (nm, c) =>
      show (mk k0, T (mk k0), c) :: ctxRoles mk (k0 + 1) (ctxRename T mk (k0 + 1) dtl) = _
      rw [ih (k0 + 1)]
      rfl

theorem rolesOf_rnDesc {γ : Type} (T : ORole → Chars) (d : RDesc γ) :
    rolesOf (rnDesc T d) =
      (rolesOf d).map (fun q => (q.1, T q.1, q.2.2)) := by
  show (match (rnDesc T d).mo with
      | none => [] | some (nm, c) => [(ORole.mainF, nm, c)]) ++
    (match (rnDesc T d).ma with
      | none => [] | some (nm, c) => [(ORole.mainA, nm, c)]) ++
    ctxRoles ORole.ctxK 1 (rnDesc T d).mc ++
    ctxRoles ORole.addFe 1 (rnDesc T d).mf ++
    ctxRoles ORole.addNa 1 (rnDesc T d).mn = _
  show (match d.mo.map (fun x => (T ORole.mainF, x.2)) with
      | none => [] | some (nm, c) => [(ORole.mainF, nm, c)]) ++
    (match d.ma.map (fun x => (T ORole.mainA, x.2)) with
      | none => [] | some (nm, c) => [(ORole.mainA, nm, c)]) ++
    ctxRoles ORole.ctxK 1 (ctxRename T ORole.ctxK 1 d.mc) ++
    ctxRoles ORole.addFe 1 (ctxRename T ORole.addFe 1 d.mf) ++
    ctxRoles ORole.addNa 1 (ctxRename T ORole.addNa 1 d.mn) = _
  rw [ctxRoles_ctxRename, ctxRoles_ctxRename, ctxRoles_ctxRename]
  unfold rolesOf
  rcases d.mo with _ | ⟨nm, c⟩ <;> rcases d.ma with _ | ⟨nm2, c2⟩ <;>
    simp [List.map_append]

theorem recMatch_of_eq {s s2 : Store γ H} {r0 : RecR} {d0 : RDesc γ}
    (h : recMatch s r0 d0)
    (hp : ∀ q ∈ rolesOf d0, s2.ovl q.2.1 = s.ovl q.2.1) :
    recMatch s2 r0 d0 := by
  refine ⟨slotMatch_of_eq h.1 ?_, slotMatch_of_eq h.2.1 ?_,
    forall₂_slotMatch_of h.2.2.1 ?_, forall₂_slotMatch_of h.2.2.2.1 ?_,
    forall₂_slotMatch_of h.2.2.2.2 ?_⟩
  · intro nm c hdd
    exact hp (ORole.mainF, nm, c) (by
      rw [rolesOf_eq]
      exact List.mem_append_left _ (by rw [hdd]; exact List.mem_cons_self _ _))
  · intro nm c hdd
    exact hp (ORole.mainA, nm, c) (by
      rw [rolesOf_eq]
      exact List.mem_append_right _ (List.mem_append_left _
        (by rw [hdd]; exact List.mem_cons_self _ _)))
  · intro nm c hmem
    obtain ⟨k, hk⟩ := ctxRoles_mem_of ORole.ctxK d0.mc 1 nm c hmem
    exact hp (ORole.ctxK k, nm, c) (by
      rw [rolesOf_eq]
      exact List.mem_append_right _ (List.mem_append_right _
        (List.mem_append_left _ hk)))
  · intro nm c hmem
    obtain ⟨k, hk⟩ := ctxRoles_mem_of ORole.addFe d0.mf 1 nm c hmem
    exact hp (ORole.addFe k, nm, c) (by
      rw [rolesOf_eq]
      exact List.mem_append_right _ (List.mem_append_right _
        (List.mem_append_right _ (List.mem_append_left _ hk))))
  · intro nm c hmem
    obtain ⟨k, hk⟩ := ctxRoles_mem_of ORole.addNa d0.mn 1 nm c hmem
    exact hp (ORole.addNa k, nm, c) (by
      rw [rolesOf_eq]
      exact List.mem_append_right _ (List.mem_append_right _
        (List.mem_append_right _ (List.mem_append_right _ hk))))

theorem forall₂_recMatch_of {s s2 : Store γ H} :
    ∀ {rs : List RecR} {ds : List (RDesc γ)},
      List.Forall₂ (recMatch s) rs ds →
      (∀ d0 ∈ ds, ∀ q ∈ rolesOf d0, s2.ovl q.2.1 = s.ovl q.2.1) →
      List.Forall₂ (recMatch s2) rs ds := by
  intro rs ds h
  induction h with
  | nil => intro _; exact List.Forall₂.nil
  | cons h1 _ ih =>
    intro hp
    exact List.Forall₂.cons
      (recMatch_of_eq h1 (hp _ (List.mem_cons_self _ _)))
      (ih (fun d0 hd => hp d0 (List.mem_cons_of_mem _ hd)))

set_option maxHeartbeats 2000000 in
/-- The good case of one whole pass of `reindex_audit_images`: all records
match their descriptors, the sources are globally distinct, and the pass's
target names are free and disjoint from every source.  Every record ends
with its overlays renamed to the deterministic targets of its position,
all sources are gone, nothing else changes, and pass 2 sets the record
numbers. -/
theorem passGo_good (pr : Option Chars) (p a : Chars) (fuel : Nat)
    (nF : Nat → Chars) (setNr : Bool)
    (hTinj : ∀ i ro i2 ro2, cname p a (nF i) ro = cname p a (nF i2) ro2 →
      i = i2 ∧ ro = ro2) :
    ∀ (rs : List RecR) (ds : List (RDesc γ)) (s : Store γ H) (i0 : Nat),
      List.Forall₂ (recMatch s) rs ds →
      (∀ jq ∈ allPosFrom i0 ds, s.ovl (cname p a (nF jq.1) jq.2.1) = none) →
      (∀ jq ∈ allPosFrom i0 ds, ∀ jq2 ∈ allPosFrom i0 ds,
        cname p a (nF jq.1) jq.2.1 ≠ jq2.2.2.1) →
      ((allPosFrom i0 ds).map (fun jq => jq.2.2.1)).Nodup →
      List.Forall₂ (recMatch (passGo pr p a fuel nF setNr s rs i0).2)
          (passGo pr p a fuel nF setNr s rs i0).1
          (rnDescsT (fun i ro => cname p a (nF i) ro) i0 ds) ∧
      (∀ jq ∈ allPosFrom i0 ds,
        (passGo pr p a fuel nF setNr s rs i0).2.ovl
          (cname p a (nF jq.1) jq.2.1) = some jq.2.2.2) ∧
      (∀ jq ∈ allPosFrom i0 ds,
        (passGo pr p a fuel nF setNr s rs i0).2.ovl jq.2.2.1 = none) ∧
      (∀ x, (∀ jq ∈ allPosFrom i0 ds,
          x ≠ jq.2.2.1 ∧ x ≠ cname p a (nF jq.1) jq.2.1) →
        (passGo pr p a fuel nF setNr s rs i0).2.ovl x = s.ovl x) ∧
      (passGo pr p a fuel nF setNr s rs i0).2.img = s.img ∧
      (passGo pr p a fuel nF setNr s rs i0).2.vid = s.vid ∧
      (passGo pr p a fuel nF setNr s rs i0).2.other = s.other ∧
      (∀ j r0, rs.get? j = some r0 →
        ∃ r2, (passGo pr p a fuel nF setNr s rs i0).1.get? j = some r2 ∧
          r2.audit = r0.audit ∧
          r2.nr = (if setNr then nF (i0 + j) else r0.nr)) := by
  intro rs
  induction rs with
  | nil =>
    intro ds s i0 hm hfree hts hnd
    rw [List.forall₂_nil_left_iff.1 hm]
    exact ⟨List.Forall₂.nil, fun jq hq => absurd hq (List.not_mem_nil jq),
      fun jq hq => absurd hq (List.not_mem_nil jq), fun _ _ => rfl, rfl, rfl, rfl,
      fun j r0 hj => absurd hj (by simp)⟩
  | cons r rs ih =>
    intro ds s i0 hm hfree hts hnd
    rcases List.forall₂_cons_left_iff.1 hm with ⟨d, dtl, hmr, htail, rfl⟩
    have hsplit : allPosFrom i0 (d :: dtl) =
        (rolesOf d).map (fun q => ((i0, q) : Nat × ORole × Chars × γ)) ++
          allPosFrom (i0 + 1) dtl := rfl
    rw [hsplit] at hfree hts hnd ⊢
    have iH : ∀ q ∈ rolesOf d, ((i0, q) : Nat × ORole × Chars × γ) ∈
        (rolesOf d).map (fun q => ((i0, q) : Nat × ORole × Chars × γ)) ++
          allPosFrom (i0 + 1) dtl :=
      fun q hq => List.mem_append_left _ (List.mem_map.2 ⟨q, hq, rfl⟩)
    have iT : ∀ jq ∈ allPosFrom (i0 + 1) dtl,
        jq ∈ (rolesOf d).map (fun q => ((i0, q) : Nat × ORole × Chars × γ)) ++
          allPosFrom (i0 + 1) dtl :=
      fun jq hq => List.mem_append_right _ hq
    have hidx := allPosFrom_idx dtl (i0 + 1)
    obtain ⟨nh, nt, xht⟩ := nodup_map_app _ _ _ hnd
    have hndH : ((rolesOf d).map (fun q => q.2.1)).Nodup := by
      rw [List.map_map] at nh
      exact nh
    obtain ⟨PM, PA, PB, PC, PI, PV, PO, PAud, PNr⟩ :=
      processRec_good pr p a fuel (nF i0)
        (fun ro ro2 he => (hTinj i0 ro i0 ro2 he).2) s r d hmr
        (fun q hq => hfree (i0, q) (iH q hq))
        (fun q hq q2 hq2 => hts (i0, q) (iH q hq) (i0, q2) (iH q2 hq2))
        hndH
    rcases hQ1 : processRec pr p a fuel (nF i0) s r with ⟨r1, s1⟩
    rw [hQ1] at PM PA PB PC PI PV PO PAud PNr
    dsimp only at PM PA PB PC PI PV PO PAud PNr
    have hm1 : List.Forall₂ (recMatch s1) rs dtl := by
      refine forall₂_recMatch_of htail ?_
      intro d0 hd0 q hq
      obtain ⟨j, hj⟩ := allPosFrom_of_memDesc dtl (i0 + 1) d0 hd0 q hq
      refine PC q.2.1 ?_
      intro qh hqh
      refine ⟨?_, Ne.symm (hts (i0, qh) (iH qh hqh) (j, q) (iT (j, q) hj))⟩
      intro he
      exact xht (i0, qh) (List.mem_map.2 ⟨qh, hqh, rfl⟩) (j, q) hj he.symm
    have hfree1 : ∀ jq ∈ allPosFrom (i0 + 1) dtl,
        s1.ovl (cname p a (nF jq.1) jq.2.1) = none := by
      intro jq hjq
      rw [PC (cname p a (nF jq.1) jq.2.1) ?_]
      · exact hfree jq (iT jq hjq)
      · intro qh hqh
        refine ⟨hts jq (iT jq hjq) (i0, qh) (iH qh hqh), ?_⟩
        intro he2
        have hii := hTinj jq.1 jq.2.1 i0 qh.1 he2
        have hx := hidx jq hjq
        omega
    obtain ⟨QM, QA, QB, QC, QI, QV, QO, QNr⟩ :=
      ih dtl s1 (i0 + 1) hm1 hfree1
        (fun jq h1 jq2 h2 => hts jq (iT jq h1) jq2 (iT jq2 h2)) nt
    rcases hQ2 : passGo pr p a fuel nF setNr s1 rs (i0 + 1) with ⟨lst2, s2⟩
    rw [hQ2] at QM QA QB QC QI QV QO QNr
    dsimp only at QM QA QB QC QI QV QO QNr
    have hstep : passGo pr p a fuel nF setNr s (r :: rs) i0 =
        ((if setNr then { r1 with nr := nF i0 } else r1) :: lst2, s2) := by
      show ((if setNr then
          { (processRec pr p a fuel (nF i0) s r).1 with nr := nF i0 }
        else (processRec pr p a fuel (nF i0) s r).1) ::
          (passGo pr p a fuel nF setNr
            (processRec pr p a fuel (nF i0) s r).2 rs (i0 + 1)).1,
        (passGo pr p a fuel nF setNr
          (processRec pr p a fuel (nF i0) s r).2 rs (i0 + 1)).2) = _
      rw [hQ1]
      dsimp only
      rw [hQ2]
    rw [hstep]
    dsimp only
    have hQCframe : ∀ q ∈ rolesOf d,
        s2.ovl (cname p a (nF i0) q.1) = s1.ovl (cname p a (nF i0) q.1) := by
      intro q hq
      refine QC (cname p a (nF i0) q.1) ?_
      intro jq2 hjq2
      refine ⟨hts (i0, q) (iH q hq) jq2 (iT jq2 hjq2), ?_⟩
      intro he2
      have hii := hTinj i0 q.1 jq2.1 jq2.2.1 he2
      have hx := hidx jq2 hjq2
      omega
    have hPM2 : recMatch s2 r1
        (rnDesc (fun ro => cname p a (nF i0) ro) d) := by
      refine recMatch_of_eq PM ?_
      intro q hq
      rw [rolesOf_rnDesc] at hq
      obtain ⟨q0, hq0, he⟩ := List.mem_map.1 hq
      have hname : q.2.1 = cname p a (nF i0) q0.1 := by rw [← he]
      rw [hname]
      exact hQCframe q0 hq0
    have hifr : (if setNr then { r1 with nr := nF i0 } else r1) =
        { r1 with nr := if setNr then nF i0 else r1.nr } := by
      cases setNr <;> rfl
    refine ⟨?_, ?_, ?_, ?_, QI.trans PI, QV.trans PV, QO.trans PO, ?_⟩
    · refine List.Forall₂.cons ?_ QM
      rw [hifr]
      exact hPM2
    · intro jq hjq
      rcases List.mem_append.1 hjq with h | h
      · obtain ⟨q, hq, he⟩ := List.mem_map.1 h
        rw [← he]
        exact (hQCframe q hq).trans (PA q hq)
      · exact QA jq h
    · intro jq hjq
      rcases List.mem_append.1 hjq with h | h
      · obtain ⟨q, hq, he⟩ := List.mem_map.1 h
        rw [← he]
        show s2.ovl q.2.1 = none
        rw [QC q.2.1 ?_]
        · exact PB q hq
        · intro jq2 hjq2
          refine ⟨?_, Ne.symm (hts jq2 (iT jq2 hjq2) (i0, q) (iH q hq))⟩
          intro he2
          exact xht (i0, q) (List.mem_map.2 ⟨q, hq, rfl⟩) jq2 hjq2 he2
      · exact QB jq h
    · intro x hx
      rw [QC x (fun jq2 hjq2 => hx jq2 (iT jq2 hjq2))]
      exact PC x (fun q hq => hx (i0, q) (iH q hq))
    · intro j r0 hj
      match j with
      | 0 =>
        have hr0 : r = r0 := by
          have := hj
          rw [show (r :: rs).get? 0 = some r from rfl] at this
          exact Option.some.inj this
        refine ⟨(if setNr then { r1 with nr := nF i0 } else r1), rfl, ?_, ?_⟩
        · rw [hifr]
          show r1.audit = r0.audit
          rw [PAud, hr0]
        · rw [hifr]
          show (if setNr then nF i0 else r1.nr) =
            if setNr then nF (i0 + 0) else r0.nr
          cases setNr
          · show r1.nr = r0.nr
            rw [PNr, hr0]
          · show nF i0 = nF (i0 + 0)
            rw [Nat.add_zero]
      | j + 1 =>
        obtain ⟨r2, hg, hau, hnr⟩ := QNr j r0 hj
        refine ⟨r2, hg, hau, ?_⟩
        rw [hnr, show i0 + 1 + j = i0 + (j + 1) from by omega]

theorem fileAt_ovlPath (s : Store γ H) (fn : Chars) :
    fileAt s (pjoin mediaRoot (dirOvlF ++ fn)) = s.ovl fn := rfl

theorem forall₂_slotMatch_content {s : Store γ H} :
    ∀ {items : List (Option Chars)} {dl : List (Option (Chars × γ))},
      List.Forall₂ (slotMatch s) items dl →
      ∀ (nm : Chars) (c : γ), some (nm, c) ∈ dl → s.ovl nm = some c := by
  intro items dl h
  induction h with
  | nil => intro nm c hm; exact absurd hm (List.not_mem_nil _)
  | cons h1 _ ih =>
    intro nm c hm
    rcases List.mem_cons.1 hm with hx | hx
    · rw [← hx] at h1
      exact h1.2
    · exact ih nm c hx

theorem rolesOf_content {s : Store γ H} {r : RecR} {d : RDesc γ}
    (h : recMatch s r d) : ∀ q ∈ rolesOf d, s.ovl q.2.1 = some q.2.2 := by
  intro q hq
  rw [rolesOf_eq] at hq
  rcases List.mem_append.1 hq with h1 | h1
  · have h2 := h.1
    match hmo : d.mo with
    | none => rw [hmo] at h1; exact absurd h1 (List.not_mem_nil _)
    | some (nm, c) =>
      rw [hmo] at h1 h2
      rw [List.mem_singleton.1 h1]
      exact h2.2
  rcases List.mem_append.1 h1 with h2 | h2
  · have h3 := h.2.1
    match hma : d.ma with
    | none => rw [hma] at h2; exact absurd h2 (List.not_mem_nil _)
    | some (nm, c) =>
      rw [hma] at h2 h3
      rw [List.mem_singleton.1 h2]
      exact h3.2
  rcases List.mem_append.1 h2 with h3 | h3
  · obtain ⟨_, hmem⟩ := ctxRoles_mem ORole.ctxK d.mc 1 q h3
    exact forall₂_slotMatch_content h.2.2.1 q.2.1 q.2.2 hmem
  rcases List.mem_append.1 h3 with h4 | h4
  · obtain ⟨_, hmem⟩ := ctxRoles_mem ORole.addFe d.mf 1 q h4
    exact forall₂_slotMatch_content h.2.2.2.1 q.2.1 q.2.2 hmem
  · obtain ⟨_, hmem⟩ := ctxRoles_mem ORole.addNa d.mn 1 q h4
    exact forall₂_slotMatch_content h.2.2.2.2 q.2.1 q.2.2 hmem

theorem allPos_content {s : Store γ H} :
    ∀ {rs : List RecR} {ds : List (RDesc γ)},
      List.Forall₂ (recMatch s) rs ds →
      ∀ i0, ∀ jq ∈ allPosFrom i0 ds, s.ovl jq.2.2.1 = some jq.2.2.2 := by
  intro rs ds h
  induction h with
  | nil => intro i0 jq hjq; exact absurd hjq (List.not_mem_nil jq)
  | cons h1 _ ih =>
    intro i0 jq hjq
    rcases List.mem_append.1 hjq with hx | hx
    · obtain ⟨q, hq, he⟩ := List.mem_map.1 hx
      rw [← he]
      exact rolesOf_content h1 q hq
    · exact ih (i0 + 1) jq hx

theorem ctxRename_ctxRename {γ : Type} (T T' : ORole → Chars) (mk : Nat → ORole) :
    ∀ (dl : List (Option (Chars × γ))) (k0 : Nat),
      ctxRename T mk k0 (ctxRename T' mk k0 dl) = ctxRename T mk k0 dl := by
  intro dl
  induction dl with
  | nil => intro k0; rfl
  | cons dd dtl ih =>
    intro k0
    match dd with
    | none =>
      show none :: ctxRename T mk (k0 + 1) (ctxRename T' mk (k0 + 1) dtl) = _
      rw [ih (k0 + 1)]
      rfl
    | some (nm, c) =>
      show some (T (mk k0), c) ::
        ctxRename T mk (k0 + 1) (ctxRename T' mk (k0 + 1) dtl) = _
      rw [ih (k0 + 1)]
      rfl

theorem rnDesc_rnDesc {γ : Type} (T T' : ORole → Chars) (d : RDesc γ) :
    rnDesc T (rnDesc T' d) = rnDesc T d := by
  unfold rnDesc
  rw [ctxRename_ctxRename, ctxRename_ctxRename, ctxRename_ctxRename]
  rcases d.mo with _ | ⟨nm, c⟩ <;> rcases d.ma with _ | ⟨nm2, c2⟩ <;> rfl

theorem rnDescsT_rnDescsT {γ : Type} (T2 T2' : Nat → ORole → Chars) :
    ∀ (ds : List (RDesc γ)) (i0 : Nat),
      rnDescsT T2 i0 (rnDescsT T2' i0 ds) = rnDescsT T2 i0 ds := by
  intro ds
  induction ds with
  | nil => intro i0; rfl
  | cons d dtl ih =>
    intro i0
    show rnDesc (T2 i0) (rnDesc (T2' i0) d) ::
      rnDescsT T2 (i0 + 1) (rnDescsT T2' (i0 + 1) dtl) = _
    rw [rnDesc_rnDesc, ih (i0 + 1)]
    rfl

theorem allPosFrom_rnDescsT {γ : Type} (T2 : Nat → ORole → Chars) :
    ∀ (ds : List (RDesc γ)) (i0 : Nat),
      allPosFrom i0 (rnDescsT T2 i0 ds) =
        (allPosFrom i0 ds).map
          (fun jq => (jq.1, jq.2.1, T2 jq.1 jq.2.1, jq.2.2.2)) := by
  intro ds
  induction ds with
  | nil => intro i0; rfl
  | cons d dtl ih =>
    intro i0
    show (rolesOf (rnDesc (T2 i0) d)).map
        (fun q => ((i0, q) : Nat × ORole × Chars × γ)) ++
        allPosFrom (i0 + 1) (rnDescsT T2 (i0 + 1) dtl) =
      ((rolesOf d).map (fun q => ((i0, q) : Nat × ORole × Chars × γ)) ++
        allPosFrom (i0 + 1) dtl).map
          (fun jq => (jq.1, jq.2.1, T2 jq.1 jq.2.1, jq.2.2.2))
    rw [rolesOf_rnDesc, ih (i0 + 1), List.map_map,
      List.map_append, List.map_map]
    rfl

theorem ctxRoles_fst_shape {γ : Type} (mk : Nat → ORole)
    (dl : List (Option (Chars × γ))) (k0 : Nat) (x : ORole)
    (hx : x ∈ (ctxRoles mk k0 dl).map (fun q => q.1)) :
    ∃ k, k0 ≤ k ∧ x = mk k := by
  obtain ⟨q, hq, he⟩ := List.mem_map.1 hx
  obtain ⟨⟨k, hk, he2⟩, _⟩ := ctxRoles_mem mk dl k0 q hq
  exact ⟨k, hk, by rw [← he, he2]⟩

theorem ctxRoles_roles_nodup {γ : Type} (mk : Nat → ORole)
    (hinj : ∀ k k2, mk k = mk k2 → k = k2) :
    ∀ (dl : List (Option (Chars × γ))) (k0 : Nat),
      ((ctxRoles mk k0 dl).map (fun q => q.1)).Nodup := by
  intro dl
  induction dl with
  | nil => intro k0; exact List.nodup_nil
  | cons dd dtl ih =>
    intro k0
    match dd with
    | none => exact ih (k0 + 1)
    | some (nm, c) =>
      show (mk k0 :: (ctxRoles mk (k0 + 1) dtl).map (fun q => q.1)).Nodup
      refine List.nodup_cons.2 ⟨?_, ih (k0 + 1)⟩
      intro hmem
      obtain ⟨k, hk, he⟩ := ctxRoles_fst_shape mk dtl (k0 + 1) (mk k0) hmem
      have h3 := hinj k0 k he
      omega

theorem rolesOf_roles_nodup {γ : Type} (d : RDesc γ) :
    ((rolesOf d).map (fun q => q.1)).Nodup := by
  have hOptMem : ∀ (o : Option (Chars × γ)) (ro : ORole),
      ∀ x ∈ ((match o with
        | none => []
        | some p => [(ro, p.1, p.2)]) : List (ORole × Chars × γ)).map
          (fun q => q.1), x = ro := by
    intro o ro x hx
    match o with
    | none => exact absurd hx (List.not_mem_nil x)
    | some (nm, c) => exact List.mem_singleton.1 hx
  have hOptNd : ∀ (o : Option (Chars × γ)) (ro : ORole),
      (((match o with
        | none => []
        | some p => [(ro, p.1, p.2)]) : List (ORole × Chars × γ)).map
          (fun q => q.1)).Nodup := by
    intro o ro
    match o with
    | none => exact List.nodup_nil
    | some (nm, c) => exact List.nodup_singleton ro
  have hshape : rolesOf d =
      ((match d.mo with
        | none => []
        | some p => [(ORole.mainF, p.1, p.2)]) : List (ORole × Chars × γ)) ++
      ((match d.ma with
        | none => []
        | some p => [(ORole.mainA, p.1, p.2)]) : List (ORole × Chars × γ)) ++
      ctxRoles ORole.ctxK 1 d.mc ++ ctxRoles ORole.addFe 1 d.mf ++
      ctxRoles ORole.addNa 1 d.mn := by
    unfold rolesOf
    rcases d.mo with _ | ⟨nm, c⟩ <;> rcases d.ma with _ | ⟨nm2, c2⟩ <;> rfl
  rw [hshape]
  simp only [List.map_append]
  refine (((((hOptNd d.mo ORole.mainF).append (hOptNd d.ma ORole.mainA)
    ?_).append (ctxRoles_roles_nodup ORole.ctxK
      (fun k k2 h => by injection h) d.mc 1) ?_).append
    (ctxRoles_roles_nodup ORole.addFe
      (fun k k2 h => by injection h) d.mf 1) ?_).append
    (ctxRoles_roles_nodup ORole.addNa
      (fun k k2 h => by injection h) d.mn 1) ?_)
  · intro x hx hy
    rw [hOptMem d.mo ORole.mainF x hx] at hy
    have h2 := hOptMem d.ma ORole.mainA _ hy
    exact ORole.noConfusion h2
  · intro x hx hy
    obtain ⟨k, _, he⟩ := ctxRoles_fst_shape ORole.ctxK d.mc 1 x hy
    rcases List.mem_append.1 hx with h | h
    · rw [hOptMem d.mo ORole.mainF x h] at he
      exact ORole.noConfusion he
    · rw [hOptMem d.ma ORole.mainA x h] at he
      exact ORole.noConfusion he
  · intro x hx hy
    obtain ⟨k, _, he⟩ := ctxRoles_fst_shape ORole.addFe d.mf 1 x hy
    rcases List.mem_append.1 hx with h | h
    · rcases List.mem_append.1 h with h2 | h2
      · rw [hOptMem d.mo ORole.mainF x h2] at he
        exact ORole.noConfusion he
      · rw [hOptMem d.ma ORole.mainA x h2] at he
        exact ORole.noConfusion he
    · obtain ⟨k2, _, he2⟩ := ctxRoles_fst_shape ORole.ctxK d.mc 1 x h
      rw [he2] at he
      exact ORole.noConfusion he
  · intro x hx hy
    obtain ⟨k, _, he⟩ := ctxRoles_fst_shape ORole.addNa d.mn 1 x hy
    rcases List.mem_append.1 hx with h | h
    · rcases List.mem_append.1 h with h2 | h2
      · rcases List.mem_append.1 h2 with h3 | h3
        · rw [hOptMem d.mo ORole.mainF x h3] at he
          exact ORole.noConfusion he
        · rw [hOptMem d.ma ORole.mainA x h3] at he
          exact ORole.noConfusion he
      · obtain ⟨k2, _, he2⟩ := ctxRoles_fst_shape ORole.ctxK d.mc 1 x h2
        rw [he2] at he
        exact ORole.noConfusion he
    · obtain ⟨k2, _, he2⟩ := ctxRoles_fst_shape ORole.addFe d.mf 1 x h
      rw [he2] at he
      exact ORole.noConfusion he

theorem allPosFrom_pairs_nodup {γ : Type} :
    ∀ (ds : List (RDesc γ)) (i0 : Nat),
      ((allPosFrom i0 ds).map (fun jq => (jq.1, jq.2.1))).Nodup := by
  intro ds
  induction ds with
  | nil => intro i0; exact List.nodup_nil
  | cons d dtl ih =>
    intro i0
    show ((((rolesOf d).map (fun q => ((i0, q) : Nat × ORole × Chars × γ)) ++
      allPosFrom (i0 + 1) dtl)).map (fun jq => (jq.1, jq.2.1))).Nodup
    rw [List.map_append, List.map_map]
    refine List.Nodup.append ?_ (ih (i0 + 1)) ?_
    · have h1 := (rolesOf_roles_nodup d).map
        (f := fun x => ((i0, x) : Nat × ORole))
        (fun a b h => congrArg Prod.snd h)
      rw [List.map_map] at h1
      exact h1
    · intro x hx hy
      obtain ⟨q, hq, he⟩ := List.mem_map.1 hx
      obtain ⟨jq, hjq, he2⟩ := List.mem_map.1 hy
      have h1 := allPosFrom_idx dtl (i0 + 1) jq hjq
      have e1 : x.1 = i0 := by rw [← he]; rfl
      have e2 : x.1 = jq.1 := by rw [← he2]
      omega

theorem target_names_nodup {γ : Type} (p a : Chars) (nF : Nat → Chars)
    (hTinj : ∀ i ro i2 ro2, cname p a (nF i) ro = cname p a (nF i2) ro2 →
      i = i2 ∧ ro = ro2) (ds : List (RDesc γ)) (i0 : Nat) :
    ((allPosFrom i0 ds).map
      (fun jq => cname p a (nF jq.1) jq.2.1)).Nodup := by
  have hp := allPosFrom_pairs_nodup ds i0
  have hinj := List.inj_on_of_nodup_map hp
  refine List.Nodup.map_on ?_ (List.Nodup.of_map _ hp)
  intro x hx y hy he
  obtain ⟨e1, e2⟩ := hTinj x.1 x.2.1 y.1 y.2.1 he
  exact hinj hx hy (by rw [e1, e2])

set_option maxHeartbeats 2000000 in
/-- C3: for an audit whose records carry overlays (each record matching its
descriptor of current overlay files), after `reindex_audit_images`
reassigns the sorted records to numbers `001, 002, …` — including
permuted numberings where a record's new number equals a different
record's old number (the final target name may coincide with another
record's current file name, second disjunct of `h2free`) — every final
overlay filename is unique, every record's stored overlay reference is
the deterministic final name for its role and slot with the original
content at that name, `resolve_media_path` resolves each such reference
to its existing overlay file, every record's `nr` is its 1-based position
`{i+1:03d}`, and no other file in the store is touched. -/
theorem C3_reindex (pr : Option Chars) (projId auditId : Chars) (fuel : Nat)
    (index : List RecR) (ds : List (RDesc γ)) (s : Store γ H)
    (hm : List.Forall₂ (recMatch s) (audSorted index auditId) ds)
    (h1free : ∀ jq ∈ allPosFrom 0 ds,
      s.ovl (cname projId auditId (tmpNr jq.1) jq.2.1) = none)
    (h2free : ∀ jq ∈ allPosFrom 0 ds,
      s.ovl (cname projId auditId (finNr jq.1) jq.2.1) = none ∨
      cname projId auditId (finNr jq.1) jq.2.1 ∈
        (allPosFrom 0 ds).map (fun jq2 => jq2.2.2.1))
    (hts : ∀ jq ∈ allPosFrom 0 ds, ∀ jq2 ∈ allPosFrom 0 ds,
      cname projId auditId (tmpNr jq.1) jq.2.1 ≠ jq2.2.2.1)
    (hnd : ((allPosFrom 0 ds).map (fun jq => jq.2.2.1)).Nodup) :
    ((allPosFrom 0 ds).map
      (fun jq => cname projId auditId (finNr jq.1) jq.2.1)).Nodup ∧
    List.Forall₂
      (recMatch (reindexAuditImages pr projId fuel index auditId s).2)
      (reindexAuditImages pr projId fuel index auditId s).1
      (rnDescsT (fun i ro => cname projId auditId (finNr i) ro) 0 ds) ∧
    (∀ jq ∈ allPosFrom 0 ds,
      (reindexAuditImages pr projId fuel index auditId s).2.ovl
        (cname projId auditId (finNr jq.1) jq.2.1) = some jq.2.2.2) ∧
    (∀ jq ∈ allPosFrom 0 ds,
      resolveMediaPath (reindexAuditImages pr projId fuel index auditId s).2
        (dirOvlF ++ cname projId auditId (finNr jq.1) jq.2.1) pr =
        some (pjoin mediaRoot
          (dirOvlF ++ cname projId auditId (finNr jq.1) jq.2.1))) ∧
    (reindexAuditImages pr projId fuel index auditId s).2.img = s.img ∧
    (reindexAuditImages pr projId fuel index auditId s).2.vid = s.vid ∧
    (reindexAuditImages pr projId fuel index auditId s).2.other = s.other ∧
    (∀ j r0, (audSorted index auditId).get? j = some r0 →
      ∃ r2, (reindexAuditImages pr projId fuel index auditId s).1.get? j =
          some r2 ∧
        r2.audit = r0.audit ∧ r2.nr = finNr j) := by
  refine ⟨target_names_nodup projId auditId finNr
    (fun i ro i2 ro2 h => fin_cname_inj h) ds 0, ?_⟩
  by_cases hE : audSorted index auditId = []
  · have hds : ds = [] := by
      rw [hE] at hm
      exact List.forall₂_nil_left_iff.1 hm
    subst hds
    have hres : reindexAuditImages pr projId fuel index auditId s = ([], s) := by
      unfold reindexAuditImages
      rw [hE]
      rfl
    rw [hres]
    refine ⟨List.Forall₂.nil, ?_, ?_, rfl, rfl, rfl, ?_⟩
    · intro jq hjq
      exact absurd hjq (List.not_mem_nil jq)
    · intro jq hjq
      exact absurd hjq (List.not_mem_nil jq)
    · intro j r0 hj
      rw [hE] at hj
      exact absurd hj (by simp)
  · have hE2 : (audSorted index auditId).isEmpty = false :=
      isEmpty_false_of_ne_nil hE
    have hres : reindexAuditImages pr projId fuel index auditId s =
        passGo pr projId auditId fuel finNr true
          (passGo pr projId auditId fuel tmpNr false s
            (audSorted index auditId) 0).2
          (passGo pr projId auditId fuel tmpNr false s
            (audSorted index auditId) 0).1 0 := by
      unfold reindexAuditImages
      rw [hE2]
      rfl
    obtain ⟨PM, PA, PB, PC, PI, PV, PO, PNr⟩ :=
      passGo_good pr projId auditId fuel tmpNr false
        (fun i ro i2 ro2 h => tmp_cname_inj h)
        (audSorted index auditId) ds s 0 hm h1free hts hnd
    rcases hQ1 : passGo pr projId auditId fuel tmpNr false s
        (audSorted index auditId) 0 with ⟨lst1, s1⟩
    rw [hQ1] at PM PA PB PC PI PV PO PNr hres
    dsimp only at PM PA PB PC PI PV PO PNr hres
    have hAP : allPosFrom 0
        (rnDescsT (fun i ro => cname projId auditId (tmpNr i) ro) 0 ds) =
        (allPosFrom 0 ds).map (fun jq => (jq.1, jq.2.1,
          cname projId auditId (tmpNr jq.1) jq.2.1, jq.2.2.2)) :=
      allPosFrom_rnDescsT _ ds 0
    have h2freeB : ∀ jq ∈ allPosFrom 0
        (rnDescsT (fun i ro => cname projId auditId (tmpNr i) ro) 0 ds),
        s1.ovl (cname projId auditId (finNr jq.1) jq.2.1) = none := by
      intro jq hjq
      rw [hAP] at hjq
      obtain ⟨jq0, hjq0, he⟩ := List.mem_map.1 hjq
      have e1 : jq.1 = jq0.1 := by rw [← he]
      have e2 : jq.2.1 = jq0.2.1 := by rw [← he]
      rw [e1, e2]
      rcases h2free jq0 hjq0 with hc | hc
      · rw [PC (cname projId auditId (finNr jq0.1) jq0.2.1) ?_]
        · exact hc
        · intro jq2 hjq2
          refine ⟨?_, Ne.symm tmp_cname_ne_fin⟩
          intro he2
          have hco := allPos_content hm 0 jq2 hjq2
          rw [← he2, hc] at hco
          exact Option.noConfusion hco
      · obtain ⟨jq2, hjq2, he2⟩ := List.mem_map.1 hc
        rw [← he2]
        exact PB jq2 hjq2
    have hts2 : ∀ jq ∈ allPosFrom 0
        (rnDescsT (fun i ro => cname projId auditId (tmpNr i) ro) 0 ds),
        ∀ jq2 ∈ allPosFrom 0
          (rnDescsT (fun i ro => cname projId auditId (tmpNr i) ro) 0 ds),
        cname projId auditId (finNr jq.1) jq.2.1 ≠ jq2.2.2.1 := by
      intro jq hjq jq2 hjq2
      rw [hAP] at hjq2
      obtain ⟨jq0, hjq0, he⟩ := List.mem_map.1 hjq2
      have e3 : jq2.2.2.1 = cname projId auditId (tmpNr jq0.1) jq0.2.1 := by
        rw [← he]
      rw [e3]
      exact Ne.symm tmp_cname_ne_fin
    have hnd2 : ((allPosFrom 0
        (rnDescsT (fun i ro => cname projId auditId (tmpNr i) ro) 0 ds)).map
          (fun jq => jq.2.2.1)).Nodup := by
      rw [hAP, List.map_map]
      exact target_names_nodup projId auditId tmpNr
        (fun i ro i2 ro2 h => tmp_cname_inj h) ds 0
    obtain ⟨QM, QA, QB, QC, QI, QV, QO, QNr⟩ :=
      passGo_good pr projId auditId fuel finNr true
        (fun i ro i2 ro2 h => fin_cname_inj h)
        lst1 (rnDescsT (fun i ro => cname projId auditId (tmpNr i) ro) 0 ds)
        s1 0 PM h2freeB hts2 hnd2
    rw [rnDescsT_rnDescsT] at QM
    rw [hres]
    have hmem2 : ∀ jq ∈ allPosFrom 0 ds,
        ((jq.1, jq.2.1, cname projId auditId (tmpNr jq.1) jq.2.1, jq.2.2.2) :
          Nat × ORole × Chars × γ) ∈ allPosFrom 0
            (rnDescsT (fun i ro => cname projId auditId (tmpNr i) ro) 0 ds) := by
      intro jq hjq
      rw [hAP]
      exact List.mem_map.2 ⟨jq, hjq, rfl⟩
    refine ⟨QM, ?_, ?_, QI.trans PI, QV.trans PV, QO.trans PO, ?_⟩
    · intro jq hjq
      exact QA (jq.1, jq.2.1, cname projId auditId (tmpNr jq.1) jq.2.1,
        jq.2.2.2) (hmem2 jq hjq)
    · intro jq hjq
      have hco := QA (jq.1, jq.2.1,
        cname projId auditId (tmpNr jq.1) jq.2.1, jq.2.2.2) (hmem2 jq hjq)
      refine resolve_ovlRef_pos _ _ pr ?_
      unfold exA
      rw [fileAt_ovlPath]
      rw [show (passGo pr projId auditId fuel finNr true s1 lst1 0).2.ovl
          (cname projId auditId (finNr jq.1) jq.2.1) = some jq.2.2.2 from hco]
      rfl
    · intro j r0 hj
      obtain ⟨r1, hg1, hau1, hnr1⟩ := PNr j r0 hj
      obtain ⟨r2, hg2, hau2, hnr2⟩ := QNr j r1 hg1
      refine ⟨r2, hg2, hau2.trans hau1, ?_⟩
      rw [hnr2]
      show finNr (0 + j) = finNr j
      rw [Nat.zero_add]

/-- Witness data for the reindex theorem: two records of audit `A` whose
current overlay files carry each other's final numbers (record `recA` is
numbered `001` but its file carries the `002` name, record `recB` is
numbered `002` but its file carries the `001` name), so each pass-2
target name equals the other record's old file name. -/
def pC3 : Chars := "P".data

def aC3 : Chars := "A".data

def nmA : Chars := cname pC3 aC3 (finNr 1) ORole.mainF

def nmB : Chars := cname pC3 aC3 (finNr 0) ORole.mainF

def recA : RecR := ⟨aC3, "001".data, some (dirOvlF ++ nmA), none, [], [], []⟩

def recB : RecR := ⟨aC3, "002".data, some (dirOvlF ++ nmB), none, [], [], []⟩

def dsC3 : List (RDesc Nat) :=
  [⟨some (nmA, 10), none, [], [], []⟩, ⟨some (nmB, 20), none, [], [], []⟩]

def storeC3 : Store Nat Nat :=
  ⟨[], [], fun x => if x = nmA then some 10 else
    if x = nmB then some 20 else none,
   fun _ => none, [], [], true, 0⟩

/-- C3 witness: on the two-record permuted-numbering instance the final
names are distinct, record `recA`'s content 10 ends under the `001` name
(its new number, which was `recB`'s old file name), record `recB`'s
content 20 ends under the `002` name, and the final reference resolves. -/
theorem C3_reindex_witness :
    ((allPosFrom 0 dsC3).map
      (fun jq => cname pC3 aC3 (finNr jq.1) jq.2.1)).Nodup ∧
    (reindexAuditImages none pC3 1 [recA, recB] aC3 storeC3).2.ovl nmB =
      some 10 ∧
    (reindexAuditImages none pC3 1 [recA, recB] aC3 storeC3).2.ovl nmA =
      some 20 ∧
    resolveMediaPath
      (reindexAuditImages none pC3 1 [recA, recB] aC3 storeC3).2
      (dirOvlF ++ nmB) none =
      some (pjoin mediaRoot (dirOvlF ++ nmB)) := by
  obtain ⟨h1, _, h3, h4, _⟩ :=
    C3_reindex none pC3 aC3 1 [recA, recB] dsC3 storeC3
      (by
        have hsort : audSorted [recA, recB] aC3 = [recA, recB] := by
          unfold audSorted
          rw [List.filter_eq_self.2 (by decide)]
          exact List.mergeSort_of_sorted (by decide)
        rw [hsort]
        exact List.Forall₂.cons ⟨⟨rfl, by decide⟩, rfl, List.Forall₂.nil,
          List.Forall₂.nil, List.Forall₂.nil⟩
          (List.Forall₂.cons ⟨⟨rfl, by decide⟩, rfl, List.Forall₂.nil,
            List.Forall₂.nil, List.Forall₂.nil⟩ List.Forall₂.nil))
      (by decide) (by decide) (by decide) (by decide)
  exact ⟨h1, h3 (0, ORole.mainF, nmA, 10) (by decide),
    h3 (1, ORole.mainF, nmB, 20) (by decide),
    h4 (0, ORole.mainF, nmA, 10) (by decide)⟩

end AuditTool